import Mathlib

/-! # distbuild: scheduler, coordinator and status writer

A shallow embedding of `distbuild/pkg/scheduler`, `distbuild/pkg/dist` and the
status writer of `distbuild/pkg/api`, with the properties of the scheduling
core proved about it.

Conventions of the embedding:

* a Go method with receiver state becomes a function from the state to the
  result paired with the state after the call;
* a call that waits (a send on a full channel, a receive on an empty one, a
  lock that is held) has outcome `Exec.blocked`, a Go panic `Exec.crash`;
* a Go `map` is an association list with unique keys (`GoMap`); the order of
  the list is the order in which `range` visits the entries;
* a buffered channel is the list of the values it holds, oldest first (`Chan`);
* pointers to `buildData` are indices into a heap kept by the coordinator;
* logging is left out.
-/

namespace Distbuild

/-! ## Go runtime: outcomes, maps, channels, locks -/

/-- Outcome of a call: it returns, it waits for ever (the state given with the
outcome is the one it waits in), or it panics. -/
inductive Exec (α : Type) where
  | ok (a : α)
  | blocked
  | crash (msg : String)
deriving DecidableEq, Repr

/-- A Go map as an association list. -/
abbrev GoMap (κ ν : Type) := List (κ × ν)

/-- Map lookup `m[k]` with the comma-ok flag as an `Option`. -/
def GoMap.load {κ ν : Type} [DecidableEq κ] : GoMap κ ν → κ → Option ν
  | [], _ => none
  | (k', v) :: rest, k => if k' = k then some v else GoMap.load rest k

/-- Map assignment `m[k] = v`: the old entry of `k`, if any, is replaced. -/
def GoMap.store {κ ν : Type} [DecidableEq κ] (m : GoMap κ ν) (k : κ) (v : ν) : GoMap κ ν :=
  (k, v) :: m.filter (fun e => !decide (e.1 = k))

/-- The keys of a map, in iteration order. -/
def GoMap.keys {κ ν : Type} (m : GoMap κ ν) : List κ := m.map Prod.fst

/-- The values of a map, in iteration order. -/
def GoMap.values {κ ν : Type} (m : GoMap κ ν) : List ν := m.map Prod.snd

/-- A buffered channel: the values waiting in it (oldest first), its capacity,
and whether `close` was called on it. `taken` keeps the values received so
far, oldest first; it is a record of the past that no operation reads. -/
structure Chan (α : Type) where
  buf : List α
  cap : Nat
  closed : Bool
  taken : List α := []
deriving DecidableEq, Repr

/-- The channel `make(chan T, cap)`. -/
def Chan.make {α : Type} (cap : Nat) : Chan α :=
  { buf := [], cap := cap, closed := false, taken := [] }

/-- Every value sent on the channel so far, in the order of the sends. -/
def Chan.sent {α : Type} (ch : Chan α) : List α := ch.taken ++ ch.buf

/-- The send `ch <- a`: panics on a closed channel, waits on a full one. -/
def Chan.send {α : Type} (ch : Chan α) (a : α) : Exec (Chan α) :=
  if ch.closed then .crash "send on closed channel"
  else if ch.buf.length < ch.cap then .ok { ch with buf := ch.buf ++ [a] }
  else .blocked

/-- The receive `<-ch`: the oldest value; the zero value (`none`) from a closed
and drained channel; waits on an empty open one. -/
def Chan.recv {α : Type} (ch : Chan α) : Exec (Option α × Chan α) :=
  match ch.buf with
  | a :: rest => .ok (some a, { ch with buf := rest, taken := ch.taken ++ [a] })
  | [] => if ch.closed then .ok (none, ch) else .blocked

/-- The call `close(ch)`: panics when the channel is closed already. -/
def Chan.close {α : Type} (ch : Chan α) : Exec (Chan α) :=
  if ch.closed then .crash "close of closed channel" else .ok { ch with closed := true }

/-- A `sync.RWMutex`: the number of read locks held, and whether a writer has
announced itself. A writer announces itself as soon as it calls `Lock`; it
holds the lock when no read lock is held, and otherwise it is pending: it waits
for the readers that were there to leave. -/
structure RWMutex where
  readers : Nat
  writer : Bool
deriving DecidableEq, Repr

/-- `RLock`: waits (`none`) while a writer holds the lock or is pending. -/
def RWMutex.RLock (m : RWMutex) : Option RWMutex :=
  if m.writer then none else some { m with readers := m.readers + 1 }

/-- `RUnlock`. -/
def RWMutex.RUnlock (m : RWMutex) : RWMutex := { m with readers := m.readers - 1 }

/-- `Lock`: whether the lock was acquired, and the mutex after the call.
Behind another writer the call waits and changes nothing. Otherwise the writer
announces itself, so that every later `RLock` waits; it has the lock if no read
lock is held, and is left pending if one is. -/
def RWMutex.Lock (m : RWMutex) : Bool × RWMutex :=
  if m.writer then (false, m)
  else (decide (m.readers = 0), { m with writer := true })

/-- `Unlock`. -/
def RWMutex.Unlock (m : RWMutex) : RWMutex := { m with writer := false }

/-! ## Data model (`build` and `api` packages) -/

/-- Modelled from the spec: `build.ID`, whose declaration is outside the given
sources. An identifier is given by its canonical text form. -/
structure ID where
  text : String
deriving DecidableEq, Repr

/-- The canonical text form `id.String()`. -/
def ID.String (id : ID) : String := id.text

/-- The zero value of `build.ID` (what a map lookup of an absent key yields). -/
def ID.zero : ID := ⟨"0000000000000000000000000000000000000000"⟩

/-- `api.WorkerID`, a Go string. -/
abbrev WorkerID := String

/-- Modelled from the spec: `build.Cmd`, with the fields `Worker.Run` reads. -/
structure Cmd where
  Exec : List String
  Environ : List String
  WorkingDirectory : String
  CatTemplate : String
  CatOutput : String
deriving DecidableEq, Repr

/-- Modelled from the spec: `build.Job`, an immutable record of `id`, `inputs`
(names of source files), `deps` (ids of jobs whose artifacts are read) and
`cmds`. -/
structure Job where
  ID : ID
  Inputs : List String
  Deps : List Distbuild.ID
  Cmds : List Cmd
deriving DecidableEq, Repr

/-- `api.JobResult`. -/
structure JobResult where
  ID : ID
  Stdout : List UInt8 := []
  Stderr : List UInt8 := []
  ExitCode : Int := 0
  Error : Option String := none
  buildID : Distbuild.ID := Distbuild.ID.zero
deriving DecidableEq, Repr

/-- `api.JobSpec`; the embedded `build.Job` is the field `Job`. -/
structure JobSpec where
  SourceFiles : GoMap ID String
  Artifacts : GoMap ID WorkerID
  Job : Job
  buildID : ID := ID.zero
deriving DecidableEq, Repr

/-- The promoted field `spec.ID` of the embedded job. -/
def JobSpec.ID (spec : JobSpec) : ID := spec.Job.ID

/-! ## Scheduler (`scheduler/scheduler.go`) -/

/-- `scheduler.PendingJob`. `Finished` is the identity of the channel made for
the job; `Result` is the record `Result` points to. -/
structure PendingJob where
  Job : JobSpec
  Finished : Nat
  Result : JobResult
deriving DecidableEq, Repr

/-- `scheduler.Config`, durations in nanoseconds. -/
structure Config where
  CacheTimeout : Nat
  DepsTimeout : Nat
deriving DecidableEq, Repr

/-- `scheduler.Scheduler`. `artifactLocations` is the `sync.Map` from
`id.String()` to the worker; `nextChan` counts the channels made by
`ScheduleJob`, so that each `make(chan struct{})` is a new channel. -/
structure Scheduler where
  config : Config
  jobsQue : Chan PendingJob
  artifactLocations : GoMap String WorkerID
  stopped : Bool
  stoppedMu : RWMutex
  stoppedCh : Chan Unit
  nextChan : Nat
deriving DecidableEq, Repr

/-- `NewScheduler`. -/
def NewScheduler (config : Config) : Scheduler :=
  { config := config
    jobsQue := Chan.make 100
    artifactLocations := []
    stopped := false
    stoppedMu := { readers := 0, writer := false }
    stoppedCh := Chan.make 0
    nextChan := 0 }

/-- `Scheduler.LocateArtifact`. -/
def LocateArtifact (c : Scheduler) (id : ID) : WorkerID × Bool :=
  match GoMap.load c.artifactLocations id.String with
  | some workerID => (workerID, true)
  | none => ("", false)

/-- `Scheduler.OnJobComplete`: the result and the scheduler after the call.
The location is stored under `res.ID`; the parameter `jobID` is not read. -/
def OnJobComplete (c : Scheduler) (workerID : WorkerID) (_jobID : ID) (res : JobResult) :
    Bool × Scheduler :=
  if res.ExitCode = 0 then
    (true, { c with artifactLocations := GoMap.store c.artifactLocations res.ID.String workerID })
  else
    (false, c)

/-- Lines 75-82 of `Scheduler.ScheduleJob`: the read lock is taken, and on the
stopped path the function returns nil (`none`) with the lock still held;
otherwise the lock is released and the `PendingJob` is made. -/
def ScheduleJob.enter (c : Scheduler) (job : JobSpec) : Exec (Option PendingJob) × Scheduler :=
  match c.stoppedMu.RLock with
  | none => (.blocked, c)
  | some mu =>
    let c1 := { c with stoppedMu := mu }
    if c1.stopped then (.ok none, c1)
    else
      let c2 := { c1 with stoppedMu := c1.stoppedMu.RUnlock }
      let p : PendingJob := { Job := job, Finished := c2.nextChan, Result := { ID := job.ID } }
      (.ok (some p), { c2 with nextChan := c2.nextChan + 1 })

/-- Line 83 of `Scheduler.ScheduleJob`: the send `c.jobsQue <- &p`. -/
def ScheduleJob.push (c : Scheduler) (p : PendingJob) : Exec Unit × Scheduler :=
  match c.jobsQue.send p with
  | .ok q => (.ok (), { c with jobsQue := q })
  | .blocked => (.blocked, c)
  | .crash msg => (.crash msg, c)

/-- `Scheduler.ScheduleJob`. -/
def ScheduleJob (c : Scheduler) (job : JobSpec) : Exec (Option PendingJob) × Scheduler :=
  match ScheduleJob.enter c job with
  | (.ok (some p), c1) =>
    match ScheduleJob.push c1 p with
    | (.ok (), c2) => (.ok (some p), c2)
    | (.blocked, c2) => (.blocked, c2)
    | (.crash msg, c2) => (.crash msg, c2)
  | r => r

/-- The cases of the `select` in `PickJob`. -/
inductive PickCase where
  | job
  | cancelled
  | stopped
deriving DecidableEq, Repr

/-- The cases of the `select` in `PickJob` that can proceed. -/
def PickJob.ready (c : Scheduler) (ctxDone : Bool) : List PickCase :=
  (if c.jobsQue.buf.isEmpty && !c.jobsQue.closed then [] else [PickCase.job])
    ++ (if ctxDone then [PickCase.cancelled] else [])
    ++ (if c.stoppedCh.closed then [PickCase.stopped] else [])

/-- `Scheduler.PickJob`. `ctxDone` says whether `ctx.Done()` is closed;
`choice` resolves the `select` when several cases can proceed (Go picks one
of them at random). With no case ready the call waits. -/
def PickJob (c : Scheduler) (ctxDone : Bool) (_workerID : WorkerID) (choice : Nat) :
    Exec (Option PendingJob) × Scheduler :=
  let ready := PickJob.ready c ctxDone
  match ready[choice % ready.length]? with
  | none => (.blocked, c)
  | some .job =>
    match c.jobsQue.recv with
    | .ok (some job, q) => (.ok (some job), { c with jobsQue := q })
    | .ok (none, q) => (.crash "nil pointer dereference", { c with jobsQue := q })
    | .blocked => (.blocked, c)
    | .crash msg => (.crash msg, c)
  | some .cancelled => (.ok none, c)
  | some .stopped => (.ok none, c)

/-- `Scheduler.Stop`. -/
def Stop (c : Scheduler) : Exec Unit × Scheduler :=
  match c.stoppedMu.Lock with
  | (false, mu) => (.blocked, { c with stoppedMu := mu })
  | (true, mu) =>
    let c1 := { c with stoppedMu := mu, stopped := true }
    match c1.stoppedCh.close with
    | .ok ch => (.ok (), { c1 with stoppedCh := ch, stoppedMu := c1.stoppedMu.Unlock })
    | .blocked => (.blocked, c1)
    | .crash msg => (.crash msg, c1)

/-- A call on the scheduler made by some goroutine. -/
inductive SchedOp where
  | onJobComplete (workerID : WorkerID) (jobID : ID) (res : JobResult)
  | scheduleJob (job : JobSpec)
  | pickJob (ctxDone : Bool) (workerID : WorkerID) (choice : Nat)
  | stop
deriving DecidableEq, Repr

/-- The scheduler after a call. -/
def SchedOp.apply (c : Scheduler) : SchedOp → Scheduler
  | .onJobComplete workerID jobID res => (OnJobComplete c workerID jobID res).2
  | .scheduleJob job => (ScheduleJob c job).2
  | .pickJob ctxDone workerID choice => (PickJob c ctxDone workerID choice).2
  | .stop => (Stop c).2

/-- The scheduler after a sequence of calls. -/
def Scheduler.run (c : Scheduler) (ops : List SchedOp) : Scheduler :=
  ops.foldl SchedOp.apply c

/-! ## Status updates and the status writer (`api/build_handler.go`) -/

/-- A Go `error`: `none` is nil, `some msg` an error with that text. -/
abbrev GoError := Option String

/-- `api.BuildFailed`. -/
structure BuildFailed where
  Error : String
deriving DecidableEq, Repr

/-- `api.BuildFinished`, a record with no fields. -/
structure BuildFinished where
deriving DecidableEq, Repr

/-- `api.StatusUpdate`: the three pointers, in the order of the declaration. -/
structure StatusUpdate where
  JobFinished : Option JobResult := none
  BuildFailed : Option Distbuild.BuildFailed := none
  BuildFinished : Option Distbuild.BuildFinished := none
deriving DecidableEq, Repr

/-- `api.BuildStarted`. -/
structure BuildStarted where
  ID : ID
  MissingFiles : List Distbuild.ID
deriving DecidableEq, Repr

/-- `build.Graph`: the source files `id -> path` and the jobs. -/
structure Graph where
  SourceFiles : GoMap ID String
  Jobs : List Job
deriving DecidableEq, Repr

/-- `api.BuildRequest`. -/
structure BuildRequest where
  Graph : Graph
deriving DecidableEq, Repr

/-- `api.UploadDone`, a record with no fields. -/
structure UploadDone where
deriving DecidableEq, Repr

/-- `api.SignalRequest`. -/
structure SignalRequest where
  UploadDone : Option Distbuild.UploadDone
deriving DecidableEq, Repr

/-- `api.SignalResponse`, a record with no fields. -/
structure SignalResponse where
deriving DecidableEq, Repr

/-- `api.HeartbeatRequest`. -/
structure HeartbeatRequest where
  WorkerID : WorkerID
  RunningJobs : List ID
  FreeSlots : Int
  FinishedJob : List JobResult
  AddedArtifacts : List ID
deriving DecidableEq, Repr

/-- `api.HeartbeatResponse`. -/
structure HeartbeatResponse where
  JobsToRun : GoMap ID JobSpec
deriving DecidableEq, Repr

/-- What has been written to the HTTP response: a JSON line holding a
`BuildStarted`, a JSON line holding a `StatusUpdate`, or an `http.Error`. -/
inductive Frame where
  | started (rsp : BuildStarted)
  | update (u : StatusUpdate)
  | httpError (code : Nat) (body : String)
deriving DecidableEq, Repr

/-- `api.MyStatusWriter`. `w` is the response written so far; the four
`atomic.Bool` flags are booleans. -/
structure MyStatusWriter where
  upds : Chan StatusUpdate
  w : List Frame
  startedWriting : Bool
  buildFinished : Bool
  buildStarted : Bool
  closed : Bool
deriving DecidableEq, Repr

/-- The writer the `/build` handler makes:
`MyStatusWriter{upds: make(chan *StatusUpdate, 100), ctrl: rc, w: w}`. -/
def MyStatusWriter.new : MyStatusWriter :=
  { upds := Chan.make 100, w := [], startedWriting := false, buildFinished := false,
    buildStarted := false, closed := false }

/-- `MyStatusWriter.Started`. Marshalling a `BuildStarted` to JSON does not
fail. -/
def MyStatusWriter.Started (w : MyStatusWriter) (rsp : BuildStarted) : GoError × MyStatusWriter :=
  if !w.startedWriting then
    (none, { w with startedWriting := true, w := w.w ++ [Frame.started rsp] })
  else
    (some "started after failed", w)

/-- `MyStatusWriter.Updated`. -/
def MyStatusWriter.Updated (w : MyStatusWriter) (u : StatusUpdate) :
    Exec GoError × MyStatusWriter :=
  if w.closed then (.ok (some "update on closed writer"), w)
  else
    match w.upds.send u with
    | .blocked => (.blocked, w)
    | .crash msg => (.crash msg, w)
    | .ok ch =>
      let w1 := { w with upds := ch }
      let w2 := if u.BuildFailed.isSome || u.BuildFinished.isSome
                then { w1 with buildFinished := true } else w1
      if w2.buildStarted && w2.buildFinished && !w2.closed then
        match w2.upds.close with
        | .ok ch2 => (.ok none, { w2 with closed := true, upds := ch2 })
        | .blocked => (.blocked, { w2 with closed := true })
        | .crash msg => (.crash msg, { w2 with closed := true })
      else (.ok none, w2)

/-- Lines 141-145 of the `/build` handler: `sw.buildStarted.Store(true)` and
the close of the channel when the build has finished already. -/
def BuildHandler.markStarted (sw : MyStatusWriter) : Exec Unit × MyStatusWriter :=
  let sw1 := { sw with buildStarted := true }
  if sw1.buildFinished && !sw1.closed then
    match sw1.upds.close with
    | .ok ch => (.ok (), { sw1 with closed := true, upds := ch })
    | .blocked => (.blocked, { sw1 with closed := true })
    | .crash msg => (.crash msg, { sw1 with closed := true })
  else (.ok (), sw1)

/-- `handleUpdated`: the update is written to the response as one line;
`writeOk` says whether the write succeeds, and a failed write is answered
with `http.Error`. -/
def handleUpdated (update : StatusUpdate) (w : List Frame) (writeOk : Bool) :
    GoError × List Frame :=
  if writeOk then (none, w ++ [Frame.update update])
  else (some "write failed", w ++ [Frame.httpError 500 "write failed"])

/-- The case `upd := <-sw.upds` of the `/build` handler's loop (lines 149-155):
one update is received and written out. The result says whether the handler
returns (the channel was closed and drained). -/
def BuildHandler.recvUpdate (sw : MyStatusWriter) (writeOk : Bool) : Exec Bool × MyStatusWriter :=
  match sw.upds.recv with
  | .blocked => (.blocked, sw)
  | .crash msg => (.crash msg, sw)
  | .ok (none, ch) => (.ok true, { sw with upds := ch })
  | .ok (some upd, ch) =>
    (.ok false, { sw with upds := ch, w := (handleUpdated upd sw.w writeOk).2 })

/-! ## File cache -/

/-- Modelled from the spec: `filecache.Cache`, whose declaration is outside the
given sources. The committed entries and, for each, the in-use count. -/
structure Cache where
  committed : List ID
  inUse : GoMap ID Nat
deriving DecidableEq, Repr

/-- Modelled from the spec: `Cache.Get`. On a committed entry the in-use count
of `id` is incremented and the path is returned; otherwise NotFound
(`none`). -/
def Cache.Get (c : Cache) (id : ID) : Option (String × Cache) :=
  if id ∈ c.committed then
    some (id.String, { c with inUse := GoMap.store c.inUse id ((GoMap.load c.inUse id).getD 0 + 1) })
  else none

/-- Modelled from the spec: the `release` (`unlock`) function `Cache.Get`
returns; the in-use count of `id` is decremented. -/
def Cache.unlock (c : Cache) (id : ID) : Cache :=
  { c with inUse := GoMap.store c.inUse id ((GoMap.load c.inUse id).getD 0 - 1) }

/-! ## Coordinator (`dist/coordinator.go`) -/

/-- `dist.buildData`. The mutex `mu` is left out: every function below runs
the section it protects in one piece. `stWriter` is `none` for a nil
`api.StatusWriter`. -/
structure buildData where
  jobs : List Job
  stWriter : Option MyStatusWriter
  jobsDoneCnt : Nat
  fileIDByName : GoMap String ID
  buildID : ID
deriving DecidableEq, Repr

/-- `dist.Coordinator`. `heap` holds the `buildData` records; a `*buildData`
is an index into it. `builds` and `buildByJob` are the two `sync.Map`s, the
values of `buildByJob` being the channels `chan *buildData`. -/
structure Coordinator where
  files : Cache
  scheduler : Scheduler
  heap : List buildData
  builds : GoMap ID Nat
  buildByJob : GoMap ID (Chan Nat)
deriving DecidableEq, Repr

/-- `dist.defaultConfig`: 10 ms and 100 ms. -/
def defaultConfig : Config := { CacheTimeout := 10000000, DepsTimeout := 100000000 }

/-- `NewCoordinator`. -/
def NewCoordinator (fileCache : Cache) : Coordinator :=
  { files := fileCache, scheduler := NewScheduler defaultConfig, heap := [], builds := [],
    buildByJob := [] }

/-- The closure `sendStatus` of `processFinishedJob` applied to the writer of a
build: an error of `Updated` is logged and dropped. -/
def sendStatus (w : MyStatusWriter) (upd : StatusUpdate) : Exec Unit × MyStatusWriter :=
  match w.Updated upd with
  | (.ok _, w1) => (.ok (), w1)
  | (.blocked, w1) => (.blocked, w1)
  | (.crash msg, w1) => (.crash msg, w1)

/-- Lines 58-85 of `processFinishedJob`: the part run under the mutex of the
build `data`. -/
def processFinishedJob.account (data : buildData) (jobRes : JobResult) : Exec Unit × buildData :=
  match data.stWriter with
  | none => (.crash "data.StWriter is nil", data)
  | some w =>
    match sendStatus w { JobFinished := some jobRes } with
    | (.blocked, w1) => (.blocked, { data with stWriter := some w1 })
    | (.crash msg, w1) => (.crash msg, { data with stWriter := some w1 })
    | (.ok (), w1) =>
      let data1 := { data with stWriter := some w1, jobsDoneCnt := data.jobsDoneCnt + 1 }
      let totalJobs := data1.jobs.length
      if data1.jobsDoneCnt = totalJobs then
        match sendStatus w1 { BuildFinished := some {} } with
        | (.ok (), w2) => (.ok (), { data1 with stWriter := some w2 })
        | (.blocked, w2) => (.blocked, { data1 with stWriter := some w2 })
        | (.crash msg, w2) => (.crash msg, { data1 with stWriter := some w2 })
      else (.ok (), data1)

/-- `processFinishedJob`. -/
def processFinishedJob (c : Coordinator) (jobRes : JobResult) (workerID : WorkerID) :
    Exec Unit × Coordinator :=
  let c1 := { c with scheduler := (OnJobComplete c.scheduler workerID jobRes.ID jobRes).2 }
  match GoMap.load c1.buildByJob jobRes.ID with
  | none => (.crash "heartbeat for undefined job", c1)
  | some buildCh =>
    match buildCh.recv with
    | .blocked => (.blocked, c1)
    | .crash msg => (.crash msg, c1)
    | .ok (none, _) => (.crash "nil pointer dereference", c1)
    | .ok (some p, ch) =>
      let c2 := { c1 with buildByJob := GoMap.store c1.buildByJob jobRes.ID ch }
      match c2.heap[p]? with
      | none => (.crash "nil pointer dereference", c2)
      | some data =>
        match processFinishedJob.account data jobRes with
        | (.ok (), data1) => (.ok (), { c2 with heap := c2.heap.set p data1 })
        | (.blocked, data1) => (.blocked, { c2 with heap := c2.heap.set p data1 })
        | (.crash msg, data1) => (.crash msg, { c2 with heap := c2.heap.set p data1 })

/-- The first loop of `Coordinator.Heartbeat` (lines 89-91). -/
def Heartbeat.finished (workerID : WorkerID) : List JobResult → Coordinator →
    Exec Unit × Coordinator
  | [], c => (.ok (), c)
  | finished :: rest, c =>
    match processFinishedJob c finished workerID with
    | (.ok (), c1) => Heartbeat.finished workerID rest c1
    | r => r

/-- The second loop of `Coordinator.Heartbeat` (lines 95-107): `n` iterations
are left, `i` is the loop counter, `jobs` is `resp.JobsToRun` so far. `ctx i`
says whether the context is done at the `i`-th `PickJob` and `choice i`
resolves its `select`. -/
def Heartbeat.pick (workerID : WorkerID) (ctx : Nat → Bool) (choice : Nat → Nat) :
    Nat → Nat → Coordinator → GoMap ID JobSpec → Exec HeartbeatResponse × Coordinator
  | 0, _, c, jobs => (.ok { JobsToRun := jobs }, c)
  | n + 1, i, c, jobs =>
    match PickJob c.scheduler (ctx i) workerID (choice i) with
    | (.blocked, s) => (.blocked, { c with scheduler := s })
    | (.crash msg, s) => (.crash msg, { c with scheduler := s })
    | (.ok none, s) => (.ok { JobsToRun := jobs }, { c with scheduler := s })
    | (.ok (some job), s) =>
      let c1 := { c with scheduler := s }
      match LocateArtifact c1.scheduler job.Job.ID with
      | (wID, true) =>
        match processFinishedJob c1 { ID := job.Job.ID } wID with
        | (.ok (), c2) => Heartbeat.pick workerID ctx choice n (i + 1) c2 jobs
        | (.blocked, c2) => (.blocked, c2)
        | (.crash msg, c2) => (.crash msg, c2)
      | (_, false) =>
        Heartbeat.pick workerID ctx choice n (i + 1) c1 (GoMap.store jobs job.Job.ID job.Job)

/-- `Coordinator.Heartbeat`. -/
def Heartbeat (c : Coordinator) (req : HeartbeatRequest) (ctx : Nat → Bool) (choice : Nat → Nat) :
    Exec HeartbeatResponse × Coordinator :=
  match Heartbeat.finished req.WorkerID req.FinishedJob c with
  | (.ok (), c1) => Heartbeat.pick req.WorkerID ctx choice req.FreeSlots.toNat 0 c1 []
  | (.blocked, c1) => (.blocked, c1)
  | (.crash msg, c1) => (.crash msg, c1)

/-- The loop of `StartBuild` over `req.Graph.SourceFiles` (lines 119-126):
the reverse index, the ids `Get` did not find, and the file cache after the
probes. -/
def StartBuild.probe : List (ID × String) → GoMap String ID → List ID → Cache →
    GoMap String ID × List ID × Cache
  | [], fileIDByName, needFiles, files => (fileIDByName, needFiles, files)
  | (fileID, fileName) :: rest, fileIDByName, needFiles, files =>
    let fileIDByName1 := GoMap.store fileIDByName fileName fileID
    match files.Get fileID with
    | none => StartBuild.probe rest fileIDByName1 (needFiles ++ [fileID]) files
    | some (_, files1) => StartBuild.probe rest fileIDByName1 needFiles (files1.unlock fileID)

/-- The loop of `StartBuild` over `req.Graph.Jobs` (lines 132-135): for each
job the channel of its id is loaded, or made with capacity 10, and the pointer
`p` to the build is sent on it. -/
def StartBuild.register (p : Nat) : List Job → GoMap ID (Chan Nat) →
    Exec Unit × GoMap ID (Chan Nat)
  | [], buildByJob => (.ok (), buildByJob)
  | j :: rest, buildByJob =>
    let buildCh := (GoMap.load buildByJob j.ID).getD (Chan.make 10)
    match buildCh.send p with
    | .ok ch => StartBuild.register p rest (GoMap.store buildByJob j.ID ch)
    | .blocked => (.blocked, GoMap.store buildByJob j.ID buildCh)
    | .crash msg => (.crash msg, GoMap.store buildByJob j.ID buildCh)

/-- `Coordinator.StartBuild`. `TopSort` is `build.TopSort`, which is outside
the given sources; `id` is the value of `build.NewID()`; `w` is the status
writer (`none` for nil). The new `buildData` is put at the end of the heap. -/
def StartBuild (TopSort : List Job → List Job) (c : Coordinator) (id : ID) (req : BuildRequest)
    (w : Option MyStatusWriter) : Exec GoError × Coordinator :=
  let probed := StartBuild.probe req.Graph.SourceFiles [] [] c.files
  let data : buildData :=
    { jobs := TopSort req.Graph.Jobs, stWriter := w, jobsDoneCnt := 0,
      fileIDByName := probed.1, buildID := id }
  let p := c.heap.length
  let c1 := { c with files := probed.2.2, heap := c.heap ++ [data] }
  match StartBuild.register p req.Graph.Jobs c1.buildByJob with
  | (.blocked, m) => (.blocked, { c1 with buildByJob := m })
  | (.crash msg, m) => (.crash msg, { c1 with buildByJob := m })
  | (.ok (), m) =>
    let c2 := { c1 with buildByJob := m, builds := GoMap.store c1.builds id p }
    match w with
    | none => (.crash "data.StWriter is nil", c2)
    | some sw =>
      match sw.Started { ID := id, MissingFiles := probed.2.1 } with
      | (some err, sw1) =>
        (.ok (some ("couldn't send started status of build " ++ id.String ++ ": " ++ err)),
          { c2 with heap := c2.heap.set p { data with stWriter := some sw1 } })
      | (none, sw1) =>
        (.ok none, { c2 with heap := c2.heap.set p { data with stWriter := some sw1 } })

/-- What the other goroutines do to the scheduler while `SignalBuild` runs:
the calls made before each access of `SignalBuild` to the scheduler, one list
for each access. When the lists run out nothing else happens any more. -/
abbrev Env := List (List SchedOp)

/-- The polling loop of `SignalBuild` (lines 171-177) for one `dep`: poll
`LocateArtifact`, sleep, poll again. `none` when the artifact is not located
and nothing else happens any more: the loop sleeps forever. -/
def SignalBuild.locate (dep : ID) : Scheduler → Env → Option WorkerID × Scheduler × Env
  | s, [] =>
    match LocateArtifact s dep with
    | (wID, true) => (some wID, s, [])
    | (_, false) => (none, s, [])
  | s, ops :: env =>
    match LocateArtifact (s.run ops) dep with
    | (wID, true) => (some wID, s.run ops, env)
    | (_, false) => SignalBuild.locate dep (s.run ops) env

/-- The loop of `SignalBuild` over `job.Deps` (lines 170-178). -/
def SignalBuild.locateDeps : List ID → GoMap ID WorkerID → Scheduler → Env →
    Option (GoMap ID WorkerID) × Scheduler × Env
  | [], arts, s, env => (some arts, s, env)
  | dep :: deps, arts, s, env =>
    match SignalBuild.locate dep s env with
    | (some wID, s1, env1) => SignalBuild.locateDeps deps (GoMap.store arts dep wID) s1 env1
    | (none, s1, env1) => (none, s1, env1)

/-- The loop of `SignalBuild` over `job.Inputs` (lines 162-166); a name that
is not in `fileIDByName` is looked up as the zero id. -/
def SignalBuild.sourceFiles (data : buildData) (job : Job) : GoMap ID String :=
  job.Inputs.foldl
    (fun sourceFiles sf => GoMap.store sourceFiles ((GoMap.load data.fileIDByName sf).getD ID.zero) sf)
    []

/-- The send of `ScheduleJob` as `SignalBuild` lives it: when the queue is
full the goroutine waits while the others go on, until there is room. -/
def SignalBuild.push (p : PendingJob) : Scheduler → Env → Exec Unit × Scheduler × Env
  | s, [] =>
    match ScheduleJob.push s p with
    | (.ok (), s1) => (.ok (), s1, [])
    | (.blocked, s1) => (.blocked, s1, [])
    | (.crash msg, s1) => (.crash msg, s1, [])
  | s, ops :: env =>
    match ScheduleJob.push s p with
    | (.ok (), s1) => (.ok (), s1, ops :: env)
    | (.blocked, _) => SignalBuild.push p (s.run ops) env
    | (.crash msg, s1) => (.crash msg, s1, ops :: env)

/-- The calls of the other goroutines before the next access: the scheduler
after them and the rest of the environment. -/
def Env.next (s : Scheduler) : Env → Scheduler × Env
  | [] => (s, [])
  | ops :: env => (s.run ops, env)

/-- The loop of `SignalBuild` over `data.jobs` (lines 160-180). `handed` lists
the calls of `ScheduleJob` made so far: the `JobSpec` passed and the scheduler
at the moment of the call. -/
def SignalBuild.jobs (data : buildData) : List Job → Scheduler → Env →
    List (JobSpec × Scheduler) → Exec Unit × Scheduler × List (JobSpec × Scheduler)
  | [], s, _, handed => (.ok (), s, handed)
  | job :: rest, s, env, handed =>
    let sourceFiles := SignalBuild.sourceFiles data job
    match SignalBuild.locateDeps job.Deps [] s env with
    | (none, s1, _) => (.blocked, s1, handed)
    | (some arts, s1, env1) =>
      let spec : JobSpec := { Job := job, SourceFiles := sourceFiles, Artifacts := arts }
      let s2 := (Env.next s1 env1).1
      let env2 := (Env.next s1 env1).2
      match ScheduleJob.enter s2 spec with
      | (.blocked, s3) => (.blocked, s3, handed ++ [(spec, s2)])
      | (.crash msg, s3) => (.crash msg, s3, handed ++ [(spec, s2)])
      | (.ok none, s3) => SignalBuild.jobs data rest s3 env2 (handed ++ [(spec, s2)])
      | (.ok (some p), s3) =>
        match SignalBuild.push p s3 env2 with
        | (.ok (), s4, env3) => SignalBuild.jobs data rest s4 env3 (handed ++ [(spec, s2)])
        | (.blocked, s4, _) => (.blocked, s4, handed ++ [(spec, s2)])
        | (.crash msg, s4, _) => (.crash msg, s4, handed ++ [(spec, s2)])

/-- The result of a call of `SignalBuild`: what it returns, the coordinator
after it, and the calls of `ScheduleJob` it made, in order. -/
structure SignalRun where
  res : Exec SignalResponse
  coord : Coordinator
  handed : List (JobSpec × Scheduler)

/-- `Coordinator.SignalBuild`. -/
def SignalBuild (c : Coordinator) (buildID : ID) (req : SignalRequest) (env : Env) : SignalRun :=
  match GoMap.load c.builds buildID with
  | none => { res := .crash ("no data for buildID: " ++ buildID.String), coord := c, handed := [] }
  | some p =>
    match c.heap[p]? with
    | none => { res := .crash "nil pointer dereference", coord := c, handed := [] }
    | some data =>
      match req.UploadDone with
      | none => { res := .ok {}, coord := c, handed := [] }
      | some _ =>
        match SignalBuild.jobs data data.jobs c.scheduler env [] with
        | (.ok (), s, handed) =>
          { res := .ok {}, coord := { c with scheduler := s }, handed := handed }
        | (.blocked, s, handed) =>
          { res := .blocked, coord := { c with scheduler := s }, handed := handed }
        | (.crash msg, s, handed) =>
          { res := .crash msg, coord := { c with scheduler := s }, handed := handed }

/-! ## Runs -/

/-- A step of the coordinator process: a `/build` request up to the return of
`StartBuild` (the handler makes the writer), the handler's mark-started step
and one receive of its loop for the build at `p`, a heartbeat, or a signal. -/
inductive CoordOp where
  | startBuild (id : ID) (req : BuildRequest)
  | markStarted (p : Nat)
  | recvUpdate (p : Nat) (writeOk : Bool)
  | heartbeat (req : HeartbeatRequest) (ctx : Nat → Bool) (choice : Nat → Nat)
  | signalBuild (buildID : ID) (req : SignalRequest) (env : Env)

/-- A step of the handler on the writer of the build at `p`. -/
def Coordinator.onWriter {α : Type} (c : Coordinator) (p : Nat)
    (f : MyStatusWriter → Exec α × MyStatusWriter) : Exec Unit × Coordinator :=
  match c.heap[p]? with
  | none => (.crash "no such build", c)
  | some data =>
    match data.stWriter with
    | none => (.crash "no writer", c)
    | some sw =>
      match f sw with
      | (.ok _, sw1) => (.ok (), { c with heap := c.heap.set p { data with stWriter := some sw1 } })
      | (.blocked, _) => (.blocked, c)
      | (.crash msg, _) => (.crash msg, c)

/-- The coordinator after a step, with the outcome of the step. -/
def CoordOp.exec (TopSort : List Job → List Job) (c : Coordinator) : CoordOp →
    Exec Unit × Coordinator
  | .startBuild id req =>
    match StartBuild TopSort c id req (some MyStatusWriter.new) with
    | (.ok _, c1) => (.ok (), c1)
    | (.blocked, c1) => (.blocked, c1)
    | (.crash msg, c1) => (.crash msg, c1)
  | .markStarted p => c.onWriter p BuildHandler.markStarted
  | .recvUpdate p writeOk => c.onWriter p (fun sw => BuildHandler.recvUpdate sw writeOk)
  | .heartbeat req ctx choice =>
    match Heartbeat c req ctx choice with
    | (.ok _, c1) => (.ok (), c1)
    | (.blocked, c1) => (.blocked, c1)
    | (.crash msg, c1) => (.crash msg, c1)
  | .signalBuild buildID req env =>
    match (SignalBuild c buildID req env).res with
    | .ok _ => (.ok (), (SignalBuild c buildID req env).coord)
    | .blocked => (.blocked, (SignalBuild c buildID req env).coord)
    | .crash msg => (.crash msg, (SignalBuild c buildID req env).coord)

/-- The coordinator after a sequence of steps each of which returned; `none`
when one of them waits or panics. -/
def Coordinator.run (TopSort : List Job → List Job) : Coordinator → List CoordOp →
    Option Coordinator
  | c, [] => some c
  | c, op :: ops =>
    match op.exec TopSort c with
    | (.ok (), c1) => Coordinator.run TopSort c1 ops
    | _ => none

/-- Whether a call on the scheduler returns: it neither waits for ever nor
panics. -/
def SchedOp.returns (c : Scheduler) : SchedOp → Bool
  | .onJobComplete _ _ _ => true
  | .scheduleJob job => match (ScheduleJob c job).1 with | .ok _ => true | _ => false
  | .pickJob ctxDone workerID choice =>
    match (PickJob c ctxDone workerID choice).1 with | .ok _ => true | _ => false
  | .stop => match (Stop c).1 with | .ok _ => true | _ => false

/-- Whether every call of a sequence of calls on the scheduler returns. -/
def Scheduler.runsThrough : Scheduler → List SchedOp → Bool
  | _, [] => true
  | c, op :: ops => op.returns c && Scheduler.runsThrough (op.apply c) ops

/-- A sequence of `ScheduleJob` calls: what each returned, and the scheduler
after them. -/
def scheduleAll : Scheduler → List JobSpec → List (Exec (Option PendingJob)) × Scheduler
  | c, [] => ([], c)
  | c, job :: jobs =>
    ((ScheduleJob c job).1 :: (scheduleAll (ScheduleJob c job).2 jobs).1,
      (scheduleAll (ScheduleJob c job).2 jobs).2)

/-- A sequence of `PickJob` calls with a context that is not cancelled, each
with its own worker id and `select` choice: what each returned, and the
scheduler after them. -/
def pickAll : Scheduler → List (WorkerID × Nat) → List (Exec (Option PendingJob)) × Scheduler
  | c, [] => ([], c)
  | c, (workerID, choice) :: rest =>
    ((PickJob c false workerID choice).1 :: (pickAll (PickJob c false workerID choice).2 rest).1,
      (pickAll (PickJob c false workerID choice).2 rest).2)

/-- The updates sent to the writer of a build so far, in the order of the
calls of `Updated` that accepted them. -/
def buildData.updates (data : buildData) : List StatusUpdate :=
  match data.stWriter with
  | none => []
  | some w => w.upds.sent

/-- `s.Later s'`: the scheduler went from `s` to `s'` by steps of goroutines,
each a call on the scheduler or one of the two halves of `ScheduleJob`. -/
inductive Scheduler.Later : Scheduler → Scheduler → Prop where
  | refl (s : Scheduler) : Scheduler.Later s s
  | call {s s' : Scheduler} (op : SchedOp) : Scheduler.Later s s' → Scheduler.Later s (op.apply s')
  | enter {s s' : Scheduler} (job : JobSpec) :
    Scheduler.Later s s' → Scheduler.Later s (ScheduleJob.enter s' job).2
  | push {s s' : Scheduler} (p : PendingJob) :
    Scheduler.Later s s' → Scheduler.Later s (ScheduleJob.push s' p).2

/-! ## A small build, used to instantiate the properties below -/

/-- A job with one input and no dependency. -/
def Example.jobA : Job := { ID := ⟨"a"⟩, Inputs := ["x.txt"], Deps := [], Cmds := [] }

/-- A job that reads the artifact of `Example.jobA`. -/
def Example.jobB : Job := { ID := ⟨"b"⟩, Inputs := [], Deps := [⟨"a"⟩], Cmds := [] }

/-- A request with one source file and the two jobs. -/
def Example.request : BuildRequest :=
  { Graph := { SourceFiles := [(⟨"f1"⟩, "x.txt")], Jobs := [Example.jobA, Example.jobB] } }

/-- The coordinator after `StartBuild` on `Example.request`, with the jobs kept
in the order of the request. -/
def Example.started : Coordinator :=
  (StartBuild id (NewCoordinator { committed := [], inUse := [] }) ⟨"B1"⟩ Example.request
    (some MyStatusWriter.new)).2

/-- While `SignalBuild` runs on `Example.started`, a worker picks the first
job and reports it done. -/
def Example.env : Env :=
  [[], [], [.pickJob false "w1" 0, .onJobComplete "w1" ⟨"a"⟩ { ID := ⟨"a"⟩ }]]

/-- A request whose job names an input that is not among its source files. -/
def Example.requestNoFiles : BuildRequest :=
  { Graph := { SourceFiles := [], Jobs := [Example.jobA] } }

/-! ## Bookkeeping of a build, used to state the properties below -/

/-- Whether an update ends the build: `BuildFailed` or `BuildFinished`. -/
def StatusUpdate.isTerminal (u : StatusUpdate) : Bool :=
  u.BuildFailed.isSome || u.BuildFinished.isSome

/-- The ids of the jobs whose `JobFinished` update was sent to the writer of
the build, in the order of the updates. -/
def buildData.delivered (data : buildData) : List ID :=
  data.updates.filterMap (fun u => u.JobFinished.map (fun r => r.ID))

/-- How many pointers to the build at `p` wait in the channel of job `id`. -/
def Coordinator.pending (c : Coordinator) (p : Nat) (id : ID) : Nat :=
  match GoMap.load c.buildByJob id with
  | some ch => ch.buf.count p
  | none => 0

/-- The build is done: as many jobs have been counted as its graph has. This
is the comparison `data.jobsDoneCnt == totalJobs` of `processFinishedJob`,
taken as a property of the build; for a graph with no jobs it holds from the
start. -/
def buildData.done (data : buildData) : Prop :=
  data.jobsDoneCnt = data.jobs.length

instance buildData.decidableDone (data : buildData) : Decidable data.done :=
  inferInstanceAs (Decidable (data.jobsDoneCnt = data.jobs.length))

/-- The comparison `data.jobsDoneCnt == totalJobs` has succeeded in a call of
`processFinishedJob`: the comparison is made only after `data.jobsDoneCnt++`,
so the counter is positive when it succeeds. This is when `BuildFinished` is
sent; it is not the same as `done`, which a build with no jobs satisfies with
the counter at 0. -/
def buildData.finishDue (data : buildData) : Prop :=
  0 < data.jobsDoneCnt ∧ data.jobsDoneCnt = data.jobs.length

instance buildData.decidableFinishDue (data : buildData) : Decidable data.finishDue :=
  inferInstanceAs (Decidable (0 < data.jobsDoneCnt ∧ data.jobsDoneCnt = data.jobs.length))

/-- The state of the writer of a build agrees with its counter: the updates
sent are one `JobFinished` for each job counted, followed by `BuildFinished`
once the comparison of the counter with the number of jobs has succeeded after
an increment, and the flags of the writer say so. -/
def WriterInv (data : buildData) : Prop :=
  ∃ (w : MyStatusWriter) (rs : List JobResult),
    data.stWriter = some w ∧ rs.length = data.jobsDoneCnt ∧
    w.upds.sent = rs.map (fun r => ({ JobFinished := some r } : StatusUpdate))
      ++ (if data.finishDue then [({ BuildFinished := some {} } : StatusUpdate)] else []) ∧
    (w.buildFinished = true ↔ data.finishDue) ∧
    (w.closed = true → w.buildFinished = true) ∧
    w.upds.closed = w.closed

/-- The invariant of the coordinator: the channels of `buildByJob` hold
pointers into the heap, and for every build the writer agrees with the
counter and, for every job id, the `JobFinished` updates sent plus the
pointers still waiting in the channel of the id are as many as the jobs of
the build with that id. -/
def CoordInv (c : Coordinator) : Prop :=
  (∀ id ch, GoMap.load c.buildByJob id = some ch → ∀ q ∈ ch.buf, q < c.heap.length) ∧
  ∀ p data, c.heap[p]? = some data →
    WriterInv data ∧
    ∀ id, data.delivered.count id + c.pending p id = (data.jobs.map (fun j => j.ID)).count id

/-- A request with no jobs. -/
def Example.requestNoJobs : BuildRequest :=
  { Graph := { SourceFiles := [(⟨"f1"⟩, "x.txt")], Jobs := [] } }

/-- A run of the example build to its end: the build starts, the client
signals, a worker picks the first job and reports it, then picks the second
and reports it, and the handler sends the three updates. -/
def Example.fullRun : List CoordOp :=
  [.startBuild ⟨"B1"⟩ Example.request,
   .markStarted 0,
   .signalBuild ⟨"B1"⟩ ⟨some {}⟩ Example.env,
   .heartbeat { WorkerID := "w1", RunningJobs := [], FreeSlots := 1,
                FinishedJob := [{ ID := ⟨"a"⟩ }], AddedArtifacts := [⟨"a"⟩] }
     (fun _ => false) (fun _ => 0),
   .recvUpdate 0 true,
   .heartbeat { WorkerID := "w1", RunningJobs := [], FreeSlots := 0,
                FinishedJob := [{ ID := ⟨"b"⟩ }], AddedArtifacts := [⟨"b"⟩] }
     (fun _ => false) (fun _ => 0),
   .recvUpdate 0 true,
   .recvUpdate 0 true]

/-- A run in which a build with no jobs is started and signalled, and a worker
sends a heartbeat with no free slot. -/
def Example.emptyRun : List CoordOp :=
  [.startBuild ⟨"B0"⟩ Example.requestNoJobs,
   .markStarted 0,
   .signalBuild ⟨"B0"⟩ ⟨some {}⟩ [],
   .heartbeat { WorkerID := "w1", RunningJobs := [], FreeSlots := 0, FinishedJob := [],
                AddedArtifacts := [] }
     (fun _ => false) (fun _ => 0)]

/-- The sum of the counters `jobsDoneCnt` of all builds. -/
def Coordinator.doneTotal (c : Coordinator) : Nat :=
  (c.heap.map (fun d => d.jobsDoneCnt)).sum

/-- The results of all `JobFinished` updates sent so far, build by build. -/
def Coordinator.finished (c : Coordinator) : List JobResult :=
  (c.heap.map (fun d => d.updates.filterMap (fun u => u.JobFinished))).flatten

/-- Whether the artifact of a job of the queue is located. -/
def PendingJob.located (s : Scheduler) (job : PendingJob) : Bool :=
  (LocateArtifact s job.Job.ID).2

/-- A request with the single job `Example.jobA`. -/
def Example.requestA : BuildRequest :=
  { Graph := { SourceFiles := [(⟨"f1"⟩, "x.txt")], Jobs := [Example.jobA] } }

/-- The heartbeat of a worker with one free slot and nothing to report. -/
def Example.idleHeartbeat : HeartbeatRequest :=
  { WorkerID := "w2", RunningJobs := [], FreeSlots := 1, FinishedJob := [], AddedArtifacts := [] }

/-- A run after which the queue holds a job whose artifact is located: a build
of `Example.requestA` is started and signalled, and while `SignalBuild` runs
worker `w1` publishes the artifact of the job. -/
def Example.locatedRun : List CoordOp :=
  [.startBuild ⟨"B1"⟩ Example.requestA,
   .signalBuild ⟨"B1"⟩ ⟨some {}⟩ [[.onJobComplete "w1" ⟨"a"⟩ { ID := ⟨"a"⟩ }]]]

/-- The coordinator after `Example.locatedRun`. -/
def Example.locatedState : Coordinator :=
  (Coordinator.run id (NewCoordinator ⟨[], []⟩) Example.locatedRun).getD (NewCoordinator ⟨[], []⟩)

/-- A request with the job `Example.jobA` again, whose input `x.txt` is another
file, `f2`. -/
def Example.requestA2 : BuildRequest :=
  { Graph := { SourceFiles := [(⟨"f2"⟩, "x.txt")], Jobs := [Example.jobA] } }

/-- A run after which the queue holds two jobs with the id `a`: the builds of
`Example.requestA` and of `Example.requestA2` are started and signalled. -/
def Example.sameIdRun : List CoordOp :=
  [.startBuild ⟨"B1"⟩ Example.requestA,
   .signalBuild ⟨"B1"⟩ ⟨some {}⟩ [],
   .startBuild ⟨"B2"⟩ Example.requestA2,
   .signalBuild ⟨"B2"⟩ ⟨some {}⟩ []]

/-- The coordinator after `Example.sameIdRun`. -/
def Example.sameIdState : Coordinator :=
  (Coordinator.run id (NewCoordinator ⟨[], []⟩) Example.sameIdRun).getD (NewCoordinator ⟨[], []⟩)

/-- The heartbeat of a worker with two free slots and nothing to report. -/
def Example.twoSlots : HeartbeatRequest :=
  { WorkerID := "w2", RunningJobs := [], FreeSlots := 2, FinishedJob := [], AddedArtifacts := [] }

/-- The in-use count the file cache keeps for `id`; an id without an entry has
count zero. -/
def Cache.inUseCount (c : Cache) (id : ID) : Nat := (GoMap.load c.inUse id).getD 0

/-- A file cache that holds the file `f1`, pinned twice, and nothing else. -/
def Example.cacheF1 : Cache := { committed := [⟨"f1"⟩], inUse := [(⟨"f1"⟩, 2)] }

/-- A request with the source files `f1` and `f2` and the job `Example.jobA`. -/
def Example.requestTwoFiles : BuildRequest :=
  { Graph := { SourceFiles := [(⟨"f1"⟩, "x.txt"), (⟨"f2"⟩, "y.txt")], Jobs := [Example.jobA] } }

/-- The outcome of a call with the value it returned left out. -/
def Exec.void {α : Type} : Exec α → Exec Unit
  | .ok _ => .ok ()
  | .blocked => .blocked
  | .crash msg => .crash msg

/-- What happens to a status writer: a call of one of the two methods of
`api.StatusWriter` (by the service that was given the writer), or a step of the
`/build` handler that made it (the mark-started step of lines 141-145, or one
receive of its loop). -/
inductive WriterOp where
  | started (rsp : BuildStarted)
  | updated (u : StatusUpdate)
  | markStarted
  | recvUpdate (writeOk : Bool)
deriving DecidableEq, Repr

/-- The outcome of a step on a writer, and the writer after it. -/
def WriterOp.exec (w : MyStatusWriter) : WriterOp → Exec Unit × MyStatusWriter
  | .started rsp => (.ok (), (w.Started rsp).2)
  | .updated u => ((w.Updated u).1.void, (w.Updated u).2)
  | .markStarted => ((BuildHandler.markStarted w).1.void, (BuildHandler.markStarted w).2)
  | .recvUpdate writeOk =>
    ((BuildHandler.recvUpdate w writeOk).1.void, (BuildHandler.recvUpdate w writeOk).2)

/-- The writer after a sequence of steps. A step that waits leaves the writer
as it was, and the steps of the other goroutines go on. -/
def MyStatusWriter.run (w : MyStatusWriter) : List WriterOp → MyStatusWriter
  | [] => w
  | op :: ops => MyStatusWriter.run (op.exec w).2 ops

/-- The updates accepted in a sequence of steps: the arguments of the calls of
`Updated` that returned nil, in call order. -/
def MyStatusWriter.accepted (w : MyStatusWriter) : List WriterOp → List StatusUpdate
  | [] => []
  | .updated u :: ops =>
    (if (w.Updated u).1 = .ok none then [u] else [])
      ++ MyStatusWriter.accepted (w.Updated u).2 ops
  | op :: ops => MyStatusWriter.accepted (op.exec w).2 ops

/-- The update a line of the response holds, if it holds one. -/
def Frame.updateOf : Frame → Option StatusUpdate
  | .update u => some u
  | _ => none

/-- The flags of a writer agree: `closed` is set exactly when `buildStarted`
and `buildFinished` both are, and the channel is closed exactly when `closed`
is set. -/
def MyStatusWriter.flagsAgree (w : MyStatusWriter) : Prop :=
  w.closed = (w.buildStarted && w.buildFinished) ∧ w.upds.closed = w.closed

/-- Steps on a writer: a job result is accepted, the handler marks the build
started, a second `Started` is refused, the build finishes and the channel is
closed, a late update is refused, and the handler drains the channel. -/
def Example.writerRun : List WriterOp :=
  [.started { ID := ⟨"B1"⟩, MissingFiles := [] },
   .updated { JobFinished := some { ID := ⟨"a"⟩ } },
   .markStarted,
   .started { ID := ⟨"B1"⟩, MissingFiles := [] },
   .recvUpdate true,
   .updated { BuildFinished := some {} },
   .updated { JobFinished := some { ID := ⟨"b"⟩ } },
   .recvUpdate true,
   .recvUpdate true]

/-- A call a service makes on the `api.StatusWriter` it was given: the
interface has the two methods `Started` and `Updated`. -/
inductive WriterCall where
  | started (rsp : BuildStarted)
  | updated (u : StatusUpdate)
deriving DecidableEq, Repr

/-- The outcome of a call of the service on the writer. -/
def WriterCall.exec (w : MyStatusWriter) : WriterCall → Exec GoError × MyStatusWriter
  | .started rsp => (.ok (w.Started rsp).1, (w.Started rsp).2)
  | .updated u => w.Updated u

/-- The calls a service makes on the writer, one after the other; a call that
waits or panics ends them. -/
def Service.calls : List WriterCall → MyStatusWriter → Exec Unit × MyStatusWriter
  | [], w => (.ok (), w)
  | call :: rest, w =>
    match call.exec w with
    | (.ok _, w1) => Service.calls rest w1
    | (.blocked, w1) => (.blocked, w1)
    | (.crash msg, w1) => (.crash msg, w1)

/-- The call `h.s.StartBuild(r.Context(), &req, &sw)` as the `/build` handler
sees it: `h.s` is any implementation of the interface `api.Service`; what it
does to the handler's state is the calls it makes on the writer before it
returns, and the error it returns. -/
def Service.StartBuild (calls : List WriterCall) (err : GoError) (w : MyStatusWriter) :
    Exec GoError × MyStatusWriter :=
  match Service.calls calls w with
  | (.ok (), w1) => (.ok err, w1)
  | (.blocked, w1) => (.blocked, w1)
  | (.crash msg, w1) => (.crash msg, w1)

/-- Lines 141-145 of the `/build` handler, after which the handler enters its
loop: the result `false` says that the handler has not returned. -/
def BuildHandler.enterLoop (sw : MyStatusWriter) : Exec Bool × MyStatusWriter :=
  match BuildHandler.markStarted sw with
  | (.ok (), sw1) => (.ok false, sw1)
  | (.blocked, sw1) => (.blocked, sw1)
  | (.crash msg, sw1) => (.crash msg, sw1)

/-! ## The verb `%q` of `fmt` and the string decoder of `encoding/json` -/

/-- The constant `lowerhex` of `strconv`, indexed at `n`, which is below 16. -/
def strconv.lowerhex (n : Nat) : Char :=
  if n < 10 then Char.ofNat (48 + n) else Char.ofNat (87 + n)

/-- `strconv.IsPrint`. For a rune up to U+00FF the test is written out in the
function; above it the function looks the rune up in the tables `isPrint16`,
`isNotPrint16`, `isPrint32` and `isNotPrint32`, whose outcome is `wide`. -/
def strconv.IsPrint (wide : Nat → Bool) (r : Nat) : Bool :=
  if r ≤ 0xFF then
    if 0x20 ≤ r ∧ r < 0x7F then true
    else if 0xA1 ≤ r then r != 0xAD
    else false
  else wide r

/-- `strconv.appendEscapedRune` with the quote `"` and neither `ASCIIonly` nor
`graphicOnly`: what `strconv.Quote` writes for the rune `r`. A character of a
Lean string is a valid rune, so the case `!utf8.ValidRune(r)` does not arise. -/
def strconv.appendEscapedRune (wide : Nat → Bool) (r : Char) : List Char :=
  if r.toNat = 34 ∨ r.toNat = 92 then [Char.ofNat 92, r]
  else if strconv.IsPrint wide r.toNat then [r]
  else if r.toNat = 7 then [Char.ofNat 92, 'a']
  else if r.toNat = 8 then [Char.ofNat 92, 'b']
  else if r.toNat = 12 then [Char.ofNat 92, 'f']
  else if r.toNat = 10 then [Char.ofNat 92, 'n']
  else if r.toNat = 13 then [Char.ofNat 92, 'r']
  else if r.toNat = 9 then [Char.ofNat 92, 't']
  else if r.toNat = 11 then [Char.ofNat 92, 'v']
  else if r.toNat < 32 ∨ r.toNat = 127 then
    [Char.ofNat 92, 'x', strconv.lowerhex (r.toNat % 256 / 16), strconv.lowerhex (r.toNat % 16)]
  else if r.toNat < 0x10000 then
    [Char.ofNat 92, 'u', strconv.lowerhex (r.toNat / 4096 % 16),
      strconv.lowerhex (r.toNat / 256 % 16), strconv.lowerhex (r.toNat / 16 % 16),
      strconv.lowerhex (r.toNat % 16)]
  else
    [Char.ofNat 92, 'U', strconv.lowerhex (r.toNat / 268435456 % 16),
      strconv.lowerhex (r.toNat / 16777216 % 16), strconv.lowerhex (r.toNat / 1048576 % 16),
      strconv.lowerhex (r.toNat / 65536 % 16), strconv.lowerhex (r.toNat / 4096 % 16),
      strconv.lowerhex (r.toNat / 256 % 16), strconv.lowerhex (r.toNat / 16 % 16),
      strconv.lowerhex (r.toNat % 16)]

/-- The loop of `strconv.appendQuotedWith` over the runes of the string, and
the closing quote. -/
def strconv.appendQuoted (wide : Nat → Bool) : List Char → List Char
  | [] => [Char.ofNat 34]
  | r :: s => strconv.appendEscapedRune wide r ++ strconv.appendQuoted wide s

/-- `strconv.Quote`, which is what the verb `%q` of `fmt` writes for a string.
A Lean string is a sequence of valid runes: the texts that are not valid UTF-8,
whose stray bytes Go writes as `\x..`, are left out. -/
def strconv.Quote (wide : Nat → Bool) (s : String) : String :=
  String.mk (Char.ofNat 34 :: strconv.appendQuoted wide s.data)

/-- The value of a hexadecimal digit, as `getu4` of `encoding/json` reads it. -/
def json.hexVal (c : Char) : Option Nat :=
  if 48 ≤ c.toNat ∧ c.toNat ≤ 57 then some (c.toNat - 48)
  else if 97 ≤ c.toNat ∧ c.toNat ≤ 102 then some (c.toNat - 87)
  else if 65 ≤ c.toNat ∧ c.toNat ≤ 70 then some (c.toNat - 55)
  else none

/-- `getu4` of `encoding/json` on the four characters after `\u`. -/
def json.getu4 (a b c d : Char) : Option Nat :=
  match json.hexVal a, json.hexVal b, json.hexVal c, json.hexVal d with
  | some x, some y, some z, some w => some (x * 4096 + y * 256 + z * 16 + w)
  | _, _, _, _ => none

/-- The low half of a surrogate pair at the head of the text: `getu4` on what
follows a `\u` escape, as `unquote` of `encoding/json` calls it, with the text
after the second escape. -/
def json.lowSurrogate : List Char → Option (Nat × List Char)
  | b :: u :: a2 :: b2 :: c2 :: d2 :: rest =>
    if b.toNat = 92 ∧ u = 'u' then
      match json.getu4 a2 b2 c2 d2 with
      | some v => if 0xDC00 ≤ v ∧ v < 0xE000 then some (v, rest) else none
      | none => none
    else none
  | _ => none

/-- The rune of a `\u` escape, from the text after `\u`, and the text after the
escape, as `unquote` of `encoding/json` reads it: four hexadecimal digits give
the rune; a surrogate followed by the escape of its pair gives the rune of the
pair, and a surrogate without its pair gives U+FFFD. `none` when the four
digits are not there, which the scanner refuses. -/
def json.unicode : List Char → Option (Char × List Char)
  | a :: b :: c :: d :: rest =>
    match json.getu4 a b c d with
    | none => none
    | some v =>
      if 0xD800 ≤ v ∧ v < 0xE000 then
        match (if v < 0xDC00 then json.lowSurrogate rest else none) with
        | some (v2, rest2) =>
          some (Char.ofNat ((v - 0xD800) * 1024 + (v2 - 0xDC00) + 0x10000), rest2)
        | none => some (Char.ofNat 0xFFFD, rest)
      else some (Char.ofNat v, rest)
  | _ => none

/-- The rune of an escape, from the text after the backslash, and the text
after the escape: the scanner of `encoding/json` accepts the escapes
`\" \\ \/ \b \f \n \r \t \uXXXX` and no other. -/
def json.escape : List Char → Option (Char × List Char)
  | [] => none
  | e :: rest =>
    if e.toNat = 34 ∨ e.toNat = 92 ∨ e.toNat = 47 then some (e, rest)
    else if e = 'b' then some (Char.ofNat 8, rest)
    else if e = 'f' then some (Char.ofNat 12, rest)
    else if e = 'n' then some (Char.ofNat 10, rest)
    else if e = 'r' then some (Char.ofNat 13, rest)
    else if e = 't' then some (Char.ofNat 9, rest)
    else if e = 'u' then json.unicode rest
    else none

/-- One step of reading a string literal of JSON after its opening quote: the
closing quote (no rune), or the next rune, with the text after it. `none` when
the literal is not valid: the text ends, an escape is not valid, or a character
below U+0020 stands in the literal. -/
def json.next : List Char → Option (Option Char × List Char)
  | [] => none
  | c :: rest =>
    if c.toNat = 34 then some (none, rest)
    else if c.toNat = 92 then
      match json.escape rest with
      | some (r, rest1) => some (some r, rest1)
      | none => none
    else if c.toNat < 32 then none
    else some (some c, rest)

/-- A string literal of JSON after its opening quote, as `encoding/json` reads
it: the runes up to the closing quote, `none` when the literal is not valid.
`fuel` bounds the number of runes read; the length of the text is enough. -/
def json.unquote : Nat → List Char → Option (List Char)
  | 0, _ => none
  | fuel + 1, text =>
    match json.next text with
    | none => none
    | some (none, _) => some []
    | some (some r, rest) => (json.unquote fuel rest).map (fun s => r :: s)

/-- The white space of JSON. -/
def json.isSpace (c : Char) : Bool :=
  c.toNat = 32 || c.toNat = 9 || c.toNat = 13 || c.toNat = 10

/-- The text after the white space at its head. -/
def json.skipSpace : List Char → List Char
  | [] => []
  | c :: rest => if json.isSpace c then json.skipSpace rest else c :: rest

/-- The call `decoder.Decode(&errText)` of `BuildClient.StartBuild`, with
`errText` a string, on a body that begins, after white space, with a string
literal: the string decoded; what follows the literal is not read. `none`
stands for every other outcome: the literal is not valid JSON and `Decode`
returns an error, or the body does not begin with a string literal. -/
def json.DecodeString (body : String) : Option String :=
  match json.skipSpace body.data with
  | [] => none
  | c :: rest =>
    if c.toNat = 34 then (json.unquote (rest.length + 1) rest).map String.mk else none

/-- Whether `json.DecodeString` reads back a character that `strconv.Quote` has
written: the character is not a control character other than `\b \f \n \r \t`,
it is not U+007F, and above U+FFFF it is printable. -/
def strconv.readsBack (wide : Nat → Bool) (c : Char) : Bool :=
  (32 ≤ c.toNat || c.toNat = 8 || c.toNat = 9 || c.toNat = 10 || c.toNat = 12 || c.toNat = 13)
    && c.toNat != 127 && (c.toNat < 0x10000 || wide c.toNat)

/-- Lines 112-145 of the `/build` handler: the writer is made, `StartBuild` of
the service is called, its error, if any, is reported, and the build is marked
started. The verb `%q` of `fmt` is `strconv.Quote`, with `wide` the tables of
`strconv.IsPrint`; the body of an `http.Error` is the string passed to it. The
result says whether the handler has returned (`true`) or goes on to its loop
over the updates (`false`). -/
def BuildHandler.start (wide : Nat → Bool)
    (service : MyStatusWriter → Exec GoError × MyStatusWriter) : Exec Bool × MyStatusWriter :=
  match service MyStatusWriter.new with
  | (.blocked, sw) => (.blocked, sw)
  | (.crash msg, sw) => (.crash msg, sw)
  | (.ok none, sw) => BuildHandler.enterLoop sw
  | (.ok (some err), sw) =>
    if !sw.startedWriting then
      (.ok true, { sw with startedWriting := true,
                           w := sw.w ++ [Frame.httpError 500 (strconv.Quote wide err ++ "\n")] })
    else
      match sw.Updated { BuildFailed := some { Error := err } } with
      | (.blocked, sw1) => (.blocked, sw1)
      | (.crash msg, sw1) => (.crash msg, sw1)
      | (.ok (some updErr), sw1) =>
        (.ok true, { sw1 with w := sw1.w ++ [Frame.httpError 500
          (strconv.Quote wide ("error during updating status BuildFailed: " ++ updErr)
            ++ "\n")] })
      | (.ok none, sw1) => BuildHandler.enterLoop sw1

/-- Whether a line of the response is an `http.Error`. -/
def Frame.isHttpError : Frame → Bool
  | .httpError _ _ => true
  | _ => false

/-- Calls of a service that opens the writer, sends a job result and then
fails. -/
def Example.failingCalls : List WriterCall :=
  [.started { ID := ⟨"B1"⟩, MissingFiles := [] },
   .updated { JobFinished := some { ID := ⟨"a"⟩ } }]

/-! ## Artifact cache and the downloads of a worker -/

/-- Modelled from the spec: the error `Exists` of the caches, whose text is
outside the given sources. -/
def ErrExists : String := "file exists"

/-- Modelled from the spec: the error `NotFound` of the caches, whose text is
outside the given sources. -/
def ErrNotFound : String := "file not found"

/-- Modelled from the spec: `artifact.Cache`, whose declaration is outside the
given sources. An entry is absent, writing (a write slot is outstanding) or
committed; a committed entry has an in-use count. -/
structure ArtifactCache where
  committed : List ID
  writing : List ID
  inUse : GoMap ID Nat
deriving DecidableEq, Repr

/-- The in-use count the artifact cache keeps for `id`. -/
def ArtifactCache.inUseCount (c : ArtifactCache) (id : ID) : Nat := (GoMap.load c.inUse id).getD 0

/-- Modelled from the spec: `Get(id) → (path, release) | NotFound`. On a
committed entry the in-use count is incremented; a writing entry is not
seen. -/
def ArtifactCache.Get (c : ArtifactCache) (id : ID) : Option (String × ArtifactCache) :=
  if id ∈ c.committed then
    some (id.String, { c with inUse := GoMap.store c.inUse id (c.inUseCount id + 1) })
  else none

/-- Modelled from the spec: the `release` function `Get` returns. -/
def ArtifactCache.unlock (c : ArtifactCache) (id : ID) : ArtifactCache :=
  { c with inUse := GoMap.store c.inUse id (c.inUseCount id - 1) }

/-- Modelled from the spec: `Create(id) → (path, commit, abort) | Exists`. A
writing slot is reserved unless the entry is committed or being written. -/
def ArtifactCache.Create (c : ArtifactCache) (id : ID) : Option (String × ArtifactCache) :=
  if id ∈ c.committed ∨ id ∈ c.writing then none
  else some (id.String, { c with writing := id :: c.writing })

/-- Modelled from the spec: the `commit` function of a slot; it promotes the
slot to committed. `err` is the error of the file system, if any, and then
nothing changes. -/
def ArtifactCache.commit (c : ArtifactCache) (id : ID) (err : GoError) : GoError × ArtifactCache :=
  match err with
  | some e => (some e, c)
  | none => (none, { c with writing := c.writing.erase id, committed := c.committed ++ [id] })

/-- Modelled from the spec: the `abort` function of a slot; it discards the
partial content. `err` is the error of the file system, if any, and then
nothing changes. -/
def ArtifactCache.abort (c : ArtifactCache) (id : ID) (err : GoError) : GoError × ArtifactCache :=
  match err with
  | some e => (some e, c)
  | none => (none, { c with writing := c.writing.erase id })

/-- The answer to the request `GET /artifact` of `artifact.Download`: making
the request fails, sending it fails, or a response comes with its status code,
its body as `io.ReadAll` gives it (`none` when reading fails) and the error of
`tarstream.Receive` on it. -/
inductive ArtifactReply where
  | requestFailed (err : String)
  | doFailed (err : String)
  | response (status : Nat) (body : Option String) (receiveErr : GoError)
deriving DecidableEq, Repr

/-- The answer to the request `GET /file` of `Client.Download`: making the
request fails, sending it fails, or a response comes with its status code and
the result of `io.ReadAll` on its body. -/
inductive FileReply where
  | requestFailed (err : String)
  | doFailed (err : String)
  | response (status : Nat) (body : Except String String)

/-- `build.JobContext`. -/
structure JobContext where
  SourceDir : String
  OutputDir : String
  Deps : GoMap ID String
deriving DecidableEq, Repr

/-- The process an `exec.Cmd` describes. -/
structure Process where
  argv : List String
  env : List String
  dir : String
deriving DecidableEq, Repr

/-- What lies outside the worker while it runs a job: the answers of the
network, of the file system and of the processes it starts, and the library
functions whose results are not computed here (`filepath.Join`,
`filepath.Dir`, the `%q` verb, `Cmd.Render` of the `build` package,
`exec.Cmd.String`). `run i p` is the error of `cmd.Run()` for the `i`-th
command of the job, with what the process wrote to its standard output and
standard error. -/
structure World where
  artifactReply : String → ID → ArtifactReply
  artifactCommitErr : ID → GoError
  artifactAbortErr : ID → GoError
  fileReply : ID → FileReply
  fileWriteErr : ID → GoError
  mkdirTemp : Except String String
  join : String → String → String
  dir : String → String
  mkdirAll : String → GoError
  symlink : String → String → GoError
  quote : String → String
  render : Cmd → JobContext → Except String Cmd
  cmdString : Process → String
  run : Nat → Process → GoError × List UInt8 × List UInt8
  commitErr : GoError
  abortErr : GoError

/-- `artifact.Download`: the artifact is fetched from `endpoint` into a slot
of the local cache, which is committed when the stream was received and
aborted otherwise. -/
def artifact.Download (world : World) (endpoint : String) (c : ArtifactCache) (artifactID : ID) :
    GoError × ArtifactCache :=
  match world.artifactReply endpoint artifactID with
  | .requestFailed e => (some ("error during creating request: " ++ e), c)
  | .doFailed e => (some ("error during /artifact request: " ++ e), c)
  | .response status body receiveErr =>
    if status ≠ 200 then
      match body with
      | none =>
        (some ("/artifact request finished with status_code " ++ toString status
          ++ ", couldn't read body"), c)
      | some buf =>
        (some ("/artifact reuest finished with status_code: " ++ toString status
          ++ ", err: " ++ buf), c)
    else
      match c.Create artifactID with
      | none =>
        (some ("error during adding artifact " ++ artifactID.String ++ " to local cache: "
          ++ ErrExists), c)
      | some (_, c1) =>
        match receiveErr with
        | some e =>
          match c1.abort artifactID (world.artifactAbortErr artifactID) with
          | (some ae, c2) =>
            (some ("error during receiving artifact " ++ artifactID.String ++ ": " ++ e
              ++ "; also error during aborting: " ++ ae), c2)
          | (none, c2) =>
            (some ("error during receiving artifact " ++ artifactID.String ++ ": " ++ e), c2)
        | none =>
          match c1.commit artifactID (world.artifactCommitErr artifactID) with
          | (some ce, c2) =>
            (some ("error during committing artifact " ++ artifactID.String
              ++ " to local cache: " ++ ce), c2)
          | (none, c2) => (none, c2)

/-- Modelled from the spec: the sink `Cache.Write` returns, with the file
cache it writes to. `live` says that the write slot is still reserved: neither
`Close` nor `abort` has ended it. -/
structure FileSink where
  cache : Cache
  id : ID
  live : Bool
deriving DecidableEq, Repr

/-- Modelled from the spec: `Write(id) → (writer, abort) | Exists`. No other
writer of the cache is modelled, so `Exists` (`none`) means that the entry is
committed. -/
def Cache.Write (c : Cache) (id : ID) : Option FileSink :=
  if id ∈ c.committed then none else some { cache := c, id := id, live := true }

/-- Modelled from the spec: `writer.Close` performs the commit; on a slot that
was ended already there is nothing to commit. -/
def FileSink.Close (s : FileSink) : FileSink :=
  if s.live then
    { s with cache := { s.cache with committed := s.cache.committed ++ [s.id] }, live := false }
  else s

/-- Modelled from the spec: the `abort` function `Cache.Write` returns; the
partial content is discarded. -/
def FileSink.abort (s : FileSink) : FileSink := { s with live := false }

/-- A call that ends the write slot of a file: `writer.Close` or `abort`. -/
inductive SinkCall where
  | close
  | abort
deriving DecidableEq, Repr

/-- `Client.Download` of the file cache. The third component lists the calls
of `writeCloser.Close` and `abort` in the order they are made; the deferred
`Close` is made when the function returns. -/
def Client.Download (world : World) (localCache : Cache) (id : ID) :
    GoError × Cache × List SinkCall :=
  match world.fileReply id with
  | .requestFailed e => (some ("error during creating /file request: " ++ e), localCache, [])
  | .doFailed e => (some ("error during /file request: " ++ e), localCache, [])
  | .response status body =>
    match body with
    | .error e => (some ("error during reading /file response: " ++ e), localCache, [])
    | .ok buf =>
      if status ≠ 200 then (some buf, localCache, [])
      else
        match localCache.Write id with
        | none =>
          (some ("error during adding file to local cache: " ++ ErrExists), localCache, [])
        | some writeCloser =>
          match world.fileWriteErr id with
          | some e =>
            (some ("error during writing file " ++ id.String ++ " content to local cache: " ++ e),
              writeCloser.abort.Close.cache, [.abort, .close])
          | none => (none, writeCloser.Close.cache, [.close])

/-! ## Worker (`worker/worker.go`) -/

/-- How a piece of `Worker.Run` ends: the loop goes on, `Run` returns an error,
or it panics. -/
inductive Flow (α : Type) where
  | next (a : α)
  | ret (err : String)
  | panic (msg : String)
deriving DecidableEq, Repr

/-- A function call deferred in `Worker.Run`: `defer unlock()` of a pinned
artifact, `defer unlockFilesFunc()`, whose closure reads the slice
`unlockFiles` of its iteration when it runs (`ids` is the slice as it is now),
and `defer os.Remove(path)`. -/
inductive Deferred where
  | unlockArtifact (id : ID)
  | unlockFiles (ids : List ID)
  | remove (path : String)
deriving DecidableEq, Repr

/-- A call of one of the two functions of the artifact slot of a job. -/
inductive SlotCall where
  | commit (id : ID)
  | abort (id : ID)
deriving DecidableEq, Repr

/-- The state of a call of `Worker.Run`: the fields of the worker it uses, its
local variables, and the calls it has deferred, the last one first. `sent` and
`slotCalls` keep the heartbeat requests sent and the calls of `commit` and
`abort` made on the slots of the jobs, oldest first; they are records of the
past that no operation reads. -/
structure RunState where
  workerID : WorkerID
  files : Cache
  artifacts : ArtifactCache
  runningJobs : List ID
  finishedJobs : List JobResult
  addedArtifacts : List ID
  deferred : List Deferred
  sent : List HeartbeatRequest
  slotCalls : List SlotCall
deriving DecidableEq, Repr

/-- The state in which `Worker.Run` starts. -/
def RunState.init (workerID : WorkerID) (files : Cache) (artifacts : ArtifactCache) : RunState :=
  { workerID := workerID, files := files, artifacts := artifacts, runningJobs := [],
    finishedJobs := [], addedArtifacts := [], deferred := [], sent := [], slotCalls := [] }

/-- Lines 112-115: the path of a pinned artifact is noted, its release is
deferred, and its id is appended to `addedArtifacts`. -/
def Worker.pinned (artID : ID) (path : String) (a : ArtifactCache) (depsMap : GoMap ID String)
    (st : RunState) : GoMap ID String × RunState :=
  (GoMap.store depsMap artID path,
    { st with artifacts := a, deferred := .unlockArtifact artID :: st.deferred,
              addedArtifacts := st.addedArtifacts ++ [artID] })

/-- The loop over `spec.Artifacts` (lines 99-116). -/
def Worker.collectArtifacts (world : World) :
    List (ID × WorkerID) → GoMap ID String → RunState → Flow (GoMap ID String) × RunState
  | [], depsMap, st => (.next depsMap, st)
  | (artID, workID) :: rest, depsMap, st =>
    match st.artifacts.Get artID with
    | some (path, a) =>
      Worker.collectArtifacts world rest (Worker.pinned artID path a depsMap st).1
        (Worker.pinned artID path a depsMap st).2
    | none =>
      match artifact.Download world workID st.artifacts artID with
      | (some err, a) => (.ret err, { st with artifacts := a })
      | (none, a) =>
        match a.Get artID with
        | none => (.panic "error in get of just downloaded artifact", { st with artifacts := a })
        | some (path, a1) =>
          Worker.collectArtifacts world rest (Worker.pinned artID path a1 depsMap st).1
            (Worker.pinned artID path a1 depsMap st).2

/-- The loop over `spec.SourceFiles` that downloads the files (lines
120-128). -/
def Worker.downloadFiles (world : World) : List (ID × String) → RunState → Flow Unit × RunState
  | [], st => (.next (), st)
  | (fileID, _) :: rest, st =>
    match Client.Download world st.files fileID with
    | (some err, files, _) =>
      (.ret ("error during downloading file " ++ fileID.String ++ ": " ++ err),
        { st with files := files })
    | (none, files, _) => Worker.downloadFiles world rest { st with files := files }

/-- The closure `runAbort` (lines 156-161): the slot of the job is aborted; an
error of the abort is logged only. -/
def Worker.runAbort (world : World) (specID : ID) (st : RunState) : RunState :=
  { st with artifacts := (st.artifacts.abort specID world.abortErr).2,
            slotCalls := st.slotCalls ++ [.abort specID] }

/-- `unlockFiles = append(unlockFiles, unlock)`: the slice is the one the
last deferred `unlockFilesFunc` reads. -/
def Deferred.addUnlock (id : ID) : List Deferred → List Deferred
  | [] => []
  | .unlockFiles ids :: rest => .unlockFiles (ids ++ [id]) :: rest
  | d :: rest => d :: Deferred.addUnlock id rest

/-- The loop over `spec.SourceFiles` that pins the files and links them into
the source directory (lines 163-189). -/
def Worker.linkSources (world : World) (specID : ID) (sourceDir : String) :
    List (ID × String) → RunState → Flow Unit × RunState
  | [], st => (.next (), st)
  | (sfID, sfName) :: rest, st =>
    match st.files.Get sfID with
    | none => (.ret ErrNotFound, Worker.runAbort world specID st)
    | some (path, files) =>
      let st1 := { st with files := files }
      let symlink := world.join sourceDir sfName
      let sfDir := world.dir symlink
      match (if sfDir ≠ "" then world.mkdirAll sfDir else none) with
      | some err => (.ret err, Worker.runAbort world specID st1)
      | none =>
        let st2 := if sfDir ≠ "" then { st1 with deferred := .remove sfDir :: st1.deferred }
                   else st1
        match world.symlink path symlink with
        | some err => (.ret err, Worker.runAbort world specID st2)
        | none =>
          Worker.linkSources world specID sourceDir rest
            { st2 with deferred := Deferred.addUnlock sfID st2.deferred }

/-- The `exec.Cmd` made for a command (lines 206-216): from `Exec` when the
template has one, from `CatTemplate` when the template has one, the second
winning; `none` is the nil pointer. -/
def Worker.command (world : World) (tmpl rendered : Cmd) : Option Process :=
  let cmd : Option Process :=
    if tmpl.Exec ≠ [] then
      some { argv := rendered.Exec, env := rendered.Environ, dir := rendered.WorkingDirectory }
    else none
  if tmpl.CatTemplate ≠ "" then
    some { argv := ["sh", "-c", "printf " ++ world.quote rendered.CatTemplate ++ " > "
                      ++ world.quote rendered.CatOutput],
           env := [], dir := "" }
  else cmd

/-- The loop over `spec.Cmds` (lines 191-231), from the `i`-th command on;
`out` and `err` are the buffers `bytesOut` and `bytesErr`. -/
def Worker.runCmds (world : World) (specID : ID) (ctx : JobContext) :
    Nat → List Cmd → List UInt8 → List UInt8 → RunState →
    Flow (List UInt8 × List UInt8) × RunState
  | _, [], out, err, st => (.next (out, err), st)
  | i, tmpl :: rest, out, err, st =>
    match world.render tmpl ctx with
    | .error e => (.ret ("error during rendering cmd: " ++ e), Worker.runAbort world specID st)
    | .ok rendered =>
      if tmpl.Exec ≠ [] ∧ rendered.Exec = [] then (.panic "index out of range", st)
      else
        match Worker.command world tmpl rendered with
        | none => (.panic "nil pointer dereference", st)
        | some cmd =>
          match world.run i cmd with
          | (some e, _, _) =>
            (.ret ("error during cmd " ++ world.quote (world.cmdString cmd) ++ " running: " ++ e),
              st)
          | (none, o, e) => Worker.runCmds world specID ctx (i + 1) rest (out ++ o) (err ++ e) st

/-- The body of the loop over `resp.JobsToRun` (lines 93-245) for one job. -/
def Worker.runJob (world : World) (spec : JobSpec) (st : RunState) : Flow Unit × RunState :=
  match Worker.collectArtifacts world spec.Artifacts [] st with
  | (.ret e, st1) => (.ret e, st1)
  | (.panic msg, st1) => (.panic msg, st1)
  | (.next depsMap, st1) =>
    match Worker.downloadFiles world spec.SourceFiles st1 with
    | (.ret e, st2) => (.ret e, st2)
    | (.panic msg, st2) => (.panic msg, st2)
    | (.next (), st2) =>
      match st2.artifacts.Create spec.ID with
      | none => (.ret ErrExists, st2)
      | some (path, a) =>
        let st3 := { st2 with artifacts := a }
        match world.mkdirTemp with
        | .error _ =>
          (.panic ("couldn't create temp dir for execute job spec " ++ spec.ID.String), st3)
        | .ok sourceDir =>
          let st4 := { st3 with deferred := .remove sourceDir :: .unlockFiles [] :: st3.deferred }
          match Worker.linkSources world spec.ID sourceDir spec.SourceFiles st4 with
          | (.ret e, st5) => (.ret e, st5)
          | (.panic msg, st5) => (.panic msg, st5)
          | (.next (), st5) =>
            match Worker.runCmds world spec.ID
                { SourceDir := sourceDir, OutputDir := path, Deps := depsMap }
                0 spec.Job.Cmds [] [] st5 with
            | (.ret e, st6) => (.ret e, st6)
            | (.panic msg, st6) => (.panic msg, st6)
            | (.next (bytesOut, bytesErr), st6) =>
              let res : JobResult :=
                { ID := spec.ID, Stdout := bytesOut, Stderr := bytesErr, ExitCode := 0 }
              let st7 := { st6 with finishedJobs := st6.finishedJobs ++ [res] }
              match st7.artifacts.commit spec.ID world.commitErr with
              | (some e, a1) =>
                (.ret ("couldn't commit artifact creating: " ++ e),
                  { st7 with artifacts := a1, slotCalls := st7.slotCalls ++ [.commit spec.ID] })
              | (none, a1) =>
                (.next (),
                  { st7 with artifacts := a1, slotCalls := st7.slotCalls ++ [.commit spec.ID] })

/-- The heartbeat request of lines 73-81. -/
def Worker.hbReq (st : RunState) : HeartbeatRequest :=
  { WorkerID := st.workerID, RunningJobs := st.runningJobs, FreeSlots := 1,
    FinishedJob := st.finishedJobs, AddedArtifacts := st.addedArtifacts }

/-- What the outside gives to one iteration of the loop of `Worker.Run`: the
result of `w.client.Heartbeat`, and the world in which the `k`-th job of the
response runs. -/
structure Turn where
  reply : Except String HeartbeatResponse
  world : Nat → World

/-- The loop over `resp.JobsToRun`, from the `k`-th job on. -/
def Worker.runJobs (worlds : Nat → World) : Nat → List (ID × JobSpec) → RunState →
    Flow Unit × RunState
  | _, [], st => (.next (), st)
  | k, (_, spec) :: rest, st =>
    match Worker.runJob (worlds k) spec st with
    | (.next (), st1) => Worker.runJobs worlds (k + 1) rest st1
    | (.ret e, st1) => (.ret e, st1)
    | (.panic msg, st1) => (.panic msg, st1)

/-- One iteration of the loop of `Worker.Run` (lines 72-246). -/
def Worker.iteration (turn : Turn) (st : RunState) : Flow Unit × RunState :=
  let st1 := { st with sent := st.sent ++ [Worker.hbReq st] }
  match turn.reply with
  | .error e => (.ret ("error diring heartbeat iteration: " ++ e), st1)
  | .ok resp =>
    Worker.runJobs turn.world 0 resp.JobsToRun { st1 with finishedJobs := [], addedArtifacts := [] }

/-- The deferred calls are run, the last deferred first; `unlockFilesFunc`
releases its files from the last to the first. -/
def RunState.runDeferred (st : RunState) : RunState :=
  st.deferred.foldl
    (fun s d =>
      match d with
      | .unlockArtifact id => { s with artifacts := s.artifacts.unlock id }
      | .unlockFiles ids => { s with files := ids.reverse.foldl Cache.unlock s.files }
      | .remove _ => s)
    { st with deferred := [] }

/-- `Worker.Run` over the iterations the turns allow: the loop ends when an
iteration returns or panics, and then the deferred calls run; `next` says that
the loop is still going when the turns are used up. -/
def Worker.Run : List Turn → RunState → Flow Unit × RunState
  | [], st => (.next (), st)
  | turn :: turns, st =>
    match Worker.iteration turn st with
    | (.next (), st1) => Worker.Run turns st1
    | (.ret e, st1) => (.ret e, st1.runDeferred)
    | (.panic msg, st1) => (.panic msg, st1.runDeferred)

/-- A world in which everything succeeds: every request is answered with
status 200, the file system makes every directory and link, every command
renders to itself and runs without error, writing nothing. -/
def Example.world : World :=
  { artifactReply := fun _ _ => .response 200 none none
    artifactCommitErr := fun _ => none
    artifactAbortErr := fun _ => none
    fileReply := fun _ => .response 200 (.ok "data")
    fileWriteErr := fun _ => none
    mkdirTemp := .ok "/tmp/src"
    join := fun a b => a ++ "/" ++ b
    dir := fun _ => "/tmp/src"
    mkdirAll := fun _ => none
    symlink := fun _ _ => none
    quote := fun s => "'" ++ s ++ "'"
    render := fun c _ => .ok c
    cmdString := fun p => " ".intercalate p.argv
    run := fun _ _ => (none, [], [])
    commitErr := none
    abortErr := none }

/-- The world of `Example.world`, but every command exits with status 2. -/
def Example.worldCmdFails : World :=
  { Example.world with run := fun _ _ => (some "exit status 2", [], []) }

/-- The world of `Example.world`, but writing the content of a downloaded file
to the local cache fails. -/
def Example.worldWriteFails : World :=
  { Example.world with fileWriteErr := fun _ => some "no space left on device" }

/-- A job with one command, no source file and no dependency. -/
def Example.specEcho : JobSpec :=
  { SourceFiles := [], Artifacts := [],
    Job := { ID := ⟨"j1"⟩, Inputs := [], Deps := [],
             Cmds := [{ Exec := ["sh", "-c", "echo hi"], Environ := [], WorkingDirectory := "",
                        CatTemplate := "", CatOutput := "" }] } }

/-- A job with one command that reads the artifact `a`, which worker `w1`
has. -/
def Example.specWithDep : JobSpec :=
  { SourceFiles := [], Artifacts := [(⟨"a"⟩, "w1")],
    Job := { ID := ⟨"j2"⟩, Inputs := [], Deps := [⟨"a"⟩],
             Cmds := [{ Exec := ["sh", "-c", "echo hi"], Environ := [], WorkingDirectory := "",
                        CatTemplate := "", CatOutput := "" }] } }

/-- A worker `w2` that starts with empty caches. -/
def Example.freshRun : RunState :=
  RunState.init "w2" { committed := [], inUse := [] } { committed := [], writing := [], inUse := [] }

/-- A worker `w2` that starts with the artifact `a` in its cache, not in use. -/
def Example.runWithA : RunState :=
  RunState.init "w2" { committed := [], inUse := [] }
    { committed := [⟨"a"⟩], writing := [], inUse := [] }

/-- The artifact whose release a deferred call holds, if it holds one. -/
def Deferred.artifactOf : Deferred → Option ID
  | .unlockArtifact id => some id
  | _ => none

/-- A turn in which the coordinator hands out the job `Example.specEcho` and
everything succeeds. -/
def Example.turnEcho : Turn :=
  { reply := .ok { JobsToRun := [(⟨"j1"⟩, Example.specEcho)] }, world := fun _ => Example.world }

/-! ## Client (`client/build.go`, `api/build_client.go`) -/

/-- The error the decoder of a status reader returns when no further update
decodes: `io.EOF` at the end of the stream, or another error (of the
connection, or of the decoding). -/
inductive ReadError where
  | eof
  | other (msg : String)
deriving DecidableEq, Repr

/-- `api.MyStatusReader` on what is left of the response: the updates that
decode, in order, and the error after them. -/
structure MyStatusReader where
  updates : List StatusUpdate
  err : ReadError
deriving DecidableEq, Repr

/-- `MyStatusReader.Next`: the update decoded and the error of the decoder.
The pointer returned is `&upd`, never nil; when nothing decodes `upd` is the
zero value. -/
def MyStatusReader.Next (s : MyStatusReader) : StatusUpdate × Option ReadError × MyStatusReader :=
  match s.updates with
  | upd :: rest => (upd, none, { s with updates := rest })
  | [] => ({}, some s.err, s)

/-- A call of a method of the `BuildListener`; the errors the methods return
are logged only. -/
inductive ListenerCall where
  | OnJobStdout (jobID : ID) (stdout : List UInt8)
  | OnJobStderr (jobID : ID) (stderr : List UInt8)
  | OnJobFinished (jobID : ID)
  | OnJobFailed (jobID : ID) (code : Int) (error : String)
deriving DecidableEq, Repr

/-- Lines 89-105 of `Client.Build`: the calls of the listener for an update. -/
def Client.Build.notify : Option JobResult → List ListenerCall
  | none => []
  | some finished =>
    [.OnJobStdout finished.ID finished.Stdout, .OnJobStderr finished.ID finished.Stderr,
     match finished.Error with
     | some e => .OnJobFailed finished.ID finished.ExitCode e
     | none => .OnJobFinished finished.ID]

/-- The loop of `Client.Build` (lines 70-107) on a reader with the updates
given and the error `err` after them; each round is one `statusReader.Next()`.
When the updates are read `Next` returns `err`: the test
`errors.Is(err, io.EOF) && upd != nil` holds for `io.EOF`, the pointer never
being nil, and the loop is left with `break`, after which `Build` returns nil;
another error is returned. The calls of the listener are collected. -/
def Client.Build.loop (err : ReadError) : List StatusUpdate → List ListenerCall →
    GoError × List ListenerCall
  | [], calls =>
    match err with
    | .eof => (none, calls)
    | .other msg => (some msg, calls)
  | upd :: rest, calls =>
    if upd.BuildFinished.isSome then (none, calls)
    else
      match upd.BuildFailed with
      | some failed => (some failed.Error, calls)
      | none => Client.Build.loop err rest (calls ++ Client.Build.notify upd.JobFinished)

/-- What the coordinator answers to a client: the result of
`c.client.StartBuild`, of `c.filecache.Upload` for a file id and a path, and
of `c.client.SignalBuild`. -/
structure Session where
  startBuild : Except String (BuildStarted × MyStatusReader)
  upload : ID → String → GoError
  signal : GoError

/-- The loop of `Client.Build` over `build.MissingFiles` (lines 53-61); `join`
is `filepath.Join`. -/
def Client.Build.uploads (session : Session) (join : String → String → String)
    (sourceDir : String) (graph : Graph) : List ID → GoError
  | [] => none
  | id :: rest =>
    match session.upload id (join sourceDir ((GoMap.load graph.SourceFiles id).getD "")) with
    | some e => some ("error during Uploading file " ++ id.String ++ " to filecache: " ++ e)
    | none => Client.Build.uploads session join sourceDir graph rest

/-- `Client.Build`, with the calls it made on the listener. -/
def Client.Build (session : Session) (join : String → String → String) (sourceDir : String)
    (graph : Graph) : GoError × List ListenerCall :=
  match session.startBuild with
  | .error e => (some ("couldn't start build: " ++ e), [])
  | .ok (build, statusReader) =>
    match Client.Build.uploads session join sourceDir graph build.MissingFiles with
    | some e => (some e, [])
    | none =>
      match session.signal with
      | some e =>
        (some ("error during SignalBuild request, couldn't send UploadDone signal: " ++ e), [])
      | none => Client.Build.loop statusReader.err statusReader.updates []

/-- A session in which the build starts with no file missing, the signal is
accepted, and the stream of updates is the one given. -/
def Example.session (updates : List StatusUpdate) (err : ReadError) : Session :=
  { startBuild := .ok ({ ID := ⟨"B1"⟩, MissingFiles := [] }, { updates := updates, err := err })
    upload := fun _ _ => none
    signal := none }

/-! # Properties -/

/-! ## Maps -/

theorem GoMap.load_filter_ne {κ ν : Type} [DecidableEq κ] (m : GoMap κ ν) (k k' : κ) (h : k' ≠ k) :
    GoMap.load (m.filter (fun e => !decide (e.1 = k))) k' = GoMap.load m k' := by
  induction m with
  | nil => rfl
  | cons e rest ih =>
    obtain ⟨a, b⟩ := e
    by_cases hak : a = k
    · subst hak
      have : a ≠ k' := fun h' => h h'.symm
      simp [GoMap.load, this, ih]
    · by_cases hak' : a = k'
      · subst hak'
        simp [List.filter_cons, h, GoMap.load]
      · simp [List.filter_cons, GoMap.load, hak, hak', ih]

theorem GoMap.load_store_self {κ ν : Type} [DecidableEq κ] (m : GoMap κ ν) (k : κ) (v : ν) :
    GoMap.load (GoMap.store m k v) k = some v := by
  simp [GoMap.store, GoMap.load]

theorem GoMap.load_store_ne {κ ν : Type} [DecidableEq κ] (m : GoMap κ ν) (k k' : κ) (v : ν)
    (h : k' ≠ k) : GoMap.load (GoMap.store m k v) k' = GoMap.load m k' := by
  have : k ≠ k' := fun h' => h h'.symm
  simp [GoMap.store, GoMap.load, this, GoMap.load_filter_ne m k k' h]

theorem GoMap.load_store {κ ν : Type} [DecidableEq κ] (m : GoMap κ ν) (k k' : κ) (v : ν) :
    GoMap.load (GoMap.store m k v) k' = if k' = k then some v else GoMap.load m k' := by
  by_cases h : k' = k
  · subst h; simp [GoMap.load_store_self]
  · simp [h, GoMap.load_store_ne m k k' v h]

/-! ## Scheduler: the artifact-location index -/

theorem LocateArtifact_found_iff (c : Scheduler) (id : ID) :
    (LocateArtifact c id).2 = true ↔ (GoMap.load c.artifactLocations id.String).isSome = true := by
  unfold LocateArtifact
  cases h : GoMap.load c.artifactLocations id.String <;> simp

theorem ScheduleJob_enter_locations (c : Scheduler) (job : JobSpec) :
    (ScheduleJob.enter c job).2.artifactLocations = c.artifactLocations := by
  unfold ScheduleJob.enter RWMutex.RLock
  by_cases hw : c.stoppedMu.writer = true
  · simp [hw]
  · by_cases hs : c.stopped = true <;> simp [hw, hs]

theorem ScheduleJob_push_locations (c : Scheduler) (p : PendingJob) :
    (ScheduleJob.push c p).2.artifactLocations = c.artifactLocations := by
  unfold ScheduleJob.push
  cases c.jobsQue.send p <;> rfl

theorem ScheduleJob_locations (c : Scheduler) (job : JobSpec) :
    (ScheduleJob c job).2.artifactLocations = c.artifactLocations := by
  have h1 := ScheduleJob_enter_locations c job
  unfold ScheduleJob
  rcases h : ScheduleJob.enter c job with ⟨r, c1⟩
  rw [h] at h1
  rcases r with (_ | p) | _ | _
  · exact h1
  · have h2 := ScheduleJob_push_locations c1 p
    rcases h3 : ScheduleJob.push c1 p with ⟨r2, c2⟩
    rw [h3] at h2
    simp only at h1 h2
    cases r2 <;> simp only [h3, h2, h1]
  · exact h1
  · exact h1

theorem PickJob_locations (c : Scheduler) (ctxDone : Bool) (w : WorkerID) (choice : Nat) :
    (PickJob c ctxDone w choice).2.artifactLocations = c.artifactLocations := by
  unfold PickJob
  simp only
  rcases (PickJob.ready c ctxDone)[choice % (PickJob.ready c ctxDone).length]? with _ | x
  · rfl
  · cases x
    · simp only
      rcases c.jobsQue.recv with ⟨_ | _, _⟩ | _ | _ <;> rfl
    · rfl
    · rfl

theorem Stop_locations (c : Scheduler) : (Stop c).2.artifactLocations = c.artifactLocations := by
  unfold Stop
  rcases c.stoppedMu.Lock with ⟨_ | _, mu⟩
  · rfl
  · simp only
    cases (Chan.close c.stoppedCh) <;> rfl

theorem OnJobComplete_found (c : Scheduler) (w : WorkerID) (j : ID) (r : JobResult) (id : ID)
    (h : (LocateArtifact c id).2 = true) :
    (LocateArtifact (OnJobComplete c w j r).2 id).2 = true := by
  rw [LocateArtifact_found_iff] at h ⊢
  unfold OnJobComplete
  split
  · simp only [GoMap.load_store]
    split
    · rfl
    · exact h
  · exact h

theorem SchedOp_apply_found (c : Scheduler) (op : SchedOp) (id : ID)
    (h : (LocateArtifact c id).2 = true) : (LocateArtifact (op.apply c) id).2 = true := by
  cases op with
  | onJobComplete w j r => exact OnJobComplete_found c w j r id h
  | scheduleJob job =>
    rw [LocateArtifact_found_iff] at h ⊢
    simpa [SchedOp.apply, ScheduleJob_locations] using h
  | pickJob d w ch =>
    rw [LocateArtifact_found_iff] at h ⊢
    simpa [SchedOp.apply, PickJob_locations] using h
  | stop =>
    rw [LocateArtifact_found_iff] at h ⊢
    simpa [SchedOp.apply, Stop_locations] using h

theorem run_found (ops : List SchedOp) (c : Scheduler) (id : ID)
    (h : (LocateArtifact c id).2 = true) : (LocateArtifact (c.run ops) id).2 = true := by
  induction ops generalizing c with
  | nil => exact h
  | cons op ops ih => exact ih (op.apply c) (SchedOp_apply_found c op id h)

/-! ## Scheduler: the queue -/

/-- What `ScheduleJob` does on a scheduler that is not stopped and whose queue
has room. -/
theorem ScheduleJob_running (c : Scheduler) (job : JobSpec) (hs : c.stopped = false)
    (hw : c.stoppedMu.writer = false) (hq : c.jobsQue.closed = false)
    (hroom : c.jobsQue.buf.length < c.jobsQue.cap) :
    ScheduleJob c job =
      (.ok (some { Job := job, Finished := c.nextChan, Result := { ID := job.ID } }),
        { c with
          stoppedMu := { c.stoppedMu with readers := c.stoppedMu.readers + 1 - 1 }
          nextChan := c.nextChan + 1
          jobsQue := { c.jobsQue with
            buf := c.jobsQue.buf ++
              [{ Job := job, Finished := c.nextChan, Result := { ID := job.ID } }] } }) := by
  simp [ScheduleJob, ScheduleJob.enter, ScheduleJob.push, RWMutex.RLock, RWMutex.RUnlock,
    Chan.send, hs, hw, hq, hroom]

/-- What `PickJob` does when only the queue case of the `select` is ready. -/
theorem PickJob_running (c : Scheduler) (w : WorkerID) (choice : Nat) (p : PendingJob)
    (rest : List PendingJob) (hq : c.jobsQue.closed = false) (hch : c.stoppedCh.closed = false)
    (hbuf : c.jobsQue.buf = p :: rest) :
    PickJob c false w choice =
      (.ok (some p),
        { c with jobsQue := { c.jobsQue with buf := rest, taken := c.jobsQue.taken ++ [p] } }) := by
  simp [PickJob, PickJob.ready, Chan.recv, hq, hch, hbuf, Nat.mod_one]

theorem scheduleAll_running (jobs : List JobSpec) (c : Scheduler) (hs : c.stopped = false)
    (hw : c.stoppedMu.writer = false) (hq : c.jobsQue.closed = false)
    (hroom : c.jobsQue.buf.length + jobs.length ≤ c.jobsQue.cap) :
    ∃ handles : List PendingJob,
      (scheduleAll c jobs).1 = handles.map (fun p => Exec.ok (some p)) ∧
      handles.map (fun p => p.Job) = jobs ∧
      handles.map (fun p => p.Finished) = List.range' c.nextChan jobs.length ∧
      (∀ p ∈ handles, p.Result.ID = p.Job.ID) ∧
      (scheduleAll c jobs).2.jobsQue.buf = c.jobsQue.buf ++ handles ∧
      (scheduleAll c jobs).2.jobsQue.closed = false ∧
      (scheduleAll c jobs).2.stoppedCh = c.stoppedCh := by
  induction jobs generalizing c with
  | nil => exact ⟨[], by simp [scheduleAll, hq]⟩
  | cons job jobs ih =>
    have hroom1 : c.jobsQue.buf.length < c.jobsQue.cap := by
      simp only [List.length_cons] at hroom; omega
    have hstep := ScheduleJob_running c job hs hw hq hroom1
    obtain ⟨handles, h1, h2, h3, h4, h5, h6, h7⟩ := ih (ScheduleJob c job).2
      (by rw [hstep]; exact hs) (by rw [hstep]; exact hw) (by rw [hstep]; exact hq)
      (by rw [hstep]; simp only [List.length_append, List.length_cons, List.length_nil] at hroom ⊢
          omega)
    refine ⟨{ Job := job, Finished := c.nextChan, Result := { ID := job.ID } } :: handles,
      ?_, ?_, ?_, ?_, ?_, ?_, ?_⟩
    · simp only [scheduleAll, List.map_cons, h1]
      rw [hstep]
    · simp [h2]
    · simp only [List.map_cons, h3, List.length_cons, List.range'_succ]
      rw [hstep]
    · intro p hp
      rcases List.mem_cons.mp hp with rfl | hp
      · rfl
      · exact h4 p hp
    · simp only [scheduleAll, h5]
      rw [hstep]; simp
    · simpa only [scheduleAll] using h6
    · simp only [scheduleAll, h7]
      rw [hstep]

theorem pickAll_running (picks : List (WorkerID × Nat)) (c : Scheduler)
    (hq : c.jobsQue.closed = false) (hch : c.stoppedCh.closed = false)
    (hlen : picks.length ≤ c.jobsQue.buf.length) :
    (pickAll c picks).1 = (c.jobsQue.buf.take picks.length).map (fun p => Exec.ok (some p)) := by
  induction picks generalizing c with
  | nil => simp [pickAll]
  | cons wc picks ih =>
    obtain ⟨w, choice⟩ := wc
    cases hbuf : c.jobsQue.buf with
    | nil => simp [hbuf] at hlen
    | cons p rest =>
      have hstep := PickJob_running c w choice p rest hq hch hbuf
      have := ih (PickJob c false w choice).2 (by rw [hstep]; exact hq) (by rw [hstep]; exact hch)
        (by rw [hstep]; simp only [hbuf, List.length_cons] at hlen ⊢; omega)
      simp only [pickAll, this, List.length_cons, List.take_succ_cons, List.map_cons]
      rw [hstep]

/-! ## Scheduler: what each call leaves alone -/

theorem ScheduleJob_frame (c : Scheduler) (job : JobSpec) :
    (ScheduleJob c job).2.stopped = c.stopped ∧
    (ScheduleJob c job).2.stoppedMu.writer = c.stoppedMu.writer ∧
    (ScheduleJob c job).2.stoppedCh = c.stoppedCh ∧
    (ScheduleJob c job).2.jobsQue.closed = c.jobsQue.closed ∧
    (ScheduleJob c job).2.jobsQue.cap = c.jobsQue.cap := by
  simp only [ScheduleJob, ScheduleJob.enter, ScheduleJob.push, RWMutex.RLock, RWMutex.RUnlock,
    Chan.send]
  cases hw : c.stoppedMu.writer <;> cases hs : c.stopped <;> cases hq : c.jobsQue.closed <;>
    by_cases hl : c.jobsQue.buf.length < c.jobsQue.cap <;> simp [hw, hs, hq, hl]

theorem PickJob_frame (c : Scheduler) (ctxDone : Bool) (w : WorkerID) (choice : Nat) :
    (PickJob c ctxDone w choice).2.stopped = c.stopped ∧
    (PickJob c ctxDone w choice).2.stoppedMu = c.stoppedMu ∧
    (PickJob c ctxDone w choice).2.stoppedCh = c.stoppedCh ∧
    (PickJob c ctxDone w choice).2.jobsQue.closed = c.jobsQue.closed ∧
    (PickJob c ctxDone w choice).2.jobsQue.cap = c.jobsQue.cap := by
  unfold PickJob
  simp only
  rcases (PickJob.ready c ctxDone)[choice % (PickJob.ready c ctxDone).length]? with _ | x
  · simp
  · cases x
    · simp only [Chan.recv]
      cases hb : c.jobsQue.buf with
      | nil => cases hq : c.jobsQue.closed <;> simp [hq]
      | cons a rest => simp
    · simp
    · simp

theorem Stop_frame (c : Scheduler) :
    (Stop c).2.jobsQue = c.jobsQue ∧ (c.stopped = true → (Stop c).2.stopped = true) ∧
    (c.stoppedCh.closed = true → (Stop c).2.stoppedCh.closed = true) := by
  simp only [Stop, RWMutex.Lock, Chan.close, RWMutex.Unlock]
  cases hw : c.stoppedMu.writer <;> by_cases hr : c.stoppedMu.readers = 0 <;>
    cases hq : c.stoppedCh.closed <;> simp [hw, hr, hq]

theorem OnJobComplete_frame (c : Scheduler) (w : WorkerID) (j : ID) (r : JobResult) :
    (OnJobComplete c w j r).2.stopped = c.stopped ∧
    (OnJobComplete c w j r).2.stoppedMu = c.stoppedMu ∧
    (OnJobComplete c w j r).2.stoppedCh = c.stoppedCh ∧
    (OnJobComplete c w j r).2.jobsQue = c.jobsQue := by
  unfold OnJobComplete
  split <;> simp

theorem SchedOp_apply_jobsQue (c : Scheduler) (op : SchedOp) :
    (op.apply c).jobsQue.closed = c.jobsQue.closed ∧ (op.apply c).jobsQue.cap = c.jobsQue.cap := by
  cases op with
  | onJobComplete w j r => simp [SchedOp.apply, (OnJobComplete_frame c w j r).2.2.2]
  | scheduleJob job =>
    exact ⟨(ScheduleJob_frame c job).2.2.2.1, (ScheduleJob_frame c job).2.2.2.2⟩
  | pickJob d w ch => exact ⟨(PickJob_frame c d w ch).2.2.2.1, (PickJob_frame c d w ch).2.2.2.2⟩
  | stop => simp [SchedOp.apply, (Stop_frame c).1]

theorem run_jobsQue (ops : List SchedOp) (c : Scheduler) :
    (c.run ops).jobsQue.closed = c.jobsQue.closed ∧ (c.run ops).jobsQue.cap = c.jobsQue.cap := by
  induction ops generalizing c with
  | nil => exact ⟨rfl, rfl⟩
  | cons op ops ih =>
    have h1 := ih (op.apply c)
    have h2 := SchedOp_apply_jobsQue c op
    exact ⟨h1.1.trans h2.1, h1.2.trans h2.2⟩

/-- The state `Stop` leaves behind when it returns. -/
theorem Stop_returns (c : Scheduler) (h : (Stop c).1 = .ok ()) :
    (Stop c).2.stopped = true ∧ (Stop c).2.stoppedCh.closed = true ∧
    (Stop c).2.stoppedMu.writer = false := by
  revert h
  simp only [Stop, RWMutex.Lock, Chan.close, RWMutex.Unlock]
  cases hw : c.stoppedMu.writer <;> by_cases hr : c.stoppedMu.readers = 0 <;>
    cases hq : c.stoppedCh.closed <;> simp [hw, hr, hq]

/-- A call that returns keeps the state `Stop` left behind. -/
theorem SchedOp_apply_stopped (c : Scheduler) (op : SchedOp) (hp : op.returns c = true)
    (h : c.stopped = true ∧ c.stoppedCh.closed = true ∧ c.stoppedMu.writer = false) :
    (op.apply c).stopped = true ∧ (op.apply c).stoppedCh.closed = true ∧
    (op.apply c).stoppedMu.writer = false := by
  obtain ⟨h1, h2, h3⟩ := h
  cases op with
  | onJobComplete w j r =>
    obtain ⟨f1, f2, f3, _⟩ := OnJobComplete_frame c w j r
    simp [SchedOp.apply, f1, f2, f3, h1, h2, h3]
  | scheduleJob job =>
    obtain ⟨f1, f2, f3, _⟩ := ScheduleJob_frame c job
    simp [SchedOp.apply, f1, f2, f3, h1, h2, h3]
  | pickJob d w ch =>
    obtain ⟨f1, f2, f3, _⟩ := PickJob_frame c d w ch
    simp [SchedOp.apply, f1, f2, f3, h1, h2, h3]
  | stop =>
    revert hp
    simp only [SchedOp.returns, SchedOp.apply, Stop, RWMutex.Lock, Chan.close, RWMutex.Unlock]
    by_cases hr : c.stoppedMu.readers = 0 <;> simp [h1, h2, h3, hr]

theorem run_stopped (ops : List SchedOp) (c : Scheduler) (hp : c.runsThrough ops = true)
    (h : c.stopped = true ∧ c.stoppedCh.closed = true ∧ c.stoppedMu.writer = false) :
    (c.run ops).stopped = true ∧ (c.run ops).stoppedCh.closed = true ∧
    (c.run ops).stoppedMu.writer = false := by
  induction ops generalizing c with
  | nil => exact h
  | cons op ops ih =>
    simp only [Scheduler.runsThrough, Bool.and_eq_true] at hp
    exact ih (op.apply c) hp.2 (SchedOp_apply_stopped c op hp.1 h)

/-- A call other than `Stop` keeps a running scheduler running. -/
theorem SchedOp_apply_running (c : Scheduler) (op : SchedOp) (hop : op ≠ .stop)
    (h : c.stopped = false ∧ c.stoppedMu.writer = false) :
    (op.apply c).stopped = false ∧ (op.apply c).stoppedMu.writer = false := by
  obtain ⟨h1, h2⟩ := h
  cases op with
  | onJobComplete w j r =>
    obtain ⟨f1, f2, _, _⟩ := OnJobComplete_frame c w j r
    simp [SchedOp.apply, f1, f2, h1, h2]
  | scheduleJob job =>
    obtain ⟨f1, f2, _, _⟩ := ScheduleJob_frame c job
    simp [SchedOp.apply, f1, f2, h1, h2]
  | pickJob d w ch =>
    obtain ⟨f1, f2, _, _⟩ := PickJob_frame c d w ch
    simp [SchedOp.apply, f1, f2, h1, h2]
  | stop => exact absurd rfl hop

theorem run_running (ops : List SchedOp) (c : Scheduler) (hop : SchedOp.stop ∉ ops)
    (h : c.stopped = false ∧ c.stoppedMu.writer = false) :
    (c.run ops).stopped = false ∧ (c.run ops).stoppedMu.writer = false := by
  induction ops generalizing c with
  | nil => exact h
  | cons op ops ih =>
    simp only [List.mem_cons, not_or] at hop
    exact ih (op.apply c) hop.2 (SchedOp_apply_running c op (fun e => hop.1 e.symm) h)

/-- On a stopped scheduler `ScheduleJob` returns nil and leaves the queue as it is. -/
theorem ScheduleJob_stopped (c : Scheduler) (job : JobSpec)
    (h : c.stopped = true ∧ c.stoppedCh.closed = true ∧ c.stoppedMu.writer = false) :
    (ScheduleJob c job).1 = .ok none ∧ (ScheduleJob c job).2.jobsQue = c.jobsQue := by
  simp [ScheduleJob, ScheduleJob.enter, RWMutex.RLock, h.1, h.2.2]

/-- Once `stoppedCh` is closed, `PickJob` on an empty queue returns nil. -/
theorem PickJob_stopped (c : Scheduler) (ctxDone : Bool) (w : WorkerID) (choice : Nat)
    (h : c.stoppedCh.closed = true)
    (hq : c.jobsQue.closed = false) (hbuf : c.jobsQue.buf = []) :
    (PickJob c ctxDone w choice).1 = .ok none := by
  cases ctxDone
  · simp [PickJob, PickJob.ready, hq, hbuf, h, Nat.mod_one]
  · have h2 : choice % 2 = 0 ∨ choice % 2 = 1 := by omega
    rcases h2 with h2 | h2 <;> simp [PickJob, PickJob.ready, hq, hbuf, h, h2]

/-! ## The read lock of `ScheduleJob` -/

/-- On a scheduler that is not stopped `ScheduleJob` gives the read lock back
before it sends on the queue: the lock is as it was, whether the send goes
through or waits. -/
theorem ScheduleJob_unlocks (c : Scheduler) (job : JobSpec) (hw : c.stoppedMu.writer = false)
    (hs : c.stopped = false) : (ScheduleJob c job).2.stoppedMu = c.stoppedMu := by
  obtain ⟨config, jobsQue, locs, stopped, ⟨readers, writer⟩, stoppedCh, nextChan⟩ := c
  simp only at hw hs
  subst hw hs
  simp only [ScheduleJob, ScheduleJob.enter, ScheduleJob.push, RWMutex.RLock, RWMutex.RUnlock,
    Chan.send]
  cases hq : jobsQue.closed <;> by_cases hl : jobsQue.buf.length < jobsQue.cap <;>
    simp [hq, hl]

/-- On a stopped scheduler `ScheduleJob` returns nil with the read lock it took
still held, and changes nothing else. -/
theorem ScheduleJob_leaks (c : Scheduler) (job : JobSpec) (hw : c.stoppedMu.writer = false)
    (hs : c.stopped = true) :
    ScheduleJob c job
      = (.ok none, { c with stoppedMu := { c.stoppedMu with readers := c.stoppedMu.readers + 1 } }) := by
  simp [ScheduleJob, ScheduleJob.enter, RWMutex.RLock, hw, hs]

/-- After `ScheduleJob` calls on a stopped scheduler every one of them has left
a read lock behind. -/
theorem scheduleAll_leaks (c : Scheduler) (jobs : List JobSpec)
    (hw : c.stoppedMu.writer = false) (hs : c.stopped = true) :
    (scheduleAll c jobs).2.stoppedMu.readers = c.stoppedMu.readers + jobs.length ∧
    (scheduleAll c jobs).2.stoppedMu.writer = false ∧
    (scheduleAll c jobs).2.stopped = true := by
  induction jobs generalizing c with
  | nil => exact ⟨rfl, hw, hs⟩
  | cons job jobs ih =>
    simp only [scheduleAll, ScheduleJob_leaks c job hw hs]
    obtain ⟨i1, i2, i3⟩ := ih
      { c with stoppedMu := { c.stoppedMu with readers := c.stoppedMu.readers + 1 } } hw hs
    refine ⟨?_, i2, i3⟩
    rw [i1]
    simp only [List.length_cons]
    omega

/-- `Stop` on a lock that a reader holds: the writer announces itself and is
left pending. -/
theorem Stop_waits (c : Scheduler) (hw : c.stoppedMu.writer = false)
    (h : 0 < c.stoppedMu.readers) :
    Stop c = (.blocked, { c with stoppedMu := { c.stoppedMu with writer := true } }) := by
  have hr : ¬ c.stoppedMu.readers = 0 := by omega
  simp [Stop, RWMutex.Lock, hw, hr]

/-- `ScheduleJob` behind a writer, pending or not, waits in `RLock`. -/
theorem ScheduleJob_waits (c : Scheduler) (job : JobSpec) (hw : c.stoppedMu.writer = true) :
    ScheduleJob c job = (.blocked, c) := by
  simp [ScheduleJob, ScheduleJob.enter, RWMutex.RLock, hw]

/-- After a `ScheduleJob` on a stopped scheduler `Stop` is left pending behind
the reader, and a `ScheduleJob` called after it waits. -/
theorem ScheduleJob_then_Stop (c : Scheduler) (job job' : JobSpec)
    (hw : c.stoppedMu.writer = false) (hs : c.stopped = true) :
    (Stop (ScheduleJob c job).2).1 = .blocked ∧
    (Stop (ScheduleJob c job).2).2.stoppedMu
      = { readers := c.stoppedMu.readers + 1, writer := true } ∧
    (ScheduleJob (Stop (ScheduleJob c job).2).2 job').1 = .blocked := by
  have e1 := ScheduleJob_leaks c job hw hs
  have e2 := Stop_waits (ScheduleJob c job).2 (by rw [e1]; exact hw)
    (by rw [e1]; exact Nat.succ_pos _)
  have e3 : (Stop (ScheduleJob c job).2).2.stoppedMu
      = { readers := c.stoppedMu.readers + 1, writer := true } := by
    rw [e2, e1]
  refine ⟨by rw [e2], e3, ?_⟩
  rw [ScheduleJob_waits _ job' (by rw [e3])]

/-- A channel `stoppedCh` that is closed stays closed. -/
theorem run_stoppedCh (ops : List SchedOp) (c : Scheduler) (h : c.stoppedCh.closed = true) :
    (c.run ops).stoppedCh.closed = true := by
  induction ops generalizing c with
  | nil => exact h
  | cons op ops ih =>
    apply ih
    cases op with
    | onJobComplete w j r =>
      simp only [SchedOp.apply, (OnJobComplete_frame c w j r).2.2.1]
      exact h
    | scheduleJob job =>
      simp only [SchedOp.apply, (ScheduleJob_frame c job).2.2.1]
      exact h
    | pickJob d w ch =>
      simp only [SchedOp.apply, (PickJob_frame c d w ch).2.2.1]
      exact h
    | stop => exact (Stop_frame c).2.2 h

/-! ## Claims on the scheduler -/

/-- C1 (as stated, refuted): `OnJobComplete` with a successful result whose
`ID` is `b`, called for job id `a`, leaves `LocateArtifact(a)` not found: the
location is recorded under the id of the result, not under `job_id`. -/
theorem OnJobComplete_job_id_counterexample :
    ({ ID := ⟨"b"⟩ } : JobResult).ExitCode = 0 ∧
    LocateArtifact
      (OnJobComplete (NewScheduler defaultConfig) "w1" ⟨"a"⟩ { ID := ⟨"b"⟩ }).2 ⟨"a"⟩
      = ("", false) := by
  decide

/-- C1 (amended): after `OnJobComplete(worker_id, job_id, result)` with
`result.exit_code == 0`, `LocateArtifact(result.id)` returns `(worker_id, true)`;
so does `LocateArtifact(job_id)` whenever `job_id` is the id of the result. -/
theorem OnJobComplete_locates_result (c : Scheduler) (workerID : WorkerID) (jobID : ID)
    (res : JobResult) (h : res.ExitCode = 0) :
    LocateArtifact (OnJobComplete c workerID jobID res).2 res.ID = (workerID, true) ∧
    (jobID = res.ID →
      LocateArtifact (OnJobComplete c workerID jobID res).2 jobID = (workerID, true)) := by
  have key : LocateArtifact (OnJobComplete c workerID jobID res).2 res.ID = (workerID, true) := by
    simp [OnJobComplete, h, LocateArtifact, GoMap.load_store_self]
  exact ⟨key, fun e => e ▸ key⟩

theorem OnJobComplete_locates_result_witness :
    LocateArtifact
      (OnJobComplete (NewScheduler defaultConfig) "w1" ⟨"a"⟩ { ID := ⟨"a"⟩ }).2 ⟨"a"⟩
      = ("w1", true) :=
  (OnJobComplete_locates_result (NewScheduler defaultConfig) "w1" ⟨"a"⟩ { ID := ⟨"a"⟩ }
    (by decide)).1

/-- C2: `OnJobComplete` returns true exactly when `result.exit_code == 0`, and
when it returns false the scheduler, hence the answer of `LocateArtifact` for
every id, is the same after the call as before. -/
theorem OnJobComplete_returns (c : Scheduler) (workerID : WorkerID) (jobID : ID)
    (res : JobResult) :
    ((OnJobComplete c workerID jobID res).1 = true ↔ res.ExitCode = 0) ∧
    ((OnJobComplete c workerID jobID res).1 = false →
      (OnJobComplete c workerID jobID res).2 = c ∧
      ∀ id, LocateArtifact (OnJobComplete c workerID jobID res).2 id = LocateArtifact c id) := by
  unfold OnJobComplete
  by_cases h : res.ExitCode = 0 <;> simp [h]

theorem OnJobComplete_returns_witness :
    (OnJobComplete (NewScheduler defaultConfig) "w1" ⟨"a"⟩ { ID := ⟨"a"⟩, ExitCode := 2 }).1
      = false ∧
    LocateArtifact
      (OnJobComplete (NewScheduler defaultConfig) "w1" ⟨"a"⟩ { ID := ⟨"a"⟩, ExitCode := 2 }).2
      ⟨"a"⟩ = LocateArtifact (NewScheduler defaultConfig) ⟨"a"⟩ :=
  have h : (OnJobComplete (NewScheduler defaultConfig) "w1" ⟨"a"⟩
      { ID := ⟨"a"⟩, ExitCode := 2 }).1 = false := by decide
  ⟨h, ((OnJobComplete_returns (NewScheduler defaultConfig) "w1" ⟨"a"⟩
      { ID := ⟨"a"⟩, ExitCode := 2 }).2 h).2 ⟨"a"⟩⟩

/-- C3: the artifact-location index is monotone. Once `LocateArtifact(id)` is
found, it is found after every sequence of `OnJobComplete`, `ScheduleJob`,
`PickJob` and `Stop` calls, whatever they return. -/
theorem artifact_index_monotone (c : Scheduler) (ops : List SchedOp) (id : ID)
    (h : (LocateArtifact c id).2 = true) : (LocateArtifact (c.run ops) id).2 = true :=
  run_found ops c id h

theorem artifact_index_monotone_witness :
    (LocateArtifact
      (Scheduler.run (OnJobComplete (NewScheduler defaultConfig) "w1" ⟨"a"⟩ { ID := ⟨"a"⟩ }).2
        [.scheduleJob { SourceFiles := [], Artifacts := [], Job := ⟨⟨"b"⟩, [], [], []⟩ },
         .onJobComplete "w2" ⟨"b"⟩ { ID := ⟨"b"⟩ }, .pickJob false "w2" 0, .stop,
         .onJobComplete "w2" ⟨"a"⟩ { ID := ⟨"a"⟩, ExitCode := 1 }])
      ⟨"a"⟩).2 = true :=
  artifact_index_monotone _ _ _ (by decide)

/-- C4: `ScheduleJob` and `PickJob` around `Stop`. After a `Stop` that has
returned, and as long as every later call has returned, `ScheduleJob` returns
nil and leaves the queue as it is; whatever calls were made after that `Stop`,
a `PickJob` that finds the queue empty returns nil; before any `Stop`,
`ScheduleJob` on a queue with fewer than 100 jobs returns a `PendingJob` that
wraps the given spec, with `Result.ID` the job id of the spec, and puts it at
the end of the queue. But each `ScheduleJob` after the `Stop` leaves its read
lock behind, so that a second `Stop` does not return: it is left pending on the
lock, and a `ScheduleJob` called after it waits in `RLock` instead of returning
nil. -/
theorem ScheduleJob_PickJob_around_Stop (cfg : Config) :
    (∀ (before after : List SchedOp) (job : JobSpec),
      (Stop ((NewScheduler cfg).run before)).1 = .ok () →
      (Stop ((NewScheduler cfg).run before)).2.runsThrough after = true →
      (ScheduleJob ((Stop ((NewScheduler cfg).run before)).2.run after) job).1 = .ok none ∧
      (ScheduleJob ((Stop ((NewScheduler cfg).run before)).2.run after) job).2.jobsQue
        = ((Stop ((NewScheduler cfg).run before)).2.run after).jobsQue) ∧
    (∀ (before after : List SchedOp) (ctxDone : Bool) (workerID : WorkerID) (choice : Nat),
      (Stop ((NewScheduler cfg).run before)).1 = .ok () →
      ((Stop ((NewScheduler cfg).run before)).2.run after).jobsQue.buf = [] →
      (PickJob ((Stop ((NewScheduler cfg).run before)).2.run after) ctxDone workerID choice).1
        = .ok none) ∧
    (∀ (before : List SchedOp) (job : JobSpec),
      SchedOp.stop ∉ before →
      ((NewScheduler cfg).run before).jobsQue.buf.length < 100 →
      ∃ p : PendingJob,
        (ScheduleJob ((NewScheduler cfg).run before) job).1 = .ok (some p) ∧
        p.Job = job ∧ p.Result.ID = job.ID ∧
        (ScheduleJob ((NewScheduler cfg).run before) job).2.jobsQue.buf
          = ((NewScheduler cfg).run before).jobsQue.buf ++ [p]) ∧
    (∀ (before after : List SchedOp) (job job' : JobSpec),
      (Stop ((NewScheduler cfg).run before)).1 = .ok () →
      (Stop ((NewScheduler cfg).run before)).2.runsThrough after = true →
      (Stop (ScheduleJob ((Stop ((NewScheduler cfg).run before)).2.run after) job).2).1
        = .blocked ∧
      (ScheduleJob
        (Stop (ScheduleJob ((Stop ((NewScheduler cfg).run before)).2.run after) job).2).2
        job').1 = .blocked) := by
  have hopen : ∀ ops : List SchedOp, ((NewScheduler cfg).run ops).jobsQue.closed = false ∧
      ((NewScheduler cfg).run ops).jobsQue.cap = 100 := fun ops => by
    have := run_jobsQue ops (NewScheduler cfg)
    exact ⟨this.1.trans rfl, this.2.trans rfl⟩
  refine ⟨?_, ?_, ?_, ?_⟩
  · intro before after job hstop hthrough
    exact ScheduleJob_stopped _ job (run_stopped after _ hthrough (Stop_returns _ hstop))
  · intro before after ctxDone workerID choice hstop hbuf
    refine PickJob_stopped _ ctxDone workerID choice
      (run_stoppedCh after _ (Stop_returns _ hstop).2.1) ?_ hbuf
    rw [(run_jobsQue after _).1, (Stop_frame _).1]
    exact (hopen before).1
  · intro before job hnostop hroom
    have hrun := run_running before (NewScheduler cfg) hnostop ⟨rfl, rfl⟩
    have hstep := ScheduleJob_running ((NewScheduler cfg).run before) job hrun.1 hrun.2
      (hopen before).1 (by rw [(hopen before).2]; exact hroom)
    exact ⟨_, by rw [hstep], rfl, rfl, by rw [hstep]⟩
  · intro before after job job' hstop hthrough
    obtain ⟨h1, _, h3⟩ := run_stopped after _ hthrough (Stop_returns _ hstop)
    have h := ScheduleJob_then_Stop _ job job' h3 h1
    exact ⟨h.1, h.2.2⟩

/-- C4 on a new scheduler: after a job was scheduled, `Stop` returned and the
job was picked, `ScheduleJob` returns nil; and after a second `Stop`, which
waits, a further `ScheduleJob` waits as well. -/
theorem ScheduleJob_PickJob_around_Stop_witness :
    (ScheduleJob
      ((Stop ((NewScheduler defaultConfig).run
        [.scheduleJob { SourceFiles := [], Artifacts := [], Job := ⟨⟨"a"⟩, [], [], []⟩ }])).2.run
          [.pickJob false "w1" 0])
      { SourceFiles := [], Artifacts := [], Job := ⟨⟨"b"⟩, [], [], []⟩ }).1 = .ok none ∧
    (ScheduleJob
      (Stop (ScheduleJob
        ((Stop ((NewScheduler defaultConfig).run
          [.scheduleJob { SourceFiles := [], Artifacts := [], Job := ⟨⟨"a"⟩, [], [], []⟩ }])).2.run
            [.pickJob false "w1" 0])
        { SourceFiles := [], Artifacts := [], Job := ⟨⟨"b"⟩, [], [], []⟩ }).2).2
      { SourceFiles := [], Artifacts := [], Job := ⟨⟨"c"⟩, [], [], []⟩ }).1 = .blocked :=
  ⟨((ScheduleJob_PickJob_around_Stop defaultConfig).1
      [.scheduleJob { SourceFiles := [], Artifacts := [], Job := ⟨⟨"a"⟩, [], [], []⟩ }]
      [.pickJob false "w1" 0]
      { SourceFiles := [], Artifacts := [], Job := ⟨⟨"b"⟩, [], [], []⟩ }
      (by decide) (by decide)).1,
    ((ScheduleJob_PickJob_around_Stop defaultConfig).2.2.2
      [.scheduleJob { SourceFiles := [], Artifacts := [], Job := ⟨⟨"a"⟩, [], [], []⟩ }]
      [.pickJob false "w1" 0]
      { SourceFiles := [], Artifacts := [], Job := ⟨⟨"b"⟩, [], [], []⟩ }
      { SourceFiles := [], Artifacts := [], Job := ⟨⟨"c"⟩, [], [], []⟩ }
      (by decide) (by decide)).2⟩

/-- C5: the queue is FIFO and ignores the worker. On a scheduler that is not
stopped, after `ScheduleJob` calls that fit into the queue (at most 100 on a
new scheduler), each call returns its `PendingJob`, and the following
`PickJob` calls with a live context return the jobs that were in the queue
followed by those `PendingJob`s, in the order they were scheduled, whatever
worker id and `select` choice each call is given. -/
theorem jobs_queue_fifo (c : Scheduler) (jobs : List JobSpec) (picks : List (WorkerID × Nat))
    (hs : c.stopped = false) (hw : c.stoppedMu.writer = false) (hq : c.jobsQue.closed = false)
    (hch : c.stoppedCh.closed = false)
    (hroom : c.jobsQue.buf.length + jobs.length ≤ c.jobsQue.cap)
    (hlen : picks.length ≤ c.jobsQue.buf.length + jobs.length) :
    ∃ handles : List PendingJob,
      (scheduleAll c jobs).1 = handles.map (fun p => Exec.ok (some p)) ∧
      handles.map (fun p => p.Job) = jobs ∧
      handles.map (fun p => p.Finished) = List.range' c.nextChan jobs.length ∧
      (pickAll (scheduleAll c jobs).2 picks).1
        = ((c.jobsQue.buf ++ handles).take picks.length).map (fun p => Exec.ok (some p)) := by
  obtain ⟨handles, h1, h2, h3, _, h5, h6, h7⟩ := scheduleAll_running jobs c hs hw hq hroom
  refine ⟨handles, h1, h2, h3, ?_⟩
  have hl : handles.length = jobs.length := by rw [← h2, List.length_map]
  rw [pickAll_running picks _ h6 (by rw [h7]; exact hch)
    (by rw [h5, List.length_append, hl]; exact hlen), h5]

theorem jobs_queue_fifo_witness :
    ∃ handles : List PendingJob,
      (scheduleAll (NewScheduler defaultConfig)
        [{ SourceFiles := [], Artifacts := [], Job := ⟨⟨"a"⟩, [], [], []⟩ },
         { SourceFiles := [], Artifacts := [], Job := ⟨⟨"b"⟩, [], [], []⟩ }]).1
        = handles.map (fun p => Exec.ok (some p)) ∧
      handles.map (fun p => p.Job)
        = [{ SourceFiles := [], Artifacts := [], Job := ⟨⟨"a"⟩, [], [], []⟩ },
           { SourceFiles := [], Artifacts := [], Job := ⟨⟨"b"⟩, [], [], []⟩ }] ∧
      handles.map (fun p => p.Finished) = List.range' 0 2 ∧
      (pickAll (scheduleAll (NewScheduler defaultConfig)
        [{ SourceFiles := [], Artifacts := [], Job := ⟨⟨"a"⟩, [], [], []⟩ },
         { SourceFiles := [], Artifacts := [], Job := ⟨⟨"b"⟩, [], [], []⟩ }]).2
        [("w2", 5), ("w1", 0)]).1
        = (([] ++ handles).take 2).map (fun p => Exec.ok (some p)) :=
  jobs_queue_fifo (NewScheduler defaultConfig) _ [("w2", 5), ("w1", 0)] rfl rfl rfl rfl
    (by decide) (by decide)

/-! ## Later states of the scheduler -/

theorem Later_trans {s1 s2 s3 : Scheduler} (h12 : s1.Later s2) (h23 : s2.Later s3) :
    s1.Later s3 := by
  induction h23 with
  | refl => exact h12
  | call op _ ih => exact .call op ih
  | enter job _ ih => exact .enter job ih
  | push p _ ih => exact .push p ih

theorem Later_run (ops : List SchedOp) (s : Scheduler) : s.Later (s.run ops) := by
  induction ops using List.reverseRecOn with
  | nil => exact .refl s
  | append_singleton ops op ih =>
    have : s.run (ops ++ [op]) = op.apply (s.run ops) := by
      simp [Scheduler.run, List.foldl_append]
    rw [this]
    exact .call op ih

theorem Later_next (s : Scheduler) (env : Env) : s.Later (Env.next s env).1 := by
  cases env with
  | nil => exact .refl s
  | cons ops env => exact Later_run ops s

theorem Later_found {s s' : Scheduler} (h : s.Later s') (id : ID)
    (hf : (LocateArtifact s id).2 = true) : (LocateArtifact s' id).2 = true := by
  induction h with
  | refl => exact hf
  | call op _ ih => exact SchedOp_apply_found _ op id ih
  | enter job _ ih =>
    rw [LocateArtifact_found_iff] at ih ⊢
    rw [ScheduleJob_enter_locations]; exact ih
  | push p _ ih =>
    rw [LocateArtifact_found_iff] at ih ⊢
    rw [ScheduleJob_push_locations]; exact ih

/-! ## `SignalBuild`: locating the dependencies -/

theorem locate_spec (dep : ID) (env : Env) (s : Scheduler) :
    s.Later (SignalBuild.locate dep s env).2.1 ∧
    ∀ wID, (SignalBuild.locate dep s env).1 = some wID →
      LocateArtifact (SignalBuild.locate dep s env).2.1 dep = (wID, true) := by
  induction env generalizing s with
  | nil =>
    unfold SignalBuild.locate
    rcases h : LocateArtifact s dep with ⟨w, _ | _⟩
    · simp [Scheduler.Later.refl]
    · simp only [Option.some.injEq]
      exact ⟨.refl s, fun wID e => by rw [h, e]⟩
  | cons ops env ih =>
    unfold SignalBuild.locate
    rcases h : LocateArtifact (s.run ops) dep with ⟨w, _ | _⟩
    · simp only
      exact ⟨Later_trans (Later_run ops s) (ih (s.run ops)).1, (ih (s.run ops)).2⟩
    · simp only [Option.some.injEq]
      exact ⟨Later_run ops s, fun wID e => by rw [h, e]⟩

theorem locateDeps_spec (deps : List ID) (arts : GoMap ID WorkerID) (s : Scheduler) (env : Env) :
    s.Later (SignalBuild.locateDeps deps arts s env).2.1 ∧
    ∀ arts', (SignalBuild.locateDeps deps arts s env).1 = some arts' →
      (∀ k, k ∉ deps → GoMap.load arts' k = GoMap.load arts k) ∧
      (∀ dep ∈ deps, ∃ wID mid, GoMap.load arts' dep = some wID ∧ s.Later mid ∧
        mid.Later (SignalBuild.locateDeps deps arts s env).2.1 ∧
        LocateArtifact mid dep = (wID, true)) := by
  induction deps generalizing arts s env with
  | nil =>
    simp only [SignalBuild.locateDeps, Option.some.injEq, List.not_mem_nil, not_false_eq_true,
      forall_const, false_implies, implies_true, and_true]
    exact ⟨.refl s, fun arts' e k => by rw [e]⟩
  | cons dep deps ih =>
    unfold SignalBuild.locateDeps
    have hl := locate_spec dep env s
    rcases h : SignalBuild.locate dep s env with ⟨_ | wID, s1, env1⟩
    · rw [h] at hl
      simp only at hl ⊢
      exact ⟨hl.1, fun arts' e => by cases e⟩
    · rw [h] at hl
      simp only at hl ⊢
      have hloc := hl.2 wID rfl
      obtain ⟨ih1, ih2⟩ := ih (GoMap.store arts dep wID) s1 env1
      refine ⟨Later_trans hl.1 ih1, fun arts' e => ?_⟩
      obtain ⟨hk, hd⟩ := ih2 arts' e
      refine ⟨fun k hkn => ?_, fun d hdm => ?_⟩
      · simp only [List.mem_cons, not_or] at hkn
        rw [hk k hkn.2, GoMap.load_store_ne _ _ _ _ hkn.1]
      · by_cases hin : d ∈ deps
        · obtain ⟨w, mid, h1, h2, h3, h4⟩ := hd d hin
          exact ⟨w, mid, h1, Later_trans hl.1 h2, h3, h4⟩
        · have hdd : d = dep := by
            rcases List.mem_cons.mp hdm with e | e
            · exact e
            · exact absurd e hin
          subst hdd
          refine ⟨wID, s1, ?_, hl.1, ih1, hloc⟩
          rw [hk d hin, GoMap.load_store_self]

/-! ## `SignalBuild`: the hand-off to `ScheduleJob` -/

theorem push_later (p : PendingJob) (env : Env) (s : Scheduler) :
    s.Later (SignalBuild.push p s env).2.1 := by
  induction env generalizing s with
  | nil =>
    unfold SignalBuild.push
    have := Scheduler.Later.push p (.refl s)
    rcases h : ScheduleJob.push s p with ⟨_ | _ | _, s1⟩ <;> rw [h] at this <;> exact this
  | cons ops env ih =>
    unfold SignalBuild.push
    have := Scheduler.Later.push p (.refl s)
    rcases h : ScheduleJob.push s p with ⟨_ | _ | _, s1⟩
    · rw [h] at this; exact this
    · exact Later_trans (Later_run ops s) (ih (s.run ops))
    · rw [h] at this; exact this

/-- What holds of a call `ScheduleJob(spec)` made by `SignalBuild` that started
with the scheduler in state `s`, the scheduler being in state `h.2` at the
call. -/
theorem handoff_head (job : Job) (s : Scheduler) (env : Env)
    (arts : GoMap ID WorkerID) (s1 : Scheduler) (env1 : Env)
    (h : SignalBuild.locateDeps job.Deps [] s env = (some arts, s1, env1)) :
    s.Later (Env.next s1 env1).1 ∧
    (∀ k, k ∉ job.Deps → GoMap.load arts k = none) ∧
    (∀ dep ∈ job.Deps, ∃ wID mid, GoMap.load arts dep = some wID ∧ s.Later mid ∧
      mid.Later (Env.next s1 env1).1 ∧ LocateArtifact mid dep = (wID, true)) := by
  have hs := locateDeps_spec job.Deps [] s env
  rw [h] at hs
  obtain ⟨hl, hrest⟩ := hs
  obtain ⟨hk, hd⟩ := hrest arts rfl
  refine ⟨Later_trans hl (Later_next s1 env1), fun k hkn => by rw [hk k hkn]; rfl, ?_⟩
  intro dep hdep
  obtain ⟨w, mid, h1, h2, h3, h4⟩ := hd dep hdep
  exact ⟨w, mid, h1, h2, Later_trans h3 (Later_next s1 env1), h4⟩

theorem jobs_spec (data : buildData) (js : List Job) (s : Scheduler) (env : Env)
    (handed0 : List (JobSpec × Scheduler)) :
    ∃ new : List (JobSpec × Scheduler),
      (SignalBuild.jobs data js s env handed0).2.2 = handed0 ++ new ∧
      new.map (fun h => h.1.Job) <+: js ∧
      ((SignalBuild.jobs data js s env handed0).1 = .ok () → new.map (fun h => h.1.Job) = js) ∧
      ∀ h ∈ new, s.Later h.2 ∧ h.1.SourceFiles = SignalBuild.sourceFiles data h.1.Job ∧
        (∀ k, k ∉ h.1.Job.Deps → GoMap.load h.1.Artifacts k = none) ∧
        (∀ dep ∈ h.1.Job.Deps, ∃ wID mid, GoMap.load h.1.Artifacts dep = some wID ∧ s.Later mid ∧
          mid.Later h.2 ∧ LocateArtifact mid dep = (wID, true)) := by
  induction js generalizing s env handed0 with
  | nil => exact ⟨[], by simp [SignalBuild.jobs]⟩
  | cons job rest ih =>
    unfold SignalBuild.jobs
    simp only
    rcases hld : SignalBuild.locateDeps job.Deps [] s env with ⟨_ | arts, s1, env1⟩
    · exact ⟨[], by simp⟩
    · obtain ⟨hA, hB, hC⟩ := handoff_head job s env arts s1 env1 hld
      simp only
      set spec : JobSpec :=
        { Job := job, SourceFiles := SignalBuild.sourceFiles data job, Artifacts := arts }
        with hspec
      -- the hand-off made in this iteration
      have hhead : ∀ h, h = (spec, (Env.next s1 env1).1) →
          s.Later h.2 ∧ h.1.SourceFiles = SignalBuild.sourceFiles data h.1.Job ∧
          (∀ k, k ∉ h.1.Job.Deps → GoMap.load h.1.Artifacts k = none) ∧
          (∀ dep ∈ h.1.Job.Deps, ∃ wID mid, GoMap.load h.1.Artifacts dep = some wID ∧
            s.Later mid ∧ mid.Later h.2 ∧ LocateArtifact mid dep = (wID, true)) := by
        intro h hh
        subst hh
        exact ⟨hA, rfl, hB, hC⟩
      -- the hand-offs of the later iterations, which start in a later state
      have htail : ∀ (s' : Scheduler) (env' : Env), s.Later s' →
          ∃ new : List (JobSpec × Scheduler),
            (SignalBuild.jobs data rest s' env'
              (handed0 ++ [(spec, (Env.next s1 env1).1)])).2.2 = handed0 ++ new ∧
            new.map (fun h => h.1.Job) <+: job :: rest ∧
            ((SignalBuild.jobs data rest s' env'
              (handed0 ++ [(spec, (Env.next s1 env1).1)])).1 = .ok () →
              new.map (fun h => h.1.Job) = job :: rest) ∧
            ∀ h ∈ new, s.Later h.2 ∧ h.1.SourceFiles = SignalBuild.sourceFiles data h.1.Job ∧
              (∀ k, k ∉ h.1.Job.Deps → GoMap.load h.1.Artifacts k = none) ∧
              (∀ dep ∈ h.1.Job.Deps, ∃ wID mid, GoMap.load h.1.Artifacts dep = some wID ∧
                s.Later mid ∧ mid.Later h.2 ∧ LocateArtifact mid dep = (wID, true)) := by
        intro s' env' hlater
        obtain ⟨new', e1, e2, e3, e4⟩ := ih s' env' (handed0 ++ [(spec, (Env.next s1 env1).1)])
        refine ⟨(spec, (Env.next s1 env1).1) :: new', by rw [e1, List.append_assoc]; rfl,
          ?_, ?_, ?_⟩
        · simpa only [List.map_cons, List.prefix_cons_inj] using e2
        · intro hok
          simp only [List.map_cons, e3 hok]
        · intro h hh
          rcases List.mem_cons.mp hh with e | hh
          · exact hhead h e
          · obtain ⟨p1, p2, p3, p4⟩ := e4 h hh
            refine ⟨Later_trans hlater p1, p2, p3, fun dep hdep => ?_⟩
            obtain ⟨w, mid, q1, q2, q3, q4⟩ := p4 dep hdep
            exact ⟨w, mid, q1, Later_trans hlater q2, q3, q4⟩
      -- a run that stops at this hand-off
      have hstop : ∃ new : List (JobSpec × Scheduler),
          handed0 ++ [(spec, (Env.next s1 env1).1)] = handed0 ++ new ∧
          new.map (fun h => h.1.Job) <+: job :: rest ∧
          ∀ h ∈ new, s.Later h.2 ∧ h.1.SourceFiles = SignalBuild.sourceFiles data h.1.Job ∧
            (∀ k, k ∉ h.1.Job.Deps → GoMap.load h.1.Artifacts k = none) ∧
            (∀ dep ∈ h.1.Job.Deps, ∃ wID mid, GoMap.load h.1.Artifacts dep = some wID ∧
              s.Later mid ∧ mid.Later h.2 ∧ LocateArtifact mid dep = (wID, true)) :=
        ⟨[(spec, (Env.next s1 env1).1)], rfl, by simp [hspec, List.prefix_cons_inj],
          fun h hh => hhead h (List.mem_singleton.mp hh)⟩
      have henter := Scheduler.Later.enter spec hA
      rcases he : ScheduleJob.enter (Env.next s1 env1).1 spec with ⟨(_ | p) | _ | _, s3⟩
      · rw [he] at henter
        exact htail s3 _ henter
      · rw [he] at henter
        simp only at henter ⊢
        have hpush := push_later p (Env.next s1 env1).2 s3
        rcases hp : SignalBuild.push p s3 (Env.next s1 env1).2 with ⟨_ | _ | _, s4, env3⟩
        · rw [hp] at hpush
          exact htail s4 env3 (Later_trans henter hpush)
        · obtain ⟨new, e1, e2, e3⟩ := hstop
          exact ⟨new, e1, e2, fun hok => by simp at hok, e3⟩
        · obtain ⟨new, e1, e2, e3⟩ := hstop
          exact ⟨new, e1, e2, fun hok => by simp at hok, e3⟩
      · obtain ⟨new, e1, e2, e3⟩ := hstop
        exact ⟨new, e1, e2, fun hok => by simp at hok, e3⟩
      · obtain ⟨new, e1, e2, e3⟩ := hstop
        exact ⟨new, e1, e2, fun hok => by simp at hok, e3⟩

/-! ## Claims on `SignalBuild` -/

/-- C9: topological release. Every `JobSpec` that `SignalBuild(UploadDone)`
hands to `ScheduleJob` has exactly the deps of its job as keys of `Artifacts`;
each dep is located at the moment of the hand-off, and is mapped to the worker
that `LocateArtifact` returned for it in an earlier state of the scheduler
(`mid`, reached after `SignalBuild` started and before the hand-off). The jobs
are handed over in the order of `data.jobs`, the topologically sorted list of
the build: the jobs handed over are a prefix of it, and all of it when
`SignalBuild` returns. -/
theorem SignalBuild_topological_release (c : Coordinator) (buildID : ID) (req : SignalRequest)
    (env : Env) (p : Nat) (data : buildData) (hb : GoMap.load c.builds buildID = some p)
    (hd : c.heap[p]? = some data) (hreq : req.UploadDone.isSome = true) :
    (SignalBuild c buildID req env).handed.map (fun h => h.1.Job) <+: data.jobs ∧
    ((SignalBuild c buildID req env).res = .ok {} →
      (SignalBuild c buildID req env).handed.map (fun h => h.1.Job) = data.jobs) ∧
    ∀ h ∈ (SignalBuild c buildID req env).handed,
      (∀ dep, (GoMap.load h.1.Artifacts dep).isSome = true ↔ dep ∈ h.1.Job.Deps) ∧
      ∀ dep ∈ h.1.Job.Deps, (LocateArtifact h.2 dep).2 = true ∧
        ∃ wID mid, GoMap.load h.1.Artifacts dep = some wID ∧ c.scheduler.Later mid ∧
          mid.Later h.2 ∧ LocateArtifact mid dep = (wID, true) := by
  obtain ⟨new, e1, e2, e3, e4⟩ := jobs_spec data data.jobs c.scheduler env []
  obtain ⟨u, hu⟩ := Option.isSome_iff_exists.mp hreq
  have hh : (SignalBuild c buildID req env).handed = new := by
    simp only [SignalBuild, hb, hd, hu]
    rcases hj : SignalBuild.jobs data data.jobs c.scheduler env [] with ⟨_ | _ | _, s, handed⟩ <;>
      rw [hj] at e1 <;> simpa using e1
  have hr : (SignalBuild c buildID req env).res = .ok {} →
      (SignalBuild.jobs data data.jobs c.scheduler env []).1 = .ok () := by
    simp only [SignalBuild, hb, hd, hu]
    rcases hj : SignalBuild.jobs data data.jobs c.scheduler env [] with ⟨_ | _ | _, s, handed⟩ <;>
      simp
  rw [hh]
  refine ⟨e2, fun hok => e3 (hr hok), fun h hmem => ?_⟩
  obtain ⟨_, _, p3, p4⟩ := e4 h hmem
  refine ⟨fun dep => ⟨fun hsome => ?_, fun hdep => ?_⟩, fun dep hdep => ?_⟩
  · by_contra hn
    rw [p3 dep hn] at hsome
    cases hsome
  · obtain ⟨w, _, q1, _⟩ := p4 dep hdep
    rw [q1]; rfl
  · obtain ⟨w, mid, q1, q2, q3, q4⟩ := p4 dep hdep
    exact ⟨Later_found q3 dep (by rw [q4]), w, mid, q1, q2, q3, q4⟩

/-- C9 at the example build: both jobs are handed over, in order, the second
with the artifact of the first located at worker `w1`. -/
theorem SignalBuild_topological_release_witness :
    (SignalBuild Example.started ⟨"B1"⟩ ⟨some {}⟩ Example.env).res = .ok {} ∧
    (SignalBuild Example.started ⟨"B1"⟩ ⟨some {}⟩ Example.env).handed.map (fun h => h.1.Job)
      = [Example.jobA, Example.jobB] ∧
    (SignalBuild Example.started ⟨"B1"⟩ ⟨some {}⟩ Example.env).handed.map (fun h => h.1.Artifacts)
      = [[], [(⟨"a"⟩, "w1")]] ∧
    ∀ h ∈ (SignalBuild Example.started ⟨"B1"⟩ ⟨some {}⟩ Example.env).handed,
      ∀ dep ∈ h.1.Job.Deps, (LocateArtifact h.2 dep).2 = true :=
  ⟨by decide, by decide, by decide, fun h hmem dep hdep =>
    (((SignalBuild_topological_release Example.started ⟨"B1"⟩ ⟨some {}⟩ Example.env 0
      { jobs := [Example.jobA, Example.jobB],
        stWriter := some { MyStatusWriter.new with
          startedWriting := true, w := [Frame.started ⟨⟨"B1"⟩, [⟨"f1"⟩]⟩] },
        jobsDoneCnt := 0, fileIDByName := [("x.txt", ⟨"f1"⟩)], buildID := ⟨"B1"⟩ }
      (by decide) (by decide) (by decide)).2.2 h hmem).2 dep hdep).1⟩

/-! ## Maps filled by a loop of assignments -/

/-- The entry of `k` after a loop of assignments `m[(g a).1] = (g a).2`: the
value of the last assignment to `k`, or the old entry when there is none. -/
theorem foldl_store_load {α κ ν : Type} [DecidableEq κ] (g : α → κ × ν) (l : List α)
    (m0 : GoMap κ ν) (k : κ) :
    (∃ b ∈ l, (g b).1 = k ∧
      GoMap.load (l.foldl (fun m a => GoMap.store m (g a).1 (g a).2) m0) k = some (g b).2) ∨
    ((∀ b ∈ l, (g b).1 ≠ k) ∧
      GoMap.load (l.foldl (fun m a => GoMap.store m (g a).1 (g a).2) m0) k = GoMap.load m0 k) := by
  induction l generalizing m0 with
  | nil => exact Or.inr ⟨by simp, rfl⟩
  | cons x l ih =>
    simp only [List.foldl_cons]
    rcases ih (GoMap.store m0 (g x).1 (g x).2) with ⟨b, hb, hk, hl⟩ | ⟨hn, hl⟩
    · exact Or.inl ⟨b, List.mem_cons_of_mem x hb, hk, hl⟩
    · by_cases hx : (g x).1 = k
      · refine Or.inl ⟨x, List.mem_cons_self x l, hx, ?_⟩
        rw [hl, ← hx, GoMap.load_store_self]
      · refine Or.inr ⟨fun b hb => ?_, ?_⟩
        · rcases List.mem_cons.mp hb with e | hb
          · rw [e]; exact hx
          · exact hn b hb
        · rw [hl, GoMap.load_store_ne _ _ _ _ (fun e => hx e.symm)]

/-- In a map with unique keys an entry of the list is what `load` finds. -/
theorem load_of_mem {κ ν : Type} [DecidableEq κ] (m : GoMap κ ν) (h : (GoMap.keys m).Nodup)
    (k : κ) (v : ν) (hm : (k, v) ∈ m) : GoMap.load m k = some v := by
  induction m with
  | nil => cases hm
  | cons e rest ih =>
    obtain ⟨a, b⟩ := e
    simp only [GoMap.keys, List.map_cons, List.nodup_cons, List.mem_map, not_exists, not_and] at h
    rcases List.mem_cons.mp hm with e | hm
    · cases e
      simp [GoMap.load]
    · have hne : a ≠ k := fun e => h.1 (k, v) hm (by rw [e])
      simp only [GoMap.load, hne, if_false]
      exact ih h.2 hm

theorem mem_of_load {κ ν : Type} [DecidableEq κ] (m : GoMap κ ν) (k : κ) (v : ν)
    (h : GoMap.load m k = some v) : (k, v) ∈ m := by
  induction m with
  | nil => cases h
  | cons e rest ih =>
    obtain ⟨a, b⟩ := e
    by_cases hak : a = k
    · simp only [GoMap.load, hak, if_true, Option.some.injEq] at h
      rw [hak, h]; exact List.mem_cons_self _ _
    · simp only [GoMap.load, hak, if_false] at h
      exact List.mem_cons_of_mem _ (ih h)

/-! ## `StartBuild`: the reverse index and the registered build -/

theorem probe_index (l : List (ID × String)) (m : GoMap String ID) (need : List ID)
    (files : Cache) :
    (StartBuild.probe l m need files).1
      = l.foldl (fun m e => GoMap.store m (Prod.swap e).1 (Prod.swap e).2) m := by
  induction l generalizing m need files with
  | nil => rfl
  | cons e l ih =>
    obtain ⟨fileID, fileName⟩ := e
    simp only [StartBuild.probe, List.foldl_cons, Prod.swap]
    cases files.Get fileID with
    | none => exact ih _ _ _
    | some r => exact ih _ _ _

/-- The reverse index maps a name of the request to an id that has this name
in the request, and has no other entries. -/
theorem probe_index_spec (sourceFiles : GoMap ID String) (files : Cache) (name : String) :
    (name ∈ GoMap.values sourceFiles →
      ∃ fid, GoMap.load (StartBuild.probe sourceFiles [] [] files).1 name = some fid) ∧
    (∀ fid, GoMap.load (StartBuild.probe sourceFiles [] [] files).1 name = some fid →
      (fid, name) ∈ sourceFiles) := by
  rw [probe_index]
  rcases foldl_store_load Prod.swap sourceFiles ([] : GoMap String ID) name with
    ⟨b, hb, hk, hl⟩ | ⟨hn, hl⟩
  · refine ⟨fun _ => ⟨_, hl⟩, fun fid hf => ?_⟩
    rw [hl] at hf
    obtain ⟨x, y⟩ := b
    simp only [Prod.swap, Option.some.injEq] at hk hf
    rw [← hk, ← hf]; exact hb
  · refine ⟨fun hv => ?_, fun fid hf => ?_⟩
    · simp only [GoMap.values, List.mem_map] at hv
      obtain ⟨b, hb, e⟩ := hv
      exact absurd e (hn b hb)
    · rw [hl] at hf; cases hf

/-- Every entry of the `source_files` of a job is `(id of the name, name)` for
an input of the job, the id being what the reverse index gives (the zero id
when the name is not in the index). -/
theorem sourceFiles_entries (data : buildData) (job : Job) (fid : ID) (name : String)
    (h : GoMap.load (SignalBuild.sourceFiles data job) fid = some name) :
    name ∈ job.Inputs ∧ fid = (GoMap.load data.fileIDByName name).getD ID.zero := by
  rcases foldl_store_load (fun sf => ((GoMap.load data.fileIDByName sf).getD ID.zero, sf))
    job.Inputs ([] : GoMap ID String) fid with ⟨b, hb, hk, hl⟩ | ⟨_, hl⟩
  · have e : some b = some name := hl.symm.trans h
    cases e
    exact ⟨hb, hk.symm⟩
  · have e : GoMap.load ([] : GoMap ID String) fid = some name := hl.symm.trans h
    cases e

/-- When distinct inputs of a job have distinct ids, every input is an entry of
the `source_files` of the job. -/
theorem sourceFiles_inputs (data : buildData) (job : Job)
    (hinj : ∀ a ∈ job.Inputs, ∀ b ∈ job.Inputs,
      (GoMap.load data.fileIDByName a).getD ID.zero = (GoMap.load data.fileIDByName b).getD ID.zero →
      a = b)
    (name : String) (hn : name ∈ job.Inputs) :
    GoMap.load (SignalBuild.sourceFiles data job)
      ((GoMap.load data.fileIDByName name).getD ID.zero) = some name := by
  rcases foldl_store_load (fun sf => ((GoMap.load data.fileIDByName sf).getD ID.zero, sf))
    job.Inputs ([] : GoMap ID String) ((GoMap.load data.fileIDByName name).getD ID.zero) with
    ⟨b, hb, hk, hl⟩ | ⟨hno, _⟩
  · have e : b = name := hinj b hb name hn hk
    rw [e] at hl
    exact hl
  · exact absurd rfl (hno name hn)

/-- The build that a call of `StartBuild` which returned nil has registered
under `id`: its record is at the end of the old heap, with the jobs sorted by
`TopSort`, the reverse index of the request and no job done. -/
theorem StartBuild_data (TopSort : List Job → List Job) (c : Coordinator) (id : ID)
    (req : BuildRequest) (w : Option MyStatusWriter)
    (h : (StartBuild TopSort c id req w).1 = .ok none) :
    ∃ data : buildData,
      GoMap.load (StartBuild TopSort c id req w).2.builds id = some c.heap.length ∧
      (StartBuild TopSort c id req w).2.heap[c.heap.length]? = some data ∧
      data.jobs = TopSort req.Graph.Jobs ∧
      data.fileIDByName = (StartBuild.probe req.Graph.SourceFiles [] [] c.files).1 ∧
      data.jobsDoneCnt = 0 := by
  revert h
  unfold StartBuild
  simp only
  rcases StartBuild.register c.heap.length req.Graph.Jobs c.buildByJob with ⟨_ | _ | _, m⟩
  · simp only
    cases w with
    | none => intro h; cases h
    | some sw =>
      simp only
      rcases hs : sw.Started { ID := id, MissingFiles :=
          (StartBuild.probe req.Graph.SourceFiles [] [] c.files).2.1 } with ⟨_ | err, sw1⟩
      · intro _
        refine ⟨buildData.mk (TopSort req.Graph.Jobs) (some sw1) 0
          (StartBuild.probe req.Graph.SourceFiles [] [] c.files).1 id,
          GoMap.load_store_self _ _ _, ?_, rfl, rfl, rfl⟩
        simp
      · intro h; simp at h
  · intro h; cases h
  · intro h; cases h

/-- C10 (as stated, refuted): a job whose input `x.txt` is not a source file of
the request is handed to `ScheduleJob` with `source_files = {zero id: x.txt}`,
an entry the request does not have. -/
theorem SignalBuild_source_files_counterexample :
    (StartBuild id (NewCoordinator { committed := [], inUse := [] }) ⟨"B1"⟩
      Example.requestNoFiles (some MyStatusWriter.new)).1 = .ok none ∧
    (SignalBuild
      (StartBuild id (NewCoordinator { committed := [], inUse := [] }) ⟨"B1"⟩
        Example.requestNoFiles (some MyStatusWriter.new)).2
      ⟨"B1"⟩ ⟨some {}⟩ []).handed.map (fun h => (h.1.Job, h.1.SourceFiles))
      = [(Example.jobA, [(ID.zero, "x.txt")])] ∧
    GoMap.load Example.requestNoFiles.Graph.SourceFiles ID.zero = none := by
  decide

/-- C10 (amended): for a build registered by `StartBuild` from a request (whose
`source_files` map has unique keys, as every Go map has), every `JobSpec` that
`SignalBuild` hands to `ScheduleJob` is that of a job of the sorted job list,
and when all declared inputs of the job are names in the request's
`source_files`, the `source_files` of the `JobSpec` is a subset of the
request's map and its names are exactly the declared inputs of the job. -/
theorem SignalBuild_source_files (TopSort : List Job → List Job) (c : Coordinator) (id : ID)
    (req : BuildRequest) (w : Option MyStatusWriter) (s : Scheduler) (sig : SignalRequest)
    (env : Env) (hkeys : (GoMap.keys req.Graph.SourceFiles).Nodup)
    (hstart : (StartBuild TopSort c id req w).1 = .ok none) :
    ∀ h ∈ (SignalBuild { (StartBuild TopSort c id req w).2 with scheduler := s }
        id sig env).handed,
      h.1.Job ∈ TopSort req.Graph.Jobs ∧
      ((∀ name ∈ h.1.Job.Inputs, name ∈ GoMap.values req.Graph.SourceFiles) →
        (∀ fid name, GoMap.load h.1.SourceFiles fid = some name →
          GoMap.load req.Graph.SourceFiles fid = some name) ∧
        (∀ name, (∃ fid, GoMap.load h.1.SourceFiles fid = some name) ↔ name ∈ h.1.Job.Inputs)) := by
  obtain ⟨data, hb, hd, hjobs, hidx, _⟩ := StartBuild_data TopSort c id req w hstart
  intro h hmem
  -- the hand-offs are those of the loop over the jobs of the registered build
  obtain ⟨new, e1, e2, _, e4⟩ := jobs_spec data data.jobs s env []
  have hnew : h ∈ new := by
    revert hmem
    simp only [SignalBuild, hb, hd]
    cases sig.UploadDone with
    | none => intro hmem; cases hmem
    | some u =>
      simp only
      rcases hj : SignalBuild.jobs data data.jobs s env [] with ⟨_ | _ | _, s', handed⟩ <;>
        rw [hj] at e1 <;> simp only [List.nil_append] at e1 <;> rw [← e1] <;> exact fun x => x
  obtain ⟨_, hsf, _, _⟩ := e4 h hnew
  have hjob : h.1.Job ∈ TopSort req.Graph.Jobs := by
    rw [← hjobs]
    exact e2.subset (List.mem_map.mpr ⟨h, hnew, rfl⟩)
  refine ⟨hjob, fun hin => ?_⟩
  -- every input has an id in the reverse index, with an entry in the request
  have hF : ∀ name ∈ h.1.Job.Inputs,
      GoMap.load req.Graph.SourceFiles ((GoMap.load data.fileIDByName name).getD ID.zero)
        = some name := by
    intro name hn
    obtain ⟨p1, p2⟩ := probe_index_spec req.Graph.SourceFiles c.files name
    obtain ⟨fid, hfid⟩ := p1 (hin name hn)
    rw [hidx, hfid]
    exact load_of_mem _ hkeys fid name (p2 fid hfid)
  rw [hsf]
  refine ⟨fun fid name hl => ?_, fun name => ⟨fun ⟨fid, hl⟩ => ?_, fun hn => ?_⟩⟩
  · obtain ⟨hn, hf⟩ := sourceFiles_entries data h.1.Job fid name hl
    rw [hf]; exact hF name hn
  · exact (sourceFiles_entries data h.1.Job fid name hl).1
  · refine ⟨_, sourceFiles_inputs data h.1.Job (fun a ha b hb' hab => ?_) name hn⟩
    have h1 := hF a ha
    rw [hab, hF b hb'] at h1
    exact (Option.some.inj h1).symm

/-- C10 at the example build: the first job is handed over with the one source
file it reads. -/
theorem SignalBuild_source_files_witness :
    (SignalBuild Example.started ⟨"B1"⟩ ⟨some {}⟩ Example.env).handed.map
        (fun h => h.1.SourceFiles) = [[(⟨"f1"⟩, "x.txt")], []] ∧
    ∀ h ∈ (SignalBuild Example.started ⟨"B1"⟩ ⟨some {}⟩ Example.env).handed,
      h.1.Job ∈ [Example.jobA, Example.jobB] :=
  ⟨by decide, fun h hmem =>
    (SignalBuild_source_files id (NewCoordinator { committed := [], inUse := [] }) ⟨"B1"⟩
      Example.request (some MyStatusWriter.new)
      (NewCoordinator { committed := [], inUse := [] }).scheduler ⟨some {}⟩ Example.env
      (by decide) (by decide) h hmem).1⟩

/-! ## The status writer -/

theorem Chan_send_sent {α : Type} (ch ch' : Chan α) (a : α) (h : ch.send a = .ok ch') :
    ch'.sent = ch.sent ++ [a] ∧ ch'.closed = ch.closed ∧ ch.closed = false := by
  revert h
  unfold Chan.send
  cases hc : ch.closed
  · by_cases hl : ch.buf.length < ch.cap
    · simp only [Bool.false_eq_true, if_false, hl, if_true, Exec.ok.injEq]
      intro e
      subst e
      simp [Chan.sent, hc]
    · simp [hl]
  · simp

theorem Chan_recv_sent {α : Type} (ch ch' : Chan α) (r : Option α) (h : ch.recv = .ok (r, ch')) :
    ch'.sent = ch.sent ∧ ch'.closed = ch.closed := by
  revert h
  unfold Chan.recv
  cases hb : ch.buf with
  | nil =>
    cases hc : ch.closed
    · simp
    · simp only [if_true, Exec.ok.injEq, Prod.mk.injEq, and_imp]
      intro _ e
      subst e
      exact ⟨rfl, hc⟩
  | cons a rest =>
    simp only [Exec.ok.injEq, Prod.mk.injEq, and_imp]
    intro _ e
    subst e
    simp [Chan.sent, hb]

/-- What `Updated` does to a writer that is not closed, when it returns. -/
theorem Updated_open (w : MyStatusWriter) (u : StatusUpdate) (e : GoError)
    (hc : w.closed = false) (hcc : w.upds.closed = false) (h : (w.Updated u).1 = .ok e) :
    (w.Updated u).2.upds.sent = w.upds.sent ++ [u] ∧
    (w.Updated u).2.buildFinished = (w.buildFinished || u.isTerminal) ∧
    (w.Updated u).2.closed = (w.buildStarted && (w.buildFinished || u.isTerminal)) ∧
    (w.Updated u).2.upds.closed = (w.Updated u).2.closed := by
  revert h
  unfold MyStatusWriter.Updated
  simp only [hc, Bool.false_eq_true, if_false]
  rcases hs : w.upds.send u with ch | _ | _
  · obtain ⟨h1, h2, _⟩ := Chan_send_sent _ _ _ hs
    have h1' : ch.taken ++ ch.buf = w.upds.taken ++ (w.upds.buf ++ [u]) := by
      simpa [Chan.sent] using h1
    simp only [StatusUpdate.isTerminal]
    cases hterm : (u.BuildFailed.isSome || u.BuildFinished.isSome) <;>
      cases hbs : w.buildStarted <;> cases hbf : w.buildFinished <;>
      simp [Chan.close, h1', h2, hcc, hc, hbs, hbf, Chan.sent]
  · simp
  · simp

theorem sendStatus_ok (w w1 : MyStatusWriter) (u : StatusUpdate)
    (h : sendStatus w u = (.ok (), w1)) : ∃ e, w.Updated u = (.ok e, w1) := by
  revert h
  unfold sendStatus
  rcases hU : w.Updated u with ⟨e | _ | _, w'⟩
  · intro hh
    simp only [Prod.mk.injEq, true_and] at hh
    subst hh
    exact ⟨e, rfl⟩
  · simp
  · simp

theorem sendStatus_open (w w1 : MyStatusWriter) (u : StatusUpdate) (hc : w.closed = false)
    (hcc : w.upds.closed = false) (h : sendStatus w u = (.ok (), w1)) :
    w1.upds.sent = w.upds.sent ++ [u] ∧
    w1.buildFinished = (w.buildFinished || u.isTerminal) ∧
    w1.closed = (w.buildStarted && (w.buildFinished || u.isTerminal)) ∧
    w1.upds.closed = w1.closed := by
  obtain ⟨e, hU⟩ := sendStatus_ok w w1 u h
  have := Updated_open w u e hc hcc (by rw [hU])
  rw [hU] at this
  exact this

/-- The part of `processFinishedJob` under the mutex, on a build whose writer
agrees with its counter and that still has a job to count: one `JobFinished`
is sent, the counter goes up by one, and `BuildFinished` follows when the
counter has reached the number of jobs. -/
theorem account_spec (data data1 : buildData) (jobRes : JobResult) (hinv : WriterInv data)
    (hlt : data.jobsDoneCnt < data.jobs.length)
    (h : processFinishedJob.account data jobRes = (.ok (), data1)) :
    WriterInv data1 ∧ data1.jobs = data.jobs ∧ data1.jobsDoneCnt = data.jobsDoneCnt + 1 ∧
    data1.fileIDByName = data.fileIDByName ∧ data1.buildID = data.buildID ∧
    data1.updates = data.updates ++ ({ JobFinished := some jobRes } : StatusUpdate) ::
      (if data.jobsDoneCnt + 1 = data.jobs.length
        then [({ BuildFinished := some {} } : StatusUpdate)] else []) := by
  obtain ⟨w, rs, hw, hrs, hsent, hbf, hcl, hcc⟩ := hinv
  have hnd : ¬ data.finishDue := fun hd => by
    have := hd.2
    omega
  have hbf0 : w.buildFinished = false := by
    cases hb : w.buildFinished
    · rfl
    · exact absurd (hbf.mp hb) hnd
  have hc0 : w.closed = false := by
    cases hb : w.closed
    · rfl
    · have := hcl hb
      rw [hbf0] at this; cases this
  have hcc0 : w.upds.closed = false := by rw [hcc, hc0]
  rw [if_neg hnd, List.append_nil] at hsent
  revert h
  unfold processFinishedJob.account
  simp only [hw]
  rcases hS : sendStatus w { JobFinished := some jobRes } with ⟨_ | _ | _, w1⟩
  · obtain ⟨s1, b1, c1, cc1⟩ := sendStatus_open w w1 _ hc0 hcc0 hS
    have hterm1 : ({ JobFinished := some jobRes } : StatusUpdate).isTerminal = false := rfl
    rw [hbf0, hterm1] at b1 c1
    simp only [Bool.or_false, Bool.and_false] at b1 c1
    simp only
    by_cases hlast : data.jobsDoneCnt + 1 = data.jobs.length
    · simp only [if_pos hlast]
      rcases hS2 : sendStatus w1 { BuildFinished := some {} } with ⟨_ | _ | _, w2⟩
      · obtain ⟨s2, b2, c2, cc2⟩ := sendStatus_open w1 w2 _ c1 (by rw [cc1, c1]) hS2
        have hterm2 : ({ BuildFinished := some {} } : StatusUpdate).isTerminal = true := rfl
        rw [hterm2] at b2 c2
        simp only [Bool.or_true, Bool.and_true] at b2 c2
        simp only [Prod.mk.injEq, true_and]
        intro e
        subst e
        have hdone : buildData.finishDue
            { data with stWriter := some w2, jobsDoneCnt := data.jobsDoneCnt + 1 } :=
          ⟨Nat.succ_pos _, hlast⟩
        refine ⟨⟨w2, rs ++ [jobRes], rfl, by simp [hrs], ?_, ?_, ?_, cc2⟩, rfl, rfl, rfl, rfl, ?_⟩
        · rw [if_pos hdone, s2, s1, hsent]
          simp
        · exact ⟨fun _ => hdone, fun _ => b2⟩
        · intro _; exact b2
        · simp only [buildData.updates, hw, s2, s1]
          simp
      · simp
      · simp
    · simp only [if_neg hlast, Prod.mk.injEq, true_and]
      intro e
      subst e
      have hnd1 : ¬ buildData.finishDue
          { data with stWriter := some w1, jobsDoneCnt := data.jobsDoneCnt + 1 } :=
        fun hd => hlast hd.2
      refine ⟨⟨w1, rs ++ [jobRes], rfl, by simp [hrs], ?_, ?_, ?_, cc1⟩, rfl, rfl, rfl, rfl, ?_⟩
      · rw [if_neg hnd1, s1, hsent]
        simp
      · exact ⟨fun hb => (by rw [b1] at hb; cases hb), fun hd => absurd hd hnd1⟩
      · intro hb; rw [c1] at hb; cases hb
      · simp only [buildData.updates, hw, s1]
  · simp
  · simp

/-! ## Counting jobs -/

theorem length_lt_of_count_lt (l1 l2 : List ID) (hle : ∀ x, l1.count x ≤ l2.count x) (x0 : ID)
    (hlt : l1.count x0 < l2.count x0) : l1.length < l2.length := by
  have hsub : l1.Subperm l2 := List.subperm_ext_iff.mpr (fun x _ => hle x)
  rcases Nat.lt_or_ge l1.length l2.length with h | h
  · exact h
  · have hperm := hsub.perm_of_length_le h
    have := hperm.count_eq x0
    omega

theorem delivered_of_sent (data : buildData) (w : MyStatusWriter) (rs : List JobResult)
    (tail : List StatusUpdate) (hw : data.stWriter = some w)
    (hsent : w.upds.sent = rs.map (fun r => ({ JobFinished := some r } : StatusUpdate)) ++ tail)
    (htail : ∀ u ∈ tail, u.JobFinished = none) :
    data.delivered = rs.map (fun r => r.ID) := by
  have h2 : tail.filterMap (fun u => u.JobFinished.map (fun r => r.ID)) = [] := by
    rw [List.filterMap_eq_nil_iff]
    intro u hu
    rw [htail u hu]; rfl
  have h1 : ∀ l : List JobResult,
      (l.map (fun r => ({ JobFinished := some r } : StatusUpdate))).filterMap
        (fun u => u.JobFinished.map (fun r => r.ID)) = l.map (fun r => r.ID) := by
    intro l
    induction l with
    | nil => rfl
    | cons r l ih => simp [ih]
  simp only [buildData.delivered, buildData.updates, hw, hsent, List.filterMap_append, h2,
    List.append_nil, h1]

theorem WriterInv_delivered (data : buildData) (h : WriterInv data) :
    data.delivered.length = data.jobsDoneCnt := by
  obtain ⟨w, rs, hw, hrs, hsent, _, _, _⟩ := h
  rw [delivered_of_sent data w rs _ hw hsent, List.length_map, hrs]
  intro u hu
  split at hu
  · rw [List.mem_singleton] at hu
    rw [hu]
  · cases hu

/-! ## `processFinishedJob` -/

/-- The shape of a call of `processFinishedJob` that returns: the location is
published, the oldest pointer `p` is received from the channel of the job id,
and the build at `p` is updated under its mutex. -/
theorem processFinishedJob_ok (c c' : Coordinator) (jobRes : JobResult) (workerID : WorkerID)
    (h : processFinishedJob c jobRes workerID = (.ok (), c')) :
    ∃ (ch : Chan Nat) (p : Nat) (rest : List Nat) (data data1 : buildData),
      GoMap.load c.buildByJob jobRes.ID = some ch ∧ ch.buf = p :: rest ∧
      c.heap[p]? = some data ∧ processFinishedJob.account data jobRes = (.ok (), data1) ∧
      c' = { c with
        scheduler := (OnJobComplete c.scheduler workerID jobRes.ID jobRes).2
        buildByJob := GoMap.store c.buildByJob jobRes.ID
          { ch with buf := rest, taken := ch.taken ++ [p] }
        heap := c.heap.set p data1 } := by
  revert h
  unfold processFinishedJob
  simp only
  cases hl : GoMap.load c.buildByJob jobRes.ID with
  | none => simp
  | some ch =>
    simp only [Chan.recv]
    cases hb : ch.buf with
    | nil => cases hc : ch.closed <;> simp
    | cons p rest =>
      simp only
      cases hh : c.heap[p]? with
      | none => simp
      | some data =>
        simp only
        rcases ha : processFinishedJob.account data jobRes with ⟨_ | _ | _, data1⟩
        · simp only [Prod.mk.injEq, true_and]
          intro e
          exact ⟨ch, p, rest, data, data1, rfl, hb, hh, ha, e.symm⟩
        · simp
        · simp

theorem pending_store (c c2 : Coordinator) (k : ID) (ch : Chan Nat) (q : Nat) (id : ID)
    (h : c2.buildByJob = GoMap.store c.buildByJob k ch) :
    c2.pending q id = if id = k then ch.buf.count q else c.pending q id := by
  simp only [Coordinator.pending, h, GoMap.load_store]
  by_cases h : id = k <;> simp [h]

/-- A call of `processFinishedJob` that returns keeps the invariant of the
coordinator. -/
theorem processFinishedJob_inv (c c' : Coordinator) (jobRes : JobResult) (workerID : WorkerID)
    (hinv : CoordInv c) (h : processFinishedJob c jobRes workerID = (.ok (), c')) :
    CoordInv c' := by
  obtain ⟨ch, p, rest, data, data1, hl, hb, hh, ha, hc'⟩ :=
    processFinishedJob_ok c c' jobRes workerID h
  obtain ⟨hG1, hG2⟩ := hinv
  obtain ⟨hW, hT⟩ := hG2 p data hh
  -- the build still has a job to count, because one of its pointers was waiting
  have hpend : c.pending p jobRes.ID = rest.count p + 1 := by
    simp [Coordinator.pending, hl, hb]
  have hlt : data.jobsDoneCnt < data.jobs.length := by
    rw [← WriterInv_delivered data hW, ← List.length_map data.jobs (fun j => j.ID)]
    refine length_lt_of_count_lt _ _ (fun x => ?_) jobRes.ID ?_
    · have := hT x; omega
    · have := hT jobRes.ID; omega
  obtain ⟨hW1, hj1, _, _, _, hu1⟩ := account_spec data data1 jobRes hW hlt ha
  have hdel : data1.delivered = data.delivered ++ [jobRes.ID] := by
    by_cases hlast : data.jobsDoneCnt + 1 = data.jobs.length <;>
      simp [buildData.delivered, hu1, hlast, List.filterMap_append]
  have hpd : ∀ q id, c'.pending q id
      = if id = jobRes.ID then rest.count q else c.pending q id := fun q id =>
    pending_store c c' jobRes.ID { ch with buf := rest, taken := ch.taken ++ [p] } q id
      (by rw [hc'])
  subst hc'
  refine ⟨fun id x hx q hq => ?_, fun p' data' hp' => ?_⟩
  · simp only [List.length_set]
    simp only [GoMap.load_store] at hx
    split at hx
    · cases hx
      exact hG1 jobRes.ID ch hl q (by rw [hb]; exact List.mem_cons_of_mem _ hq)
    · exact hG1 id x hx q hq
  · simp only [List.getElem?_set] at hp'
    simp only [hpd]
    by_cases hpp : p = p'
    · subst hpp
      have hplt : p < c.heap.length := by
        rcases Nat.lt_or_ge p c.heap.length with h' | h'
        · exact h'
        · rw [List.getElem?_eq_none h'] at hh; cases hh
      simp only [if_true, hplt, Option.some.injEq] at hp'
      subst hp'
      refine ⟨hW1, fun id => ?_⟩
      rw [hdel, List.count_append, hj1]
      have := hT id
      by_cases hid : id = jobRes.ID
      · subst hid
        simp only [if_true, List.count_singleton_self]
        omega
      · have hne : jobRes.ID ≠ id := fun e => hid e.symm
        simp only [hid, if_false, List.count_singleton, beq_iff_eq, hne]
        omega
    · simp only [hpp, if_false] at hp'
      obtain ⟨hW', hT'⟩ := hG2 p' data' hp'
      refine ⟨hW', fun id => ?_⟩
      have := hT' id
      by_cases hid : id = jobRes.ID
      · subst hid
        simp only [if_true]
        have hcnt : c.pending p' jobRes.ID = rest.count p' := by
          simp [Coordinator.pending, hl, hb, List.count_cons, hpp]
        omega
      · simp only [hid, if_false]
        exact this

/-! ## `StartBuild` -/

theorem Chan_send_buf {α : Type} (ch ch' : Chan α) (a : α) (h : ch.send a = .ok ch') :
    ch'.buf = ch.buf ++ [a] := by
  revert h
  unfold Chan.send
  cases hc : ch.closed
  · by_cases hl : ch.buf.length < ch.cap
    · simp only [Bool.false_eq_true, if_false, hl, if_true, Exec.ok.injEq]
      intro e
      subst e
      rfl
    · simp [hl]
  · simp

/-- The loop of `StartBuild` over the jobs, when it returns, has put one
pointer to the build at the end of the channel of each job of the request. -/
theorem register_spec (p : Nat) (js : List Job) (c1 c2 : Coordinator)
    (h : StartBuild.register p js c1.buildByJob = (.ok (), c2.buildByJob)) :
    (∀ q id, c2.pending q id
      = c1.pending q id + if q = p then (js.map (fun j => j.ID)).count id else 0) ∧
    (∀ id ch', GoMap.load c2.buildByJob id = some ch' → ∀ q ∈ ch'.buf,
      q = p ∨ ∃ ch, GoMap.load c1.buildByJob id = some ch ∧ q ∈ ch.buf) := by
  induction js generalizing c1 with
  | nil =>
    simp only [StartBuild.register, Prod.mk.injEq, true_and] at h
    simp only [Coordinator.pending, ← h, List.map_nil, List.count_nil, ite_self, Nat.add_zero,
      implies_true, true_and]
    intro id ch' hl q hq
    exact Or.inr ⟨ch', hl, hq⟩
  | cons j js ih =>
    unfold StartBuild.register at h
    simp only at h
    rcases hs : ((GoMap.load c1.buildByJob j.ID).getD (Chan.make 10)).send p with ch | _ | _
    · rw [hs] at h
      simp only at h
      have hbuf := Chan_send_buf _ _ _ hs
      obtain ⟨ih1, ih2⟩ := ih { c1 with buildByJob := GoMap.store c1.buildByJob j.ID ch } h
      -- the channel of `j.ID` before the send holds what `pending` counts
      have hold : ∀ q, ((GoMap.load c1.buildByJob j.ID).getD (Chan.make 10)).buf.count q
          = c1.pending q j.ID := by
        intro q
        simp only [Coordinator.pending]
        cases GoMap.load c1.buildByJob j.ID <;> simp [Chan.make]
      refine ⟨fun q id => ?_, fun id ch' hl q hq => ?_⟩
      · rw [ih1 q id, pending_store c1 _ j.ID ch q id rfl, hbuf, List.count_append, hold]
        by_cases hid : id = j.ID
        · subst hid
          by_cases hq : q = p
          · subst hq
            simp [List.count_cons]
            omega
          · have hne : p ≠ q := fun e => hq e.symm
            simp [hq, hne, List.count_singleton]
        · have hne : j.ID ≠ id := fun e => hid e.symm
          by_cases hq : q = p
          · simp [hid, hq, hne, List.count_cons]
          · simp [hid, hq]
      · rcases ih2 id ch' hl q hq with e | ⟨ch0, hl0, hq0⟩
        · exact Or.inl e
        · simp only [GoMap.load_store] at hl0
          split at hl0
          · rename_i hid
            cases hl0
            rw [hbuf, List.mem_append, List.mem_singleton] at hq0
            rcases hq0 with hq0 | hq0
            · right
              rw [hid]
              cases hld : GoMap.load c1.buildByJob j.ID with
              | none => rw [hld] at hq0; simp [Chan.make] at hq0
              | some ch1 => rw [hld] at hq0; exact ⟨ch1, rfl, hq0⟩
            · exact Or.inl hq0
          · exact Or.inr ⟨ch0, hl0, hq0⟩
    · rw [hs] at h; simp at h
    · rw [hs] at h; simp at h

theorem pending_congr (c1 c2 : Coordinator) (h : c1.buildByJob = c2.buildByJob) (q : Nat)
    (id : ID) : c1.pending q id = c2.pending q id := by
  simp only [Coordinator.pending, h]

/-- `StartBuild`, called by the handler with the writer it has made, keeps the
invariant of the coordinator when it returns, `TopSort` giving the jobs back in
some order. -/
theorem StartBuild_inv (TopSort : List Job → List Job) (hperm : ∀ js, (TopSort js).Perm js)
    (c : Coordinator) (id : ID) (req : BuildRequest) (e : GoError) (hinv : CoordInv c)
    (h : (StartBuild TopSort c id req (some MyStatusWriter.new)).1 = .ok e) :
    CoordInv (StartBuild TopSort c id req (some MyStatusWriter.new)).2 := by
  obtain ⟨hG1, hG2⟩ := hinv
  revert h
  unfold StartBuild
  simp only
  rcases hr : StartBuild.register c.heap.length req.Graph.Jobs c.buildByJob with ⟨_ | _ | _, m⟩
  · simp only [MyStatusWriter.Started, MyStatusWriter.new, Bool.not_false, if_true]
    intro _
    obtain ⟨hp1, hp2⟩ := register_spec c.heap.length req.Graph.Jobs c
      { c with buildByJob := m } hr
    -- no pointer to the new build is waiting before the call
    have hfresh : ∀ id, c.pending c.heap.length id = 0 := by
      intro id
      simp only [Coordinator.pending]
      cases hl : GoMap.load c.buildByJob id with
      | none => rfl
      | some ch =>
        simp only [List.count_eq_zero]
        intro hmem
        exact absurd (hG1 id ch hl _ hmem) (Nat.lt_irrefl _)
    refine ⟨fun id' ch' hl q hq => ?_, fun p' data' hp' => ?_⟩
    · simp only [List.length_set, List.length_append, List.length_singleton]
      rcases hp2 id' ch' hl q hq with e | ⟨ch0, hl0, hq0⟩
      · omega
      · have := hG1 id' ch0 hl0 q hq0
        omega
    · have hpend : ∀ c3 : Coordinator, c3.buildByJob = m → ∀ q id', c3.pending q id'
          = c.pending q id' + if q = c.heap.length
              then (req.Graph.Jobs.map (fun j => j.ID)).count id' else 0 := by
        intro c3 h3 q id'
        rw [pending_congr c3 { c with buildByJob := m } h3]
        exact hp1 q id'
      simp only [MyStatusWriter.new] at hp'
      simp only [List.getElem?_set, List.length_append, List.length_singleton] at hp'
      by_cases hpp : c.heap.length = p'
      · subst hpp
        simp only [if_true, Nat.lt_succ_self, Option.some.injEq] at hp'
        subst hp'
        refine ⟨⟨_, [], rfl, rfl, ?_, ?_, ?_, rfl⟩, fun id' => ?_⟩
        · simp [Chan.sent, Chan.make, buildData.finishDue]
        · simp [buildData.finishDue]
        · simp
        · rw [hpend _ rfl, hfresh]
          simp only [buildData.delivered, buildData.updates, Chan.sent, Chan.make,
            List.append_nil, List.filterMap_nil, List.count_nil, if_true, Nat.zero_add]
          exact (((hperm req.Graph.Jobs).map (fun j => j.ID)).count_eq id').symm
      · simp only [hpp, if_false] at hp'
        have hlt : p' < c.heap.length := by
          rcases Nat.lt_or_ge p' c.heap.length with h' | h'
          · exact h'
          · rw [List.getElem?_append_right h'] at hp'
            have : p' - c.heap.length ≠ 0 := by omega
            cases hk : p' - c.heap.length with
            | zero => exact absurd hk this
            | succ k => rw [hk] at hp'; simp at hp'
        rw [List.getElem?_append_left hlt] at hp'
        obtain ⟨hW, hT⟩ := hG2 p' data' hp'
        refine ⟨hW, fun id' => ?_⟩
        have hne : ¬ p' = c.heap.length := fun e => hpp e.symm
        rw [hpend _ rfl, if_neg hne, Nat.add_zero]
        exact hT id'
  · simp
  · simp

/-! ## The handler's steps on the writer -/

theorem markStarted_spec (sw sw1 : MyStatusWriter) (r : Unit) (hcc : sw.upds.closed = sw.closed)
    (h : BuildHandler.markStarted sw = (.ok r, sw1)) :
    sw1.upds.sent = sw.upds.sent ∧ sw1.buildFinished = sw.buildFinished ∧
    (sw.closed = true → sw1.closed = true) ∧
    (sw1.closed = true → sw.closed = true ∨ sw1.buildFinished = true) ∧
    sw1.upds.closed = sw1.closed := by
  revert h
  simp only [BuildHandler.markStarted, Chan.close]
  cases hbf : sw.buildFinished <;> cases hc : sw.closed <;>
    simp only [hc] at hcc <;> simp [hcc, hc] <;> intro e <;> subst e <;> simp [hcc, hc, Chan.sent, hbf]

theorem recvUpdate_spec (sw sw1 : MyStatusWriter) (writeOk : Bool) (r : Bool)
    (h : BuildHandler.recvUpdate sw writeOk = (.ok r, sw1)) :
    sw1.upds.sent = sw.upds.sent ∧ sw1.buildFinished = sw.buildFinished ∧
    sw1.closed = sw.closed ∧ sw1.upds.closed = sw.upds.closed := by
  revert h
  unfold BuildHandler.recvUpdate
  rcases hr : sw.upds.recv with ⟨_ | upd, ch⟩ | _ | _
  · obtain ⟨h1, h2⟩ := Chan_recv_sent _ _ _ hr
    simp only [Prod.mk.injEq, Exec.ok.injEq, and_imp]
    intro _ e
    subst e
    exact ⟨h1, rfl, rfl, h2⟩
  · obtain ⟨h1, h2⟩ := Chan_recv_sent _ _ _ hr
    simp only [Prod.mk.injEq, Exec.ok.injEq, and_imp]
    intro _ e
    subst e
    exact ⟨h1, rfl, rfl, h2⟩
  · simp
  · simp

/-- Replacing the writer of a build by one with the same updates sent and
consistent flags keeps the agreement of writer and counter. -/
theorem WriterInv_step (data : buildData) (w w1 : MyStatusWriter) (hw : data.stWriter = some w)
    (hsent : w1.upds.sent = w.upds.sent) (hbf : w1.buildFinished = w.buildFinished)
    (hcl : w1.closed = true → w.closed = true ∨ w1.buildFinished = true)
    (hcc : w1.upds.closed = w1.closed) (hinv : WriterInv data) :
    WriterInv { data with stWriter := some w1 } ∧
    buildData.delivered { data with stWriter := some w1 } = data.delivered := by
  obtain ⟨w0, rs, hw0, hrs, hs, hb, hc, _⟩ := hinv
  rw [hw] at hw0
  cases hw0
  refine ⟨⟨w1, rs, rfl, hrs, by rw [hsent, hs]; rfl, by rw [hbf]; exact hb, ?_, hcc⟩, ?_⟩
  · intro h1
    rcases hcl h1 with h2 | h2
    · rw [hbf]; exact hc h2
    · exact h2
  · simp only [buildData.delivered, buildData.updates, hw, hsent]

/-- A step of the handler on the writer of a build keeps the invariant of the
coordinator. -/
theorem onWriter_inv (c c' : Coordinator) (p : Nat) (α : Type)
    (f : MyStatusWriter → Exec α × MyStatusWriter)
    (hf : ∀ sw sw1 r, sw.upds.closed = sw.closed → f sw = (.ok r, sw1) →
      sw1.upds.sent = sw.upds.sent ∧ sw1.buildFinished = sw.buildFinished ∧
      (sw1.closed = true → sw.closed = true ∨ sw1.buildFinished = true) ∧
      sw1.upds.closed = sw1.closed)
    (hinv : CoordInv c) (h : c.onWriter p f = (.ok (), c')) : CoordInv c' := by
  obtain ⟨hG1, hG2⟩ := hinv
  revert h
  unfold Coordinator.onWriter
  cases hh : c.heap[p]? with
  | none => simp
  | some data =>
    simp only
    cases hw : data.stWriter with
    | none => simp
    | some sw =>
      simp only
      rcases hfs : f sw with ⟨r | _ | _, sw1⟩
      · simp only [Prod.mk.injEq, true_and]
        intro e
        subst e
        obtain ⟨hW, hT⟩ := hG2 p data hh
        have hcc0 : sw.upds.closed = sw.closed := by
          obtain ⟨w0, _, hw0, _, _, _, _, hcc⟩ := hW
          rw [hw] at hw0; cases hw0; exact hcc
        obtain ⟨f1, f2, f3, f4⟩ := hf sw sw1 r hcc0 hfs
        obtain ⟨hW1, hD1⟩ := WriterInv_step data sw sw1 hw f1 f2 f3 f4 hW
        refine ⟨fun id ch hl q hq => ?_, fun p' data' hp' => ?_⟩
        · simp only [List.length_set]
          exact hG1 id ch hl q hq
        · simp only [List.getElem?_set] at hp'
          by_cases hpp : p = p'
          · subst hpp
            have hplt : p < c.heap.length := by
              rcases Nat.lt_or_ge p c.heap.length with h' | h'
              · exact h'
              · rw [List.getElem?_eq_none h'] at hh; cases hh
            simp only [if_true, hplt, Option.some.injEq] at hp'
            subst hp'
            refine ⟨hW1, fun id => ?_⟩
            rw [hD1]
            exact hT id
          · simp only [hpp, if_false] at hp'
            exact hG2 p' data' hp'
      · simp
      · simp

/-! ## Runs of the coordinator keep the invariant -/

theorem CoordInv_scheduler (c : Coordinator) (s : Scheduler) (h : CoordInv c) :
    CoordInv { c with scheduler := s } := h

theorem Heartbeat_finished_inv (workerID : WorkerID) (rs : List JobResult) (c c' : Coordinator)
    (hinv : CoordInv c) (h : Heartbeat.finished workerID rs c = (.ok (), c')) : CoordInv c' := by
  induction rs generalizing c with
  | nil =>
    simp only [Heartbeat.finished, Prod.mk.injEq, true_and] at h
    rw [← h]; exact hinv
  | cons r rs ih =>
    unfold Heartbeat.finished at h
    rcases hp : processFinishedJob c r workerID with ⟨_ | _ | _, c1⟩
    · rw [hp] at h
      exact ih c1 (processFinishedJob_inv c c1 r workerID hinv hp) h
    · rw [hp] at h; simp at h
    · rw [hp] at h; simp at h

theorem Heartbeat_pick_inv (workerID : WorkerID) (ctx : Nat → Bool) (choice : Nat → Nat)
    (n i : Nat) (c c' : Coordinator) (jobs : GoMap ID JobSpec) (resp : HeartbeatResponse)
    (hinv : CoordInv c)
    (h : Heartbeat.pick workerID ctx choice n i c jobs = (.ok resp, c')) : CoordInv c' := by
  induction n generalizing i c jobs with
  | zero =>
    simp only [Heartbeat.pick, Prod.mk.injEq] at h
    rw [← h.2]; exact hinv
  | succ n ih =>
    unfold Heartbeat.pick at h
    rcases hpk : PickJob c.scheduler (ctx i) workerID (choice i) with ⟨(_ | job) | _ | _, s⟩
    · rw [hpk] at h
      simp only [Prod.mk.injEq] at h
      rw [← h.2]; exact CoordInv_scheduler c s hinv
    · rw [hpk] at h
      simp only at h
      rcases hloc : LocateArtifact s job.Job.ID with ⟨wID, _ | _⟩
      · rw [hloc] at h
        exact ih _ _ _ (CoordInv_scheduler c s hinv) h
      · rw [hloc] at h
        simp only at h
        rcases hp : processFinishedJob { c with scheduler := s } { ID := job.Job.ID } wID with
          ⟨_ | _ | _, c2⟩
        · rw [hp] at h
          exact ih _ _ _
            (processFinishedJob_inv _ c2 _ wID (CoordInv_scheduler c s hinv) hp) h
        · rw [hp] at h; simp at h
        · rw [hp] at h; simp at h
    · rw [hpk] at h; simp at h
    · rw [hpk] at h; simp at h

theorem Heartbeat_inv (c c' : Coordinator) (req : HeartbeatRequest) (ctx : Nat → Bool)
    (choice : Nat → Nat) (resp : HeartbeatResponse) (hinv : CoordInv c)
    (h : Heartbeat c req ctx choice = (.ok resp, c')) : CoordInv c' := by
  unfold Heartbeat at h
  rcases hf : Heartbeat.finished req.WorkerID req.FinishedJob c with ⟨_ | _ | _, c1⟩
  · rw [hf] at h
    exact Heartbeat_pick_inv _ _ _ _ _ c1 c' _ resp
      (Heartbeat_finished_inv _ _ c c1 hinv hf) h
  · rw [hf] at h; simp at h
  · rw [hf] at h; simp at h

theorem SignalBuild_coord (c : Coordinator) (buildID : ID) (req : SignalRequest) (env : Env) :
    ∃ s, (SignalBuild c buildID req env).coord = { c with scheduler := s } := by
  unfold SignalBuild
  cases GoMap.load c.builds buildID with
  | none => exact ⟨c.scheduler, rfl⟩
  | some p =>
    simp only
    cases c.heap[p]? with
    | none => exact ⟨c.scheduler, rfl⟩
    | some data =>
      simp only
      cases req.UploadDone with
      | none => exact ⟨c.scheduler, rfl⟩
      | some u =>
        simp only
        rcases SignalBuild.jobs data data.jobs c.scheduler env [] with ⟨_ | _ | _, s, handed⟩ <;>
          exact ⟨s, rfl⟩

theorem NewCoordinator_inv (files : Cache) : CoordInv (NewCoordinator files) := by
  refine ⟨fun id ch hl => ?_, fun p data hp => ?_⟩
  · simp [NewCoordinator, GoMap.load] at hl
  · simp [NewCoordinator] at hp

theorem CoordOp_exec_inv (TopSort : List Job → List Job) (hperm : ∀ js, (TopSort js).Perm js)
    (c c' : Coordinator) (op : CoordOp) (hinv : CoordInv c)
    (h : op.exec TopSort c = (.ok (), c')) : CoordInv c' := by
  cases op with
  | startBuild id req =>
    simp only [CoordOp.exec] at h
    rcases hs : StartBuild TopSort c id req (some MyStatusWriter.new) with ⟨e | _ | _, c1⟩
    · rw [hs] at h
      simp only [Prod.mk.injEq, true_and] at h
      have := StartBuild_inv TopSort hperm c id req e hinv (by rw [hs])
      rw [hs] at this
      rw [← h]; exact this
    · rw [hs] at h; simp at h
    · rw [hs] at h; simp at h
  | markStarted p =>
    refine onWriter_inv c c' p Unit BuildHandler.markStarted (fun sw sw1 r hcc hf => ?_) hinv h
    obtain ⟨f1, f2, _, f4, f5⟩ := markStarted_spec sw sw1 r hcc hf
    exact ⟨f1, f2, f4, f5⟩
  | recvUpdate p writeOk =>
    refine onWriter_inv c c' p Bool (fun sw => BuildHandler.recvUpdate sw writeOk)
      (fun sw sw1 r hcc hf => ?_) hinv h
    obtain ⟨f1, f2, f3, f4⟩ := recvUpdate_spec sw sw1 writeOk r hf
    exact ⟨f1, f2, fun h1 => Or.inl (by rw [← f3]; exact h1), by rw [f4, f3, hcc]⟩
  | heartbeat req ctx choice =>
    simp only [CoordOp.exec] at h
    rcases hs : Heartbeat c req ctx choice with ⟨resp | _ | _, c1⟩
    · rw [hs] at h
      simp only [Prod.mk.injEq, true_and] at h
      rw [← h]; exact Heartbeat_inv c c1 req ctx choice resp hinv hs
    · rw [hs] at h; simp at h
    · rw [hs] at h; simp at h
  | signalBuild buildID req env =>
    simp only [CoordOp.exec] at h
    obtain ⟨s, hs⟩ := SignalBuild_coord c buildID req env
    rcases hr : (SignalBuild c buildID req env).res with _ | _ | _
    · rw [hr] at h
      simp only [Prod.mk.injEq, true_and] at h
      rw [← h, hs]; exact CoordInv_scheduler c s hinv
    · rw [hr] at h; simp at h
    · rw [hr] at h; simp at h

/-- Every state the coordinator reaches from `NewCoordinator` by steps that
returned satisfies the invariant, `TopSort` giving the jobs back in some
order. -/
theorem run_inv (TopSort : List Job → List Job) (hperm : ∀ js, (TopSort js).Perm js)
    (ops : List CoordOp) (c c' : Coordinator) (hinv : CoordInv c)
    (h : Coordinator.run TopSort c ops = some c') : CoordInv c' := by
  induction ops generalizing c with
  | nil =>
    simp only [Coordinator.run, Option.some.injEq] at h
    rw [← h]; exact hinv
  | cons op ops ih =>
    unfold Coordinator.run at h
    rcases ho : op.exec TopSort c with ⟨_ | _ | _, c1⟩
    · rw [ho] at h
      exact ih c1 (CoordOp_exec_inv TopSort hperm c c1 op hinv ho) h
    · rw [ho] at h; simp at h
    · rw [ho] at h; simp at h

/-! ## Claims on the completion of a build -/

theorem finishDue_iff (data : buildData) (h : WriterInv data)
    (hT : ∀ id, data.delivered.count id ≤ (data.jobs.map (fun j => j.ID)).count id) :
    data.finishDue ↔ data.jobs ≠ [] ∧ data.delivered.Perm (data.jobs.map (fun j => j.ID)) := by
  have hlen := WriterInv_delivered data h
  have hsub : data.delivered.Subperm (data.jobs.map (fun j => j.ID)) :=
    List.subperm_ext_iff.mpr (fun x _ => hT x)
  constructor
  · rintro ⟨hpos, heq⟩
    refine ⟨fun hnil => ?_, hsub.perm_of_length_le ?_⟩
    · rw [hnil] at heq
      simp only [List.length_nil] at heq
      omega
    · rw [List.length_map, hlen, heq]
  · rintro ⟨hne, hperm⟩
    have h1 := hperm.length_eq
    rw [List.length_map, hlen] at h1
    refine ⟨?_, h1⟩
    rw [h1]
    exact List.length_pos.mpr hne

theorem updates_of_inv (data : buildData) (h : WriterInv data) :
    ∃ rs : List JobResult, rs.length = data.jobsDoneCnt ∧
      data.updates = rs.map (fun r => ({ JobFinished := some r } : StatusUpdate))
        ++ (if data.finishDue then [({ BuildFinished := some {} } : StatusUpdate)] else []) := by
  obtain ⟨w, rs, hw, hrs, hsent, _, _, _⟩ := h
  exact ⟨rs, hrs, by simp only [buildData.updates, hw, hsent]⟩

/-- C6: completion counting. In every state the coordinator reaches (with
`TopSort` giving the jobs back in some order), a build has been sent
`BuildFinished` exactly when its graph has at least one job and the
`JobFinished` updates sent to it are those of the jobs of the graph, one for
each. For a graph with no jobs the right-hand side of the claimed equivalence
holds from the start, and `BuildFinished` is never sent. -/
theorem BuildFinished_iff_all_delivered (TopSort : List Job → List Job)
    (hperm : ∀ js, (TopSort js).Perm js) (files : Cache) (ops : List CoordOp) (c : Coordinator)
    (p : Nat) (data : buildData)
    (hrun : Coordinator.run TopSort (NewCoordinator files) ops = some c)
    (hd : c.heap[p]? = some data) :
    (({ BuildFinished := some {} } : StatusUpdate) ∈ data.updates ↔
      data.jobs ≠ [] ∧ data.delivered.Perm (data.jobs.map (fun j => j.ID))) ∧
    (data.jobs = [] →
      ({ BuildFinished := some {} } : StatusUpdate) ∉ data.updates ∧
      data.delivered.Perm (data.jobs.map (fun j => j.ID))) := by
  obtain ⟨hW, hT⟩ := (run_inv TopSort hperm ops _ c (NewCoordinator_inv files) hrun).2 p data hd
  have hle : ∀ id, data.delivered.count id ≤ (data.jobs.map (fun j => j.ID)).count id :=
    fun id => by have := hT id; omega
  have hiff := finishDue_iff data hW hle
  obtain ⟨rs, hrs, hu⟩ := updates_of_inv data hW
  have hmem : ({ BuildFinished := some {} } : StatusUpdate) ∈ data.updates ↔ data.finishDue := by
    rw [hu, List.mem_append]
    constructor
    · rintro (h | h)
      · obtain ⟨r, _, e⟩ := List.mem_map.mp h
        cases e
      · by_contra hn
        rw [if_neg hn] at h
        cases h
    · intro hdone
      right
      rw [if_pos hdone]
      exact List.mem_singleton.mpr rfl
  refine ⟨hmem.trans hiff, fun hnil => ⟨fun hbf => ?_, ?_⟩⟩
  · exact (hiff.mp (hmem.mp hbf)).1 hnil
  · have hlen := WriterInv_delivered data hW
    have hsub : data.delivered.Subperm (data.jobs.map (fun j => j.ID)) :=
      List.subperm_ext_iff.mpr (fun x _ => hle x)
    have := hsub.length_le
    rw [hnil] at this ⊢
    simp only [List.map_nil, List.length_nil, Nat.le_zero, List.length_eq_zero] at this
    rw [this]
    exact List.Perm.refl _

/-- C6 at a build with no jobs: after the build is started and signalled and
a heartbeat is served, no update has been sent to it. -/
theorem BuildFinished_iff_all_delivered_witness :
    ∃ c data, Coordinator.run id (NewCoordinator ⟨[], []⟩) Example.emptyRun = some c ∧
      c.heap[0]? = some data ∧ data.jobs = [] ∧
      ({ BuildFinished := some {} } : StatusUpdate) ∉ data.updates ∧
      data.delivered.Perm (data.jobs.map (fun j => j.ID)) :=
  ⟨_, _, rfl, rfl, rfl,
    (BuildFinished_iff_all_delivered id (fun _ => List.Perm.refl _) ⟨[], []⟩ Example.emptyRun
      _ 0 _ rfl rfl).2 rfl⟩

/-- C7: build ordering, for every build the coordinator holds in every state it
reaches (with `TopSort` giving the jobs back in some order). The updates sent
to the writer of the build are one `JobFinished` for each job counted, followed
by `BuildFinished` when the build is done and its graph has a job, and by
nothing otherwise; a terminal update is the last update, and is there only
when the build is done; a build is done exactly when the `JobFinished` sent
are those of its jobs, one for each; a done build whose graph has a job has
exactly one terminal update and no pointer to it waits in any channel, so that
`processFinishedJob` does not reach it again. A build whose graph has no job is
done from the start and is never sent an update: it is done with no terminal
update. -/
theorem build_ordering (TopSort : List Job → List Job) (hperm : ∀ js, (TopSort js).Perm js)
    (files : Cache) (ops : List CoordOp) (c : Coordinator) (p : Nat) (data : buildData)
    (hrun : Coordinator.run TopSort (NewCoordinator files) ops = some c)
    (hd : c.heap[p]? = some data) :
    (∃ rs : List JobResult, rs.length = data.jobsDoneCnt ∧
      data.updates = rs.map (fun r => ({ JobFinished := some r } : StatusUpdate))
        ++ (if data.done ∧ 0 < data.jobs.length
            then [({ BuildFinished := some {} } : StatusUpdate)] else [])) ∧
    (∀ (i : Nat) (u : StatusUpdate), data.updates[i]? = some u → u.isTerminal = true →
      i + 1 = data.updates.length ∧ data.done ∧ data.jobs ≠ []) ∧
    (data.done ↔ data.delivered.Perm (data.jobs.map (fun j => j.ID))) ∧
    (data.done → data.jobs ≠ [] →
      (data.updates.filter StatusUpdate.isTerminal).length = 1 ∧ ∀ id, c.pending p id = 0) ∧
    (data.jobs = [] → data.done ∧ data.updates = []) := by
  obtain ⟨hW, hT⟩ := (run_inv TopSort hperm ops _ c (NewCoordinator_inv files) hrun).2 p data hd
  have hle : ∀ id, data.delivered.count id ≤ (data.jobs.map (fun j => j.ID)).count id :=
    fun id => by have := hT id; omega
  have hiff := finishDue_iff data hW hle
  have hlen := WriterInv_delivered data hW
  have hsub : data.delivered.Subperm (data.jobs.map (fun j => j.ID)) :=
    List.subperm_ext_iff.mpr (fun x _ => hle x)
  have hcnt : data.jobsDoneCnt ≤ data.jobs.length := by
    have := hsub.length_le
    rw [List.length_map, hlen] at this
    exact this
  have hdue : data.finishDue ↔ data.done ∧ 0 < data.jobs.length := by
    unfold buildData.finishDue buildData.done
    constructor
    · rintro ⟨h1, h2⟩
      exact ⟨h2, by omega⟩
    · rintro ⟨h1, h2⟩
      exact ⟨by omega, h1⟩
  have hpos : ∀ {l : List Job}, l ≠ [] ↔ 0 < l.length := fun {l} =>
    ⟨List.length_pos.mpr, List.length_pos.mp⟩
  obtain ⟨rs, hrs, hu0⟩ := updates_of_inv data hW
  have hu : data.updates = rs.map (fun r => ({ JobFinished := some r } : StatusUpdate))
      ++ (if data.done ∧ 0 < data.jobs.length
          then [({ BuildFinished := some {} } : StatusUpdate)] else []) := by
    rw [hu0]
    by_cases hdn : data.finishDue
    · rw [if_pos hdn, if_pos (hdue.mp hdn)]
    · rw [if_neg hdn, if_neg (fun h => hdn (hdue.mpr h))]
  have hfilter : ∀ l : List JobResult,
      (l.map (fun r => ({ JobFinished := some r } : StatusUpdate))).filter
        StatusUpdate.isTerminal = [] := fun l => by
    induction l with
    | nil => rfl
    | cons r l ih =>
      rw [List.map_cons, List.filter_cons_of_neg (by simp [StatusUpdate.isTerminal]), ih]
  refine ⟨⟨rs, hrs, hu⟩, fun i u hi hterm => ?_, ?_, fun hdone hne => ⟨?_, fun id => ?_⟩,
    fun hnil => ?_⟩
  · rw [hu] at hi ⊢
    rcases Nat.lt_or_ge i (rs.map (fun r => ({ JobFinished := some r } : StatusUpdate))).length
      with hlt | hge
    · rw [List.getElem?_append_left hlt, List.getElem?_map] at hi
      cases hr : rs[i]? with
      | none => rw [hr] at hi; cases hi
      | some r =>
        rw [hr] at hi
        simp only [Option.map_some', Option.some.injEq] at hi
        rw [← hi] at hterm
        cases hterm
    · rw [List.getElem?_append_right hge] at hi
      by_cases hdone : data.done ∧ 0 < data.jobs.length
      · rw [if_pos hdone] at hi ⊢
        refine ⟨?_, hdone.1, hpos.mpr hdone.2⟩
        cases hk : i - (rs.map (fun r => ({ JobFinished := some r } : StatusUpdate))).length with
        | zero =>
          simp only [List.length_append, List.length_singleton]
          omega
        | succ k => rw [hk] at hi; simp at hi
      · rw [if_neg hdone] at hi
        simp at hi
  · constructor
    · intro hdone
      refine hsub.perm_of_length_le ?_
      rw [List.length_map, hlen]
      exact Nat.le_of_eq hdone.symm
    · intro hp
      have h1 := hp.length_eq
      rw [List.length_map, hlen] at h1
      exact h1
  · rw [hu, if_pos ⟨hdone, hpos.mp hne⟩, List.filter_append, hfilter]
    rfl
  · have hperm' := (hiff.mp (hdue.mpr ⟨hdone, hpos.mp hne⟩)).2
    have := hT id
    have := hperm'.count_eq id
    omega
  · have h0 : data.jobsDoneCnt = 0 := by
      rw [hnil] at hcnt
      exact Nat.le_zero.mp hcnt
    have hdn : data.done := by
      unfold buildData.done
      rw [h0, hnil]
      rfl
    refine ⟨hdn, ?_⟩
    rw [hu, if_neg (fun h => by rw [hnil] at h; exact Nat.lt_irrefl 0 h.2)]
    rw [h0] at hrs
    rw [List.length_eq_zero.mp hrs]
    rfl

/-- C7 at two builds. The example build run to its end: the updates are the two
`JobFinished`, in the order the heartbeats reported them, then `BuildFinished`,
the one terminal update. The build with no jobs, started, signalled and with a
heartbeat served: it is done and has no update. -/
theorem build_ordering_witness :
    (∃ c data, Coordinator.run id (NewCoordinator ⟨[], []⟩) Example.fullRun = some c ∧
      c.heap[0]? = some data ∧
      data.updates = [{ JobFinished := some { ID := ⟨"a"⟩ } },
        { JobFinished := some { ID := ⟨"b"⟩ } }, { BuildFinished := some {} }] ∧
      (data.updates.filter StatusUpdate.isTerminal).length = 1) ∧
    (∃ c data, Coordinator.run id (NewCoordinator ⟨[], []⟩) Example.emptyRun = some c ∧
      c.heap[0]? = some data ∧ data.jobs = [] ∧ data.done ∧ data.updates = []) :=
  ⟨⟨_, _, rfl, rfl, by decide,
    ((build_ordering id (fun _ => List.Perm.refl _) ⟨[], []⟩ Example.fullRun _ 0 _ rfl
      rfl).2.2.2.1 (by decide) (by decide)).1⟩,
   ⟨_, _, rfl, rfl, rfl,
    (build_ordering id (fun _ => List.Perm.refl _) ⟨[], []⟩ Example.emptyRun _ 0 _ rfl
      rfl).2.2.2.2 rfl⟩⟩

/-! ## The heartbeat -/

theorem sum_map_set {α : Type} (f : α → Nat) (l : List α) (p : Nat) (a b : α)
    (h : l[p]? = some a) (hf : f b = f a + 1) :
    ((l.set p b).map f).sum = (l.map f).sum + 1 := by
  induction l generalizing p with
  | nil => cases h
  | cons x l ih =>
    cases p with
    | zero =>
      simp only [List.getElem?_cons_zero, Option.some.injEq] at h
      subst h
      simp only [List.set_cons_zero, List.map_cons, List.sum_cons, hf]
      omega
    | succ p =>
      simp only [List.getElem?_cons_succ] at h
      simp only [List.set_cons_succ, List.map_cons, List.sum_cons, ih p h]
      omega

theorem flatten_map_set {α β : Type} (f : α → List β) (l : List α) (p : Nat) (a b : α) (r : β)
    (h : l[p]? = some a) (hf : f b = f a ++ [r]) :
    ((l.set p b).map f).flatten.Perm ((l.map f).flatten ++ [r]) := by
  induction l generalizing p with
  | nil => cases h
  | cons x l ih =>
    cases p with
    | zero =>
      simp only [List.getElem?_cons_zero, Option.some.injEq] at h
      subst h
      simp only [List.set_cons_zero, List.map_cons, List.flatten_cons, hf, List.append_assoc]
      exact List.Perm.append_left _ List.perm_append_comm
    | succ p =>
      simp only [List.getElem?_cons_succ] at h
      simp only [List.set_cons_succ, List.map_cons, List.flatten_cons, List.append_assoc]
      exact List.Perm.append_left _ (ih p h)

/-- What `PickJob` has done when it returns nil: nothing. -/
theorem PickJob_none (c s : Scheduler) (ctxDone : Bool) (w : WorkerID) (choice : Nat)
    (h : PickJob c ctxDone w choice = (.ok none, s)) : s = c := by
  revert h
  unfold PickJob
  simp only
  rcases (PickJob.ready c ctxDone)[choice % (PickJob.ready c ctxDone).length]? with _ | x
  · simp
  · cases x
    · simp only [Chan.recv]
      cases hb : c.jobsQue.buf with
      | nil => cases hq : c.jobsQue.closed <;> simp
      | cons a rest => simp
    · simp only [Prod.mk.injEq, true_and]; exact fun e => e.symm
    · simp only [Prod.mk.injEq, true_and]; exact fun e => e.symm

/-- What `PickJob` has done when it returns a job: taken it from the head of
the queue. -/
theorem PickJob_some (c s : Scheduler) (ctxDone : Bool) (w : WorkerID) (choice : Nat)
    (job : PendingJob) (h : PickJob c ctxDone w choice = (.ok (some job), s)) :
    c.jobsQue.buf = job :: s.jobsQue.buf ∧ s.artifactLocations = c.artifactLocations := by
  have hl := PickJob_locations c ctxDone w choice
  rw [h] at hl
  refine ⟨?_, hl⟩
  revert h
  unfold PickJob
  simp only
  rcases (PickJob.ready c ctxDone)[choice % (PickJob.ready c ctxDone).length]? with _ | x
  · simp
  · cases x
    · simp only [Chan.recv]
      cases hb : c.jobsQue.buf with
      | nil => cases hq : c.jobsQue.closed <;> simp
      | cons a rest =>
        simp only [Prod.mk.injEq, Exec.ok.injEq, Option.some.injEq, List.cons.injEq, and_imp]
        intro e1 e2
        subst e2
        exact ⟨e1, rfl⟩
    · simp
    · simp

/-- Publishing again the location that is recorded already changes no answer
of `LocateArtifact`. -/
theorem OnJobComplete_same (s : Scheduler) (wID : WorkerID) (jobID id : ID)
    (h : LocateArtifact s id = (wID, true)) (x : ID) :
    LocateArtifact (OnJobComplete s wID jobID { ID := id }).2 x = LocateArtifact s x := by
  have hl : GoMap.load s.artifactLocations id.String = some wID := by
    revert h
    unfold LocateArtifact
    cases GoMap.load s.artifactLocations id.String with
    | none => simp
    | some v => simp only [Prod.mk.injEq, and_true]; exact fun e => by rw [e]
  simp only [OnJobComplete, if_true, LocateArtifact, GoMap.load_store]
  by_cases hx : x.String = id.String
  · simp [hx, hl]
  · simp [hx]

/-- The effect of a call of `processFinishedJob` that returns, in a state that
satisfies the invariant: the location is published, and one build gets one
`JobFinished` update carrying the result and its counter incremented by one
(then `BuildFinished` if that was its last job); the other builds stay as they
are. -/
theorem processFinishedJob_effect (c c' : Coordinator) (jobRes : JobResult)
    (workerID : WorkerID) (hinv : CoordInv c)
    (h : processFinishedJob c jobRes workerID = (.ok (), c')) :
    c'.scheduler = (OnJobComplete c.scheduler workerID jobRes.ID jobRes).2 ∧
    (∃ (p : Nat) (data data1 : buildData),
      c.heap[p]? = some data ∧ c'.heap = c.heap.set p data1 ∧
      data1.jobsDoneCnt = data.jobsDoneCnt + 1 ∧
      data1.updates = data.updates ++ ({ JobFinished := some jobRes } : StatusUpdate) ::
        (if data.jobsDoneCnt + 1 = data.jobs.length
          then [({ BuildFinished := some {} } : StatusUpdate)] else [])) ∧
    c'.doneTotal = c.doneTotal + 1 ∧
    c'.finished.Perm (c.finished ++ [jobRes]) := by
  obtain ⟨ch, p, rest, data, data1, hl, hb, hh, ha, hc'⟩ :=
    processFinishedJob_ok c c' jobRes workerID h
  obtain ⟨hW, hT⟩ := hinv.2 p data hh
  have hpend : c.pending p jobRes.ID = rest.count p + 1 := by
    simp [Coordinator.pending, hl, hb]
  have hlt : data.jobsDoneCnt < data.jobs.length := by
    rw [← WriterInv_delivered data hW, ← List.length_map data.jobs (fun j => j.ID)]
    refine length_lt_of_count_lt _ _ (fun x => ?_) jobRes.ID ?_
    · have := hT x; omega
    · have := hT jobRes.ID; omega
  obtain ⟨_, _, hcnt, _, _, hu1⟩ := account_spec data data1 jobRes hW hlt ha
  subst hc'
  refine ⟨rfl, ⟨p, data, data1, hh, rfl, hcnt, hu1⟩, ?_, ?_⟩
  · exact sum_map_set (fun d => d.jobsDoneCnt) c.heap p data data1 hh hcnt
  · refine flatten_map_set (fun d => d.updates.filterMap (fun u => u.JobFinished)) c.heap p
      data data1 jobRes hh ?_
    by_cases hlast : data.jobsDoneCnt + 1 = data.jobs.length <;>
      simp [hu1, hlast, List.filterMap_append]

theorem located_congr (s s' : Scheduler) (h : ∀ id, LocateArtifact s' id = LocateArtifact s id)
    (job : PendingJob) : job.located s' = job.located s := by
  simp only [PendingJob.located, h]

/-- The second loop of `Heartbeat`, when it returns, from a state that
satisfies the invariant: the jobs `picked` were taken from the head of the
queue; the answers of `LocateArtifact` are the same at the end as at the start;
`JobsToRun` has been assigned, under its own id, the spec of each picked job
that is not located, and nothing else; each picked job that is located
has been counted as done once, with one `JobFinished` update carrying
`JobResult{ID: id}`; and the entry of `JobsToRun` under the id of a picked job
that is not located is the spec of the last such job with that id. -/
theorem Heartbeat_pick_spec (workerID : WorkerID) (ctx : Nat → Bool) (choice : Nat → Nat)
    (n i : Nat) (c c' : Coordinator) (jobs : GoMap ID JobSpec) (resp : HeartbeatResponse)
    (hinv : CoordInv c)
    (h : Heartbeat.pick workerID ctx choice n i c jobs = (.ok resp, c')) :
    ∃ picked : List PendingJob,
      c.scheduler.jobsQue.buf = picked ++ c'.scheduler.jobsQue.buf ∧ picked.length ≤ n ∧
      (∀ id, LocateArtifact c'.scheduler id = LocateArtifact c.scheduler id) ∧
      (∀ id, GoMap.load resp.JobsToRun id = GoMap.load jobs id ∨
        ∃ job ∈ picked, job.located c.scheduler = false ∧ job.Job.ID = id ∧
          GoMap.load resp.JobsToRun id = some job.Job) ∧
      (∀ job ∈ picked, job.located c.scheduler = false →
        ∃ job' ∈ picked, job'.located c.scheduler = false ∧ job'.Job.ID = job.Job.ID ∧
          GoMap.load resp.JobsToRun job.Job.ID = some job'.Job) ∧
      c'.doneTotal = c.doneTotal + (picked.filter (fun job => job.located c.scheduler)).length ∧
      c'.finished.Perm (c.finished ++
        (picked.filter (fun job => job.located c.scheduler)).map
          (fun job => ({ ID := job.Job.ID } : JobResult))) ∧
      (∀ pre job post, picked = pre ++ job :: post → job.located c.scheduler = false →
        (∀ j ∈ post, j.located c.scheduler = false → j.Job.ID ≠ job.Job.ID) →
        GoMap.load resp.JobsToRun job.Job.ID = some job.Job) := by
  induction n generalizing i c jobs with
  | zero =>
    simp only [Heartbeat.pick, Prod.mk.injEq, Exec.ok.injEq] at h
    obtain ⟨h1, h2⟩ := h
    subst h1 h2
    exact ⟨[], by simp⟩
  | succ n ih =>
    unfold Heartbeat.pick at h
    rcases hpk : PickJob c.scheduler (ctx i) workerID (choice i) with ⟨(_ | job) | _ | _, s⟩
    · rw [hpk] at h
      simp only [Prod.mk.injEq, Exec.ok.injEq] at h
      obtain ⟨h1, h2⟩ := h
      subst h1 h2
      have hs := PickJob_none _ _ _ _ _ hpk
      subst hs
      exact ⟨[], by simp⟩
    · rw [hpk] at h
      simp only at h
      obtain ⟨hbuf, hlocs⟩ := PickJob_some _ _ _ _ _ _ hpk
      have hsame : ∀ id, LocateArtifact s id = LocateArtifact c.scheduler id := by
        intro id; simp only [LocateArtifact, hlocs]
      rcases hloc : LocateArtifact s job.Job.ID with ⟨wID, _ | _⟩
      · -- not located: the job is put into `JobsToRun`
        rw [hloc] at h
        simp only at h
        have hjob : job.located c.scheduler = false := by
          simp only [PendingJob.located, ← hsame, hloc]
        obtain ⟨picked, p1, p2, p3, p4, p5, p6, p7, p8⟩ :=
          ih (i + 1) { c with scheduler := s } (GoMap.store jobs job.Job.ID job.Job)
            (CoordInv_scheduler c s hinv) h
        have hle := located_congr c.scheduler s hsame
        simp only [hle] at p4 p5 p6 p7 p8
        have hhead : ∀ id, GoMap.load resp.JobsToRun id = GoMap.load jobs id ∨
            ∃ job' ∈ job :: picked, job'.located c.scheduler = false ∧ job'.Job.ID = id ∧
              GoMap.load resp.JobsToRun id = some job'.Job := by
          intro id
          rcases p4 id with e | ⟨job', m1, m2, m3, m4⟩
          · rw [GoMap.load_store] at e
            by_cases hid : id = job.Job.ID
            · rw [if_pos hid] at e
              exact Or.inr ⟨job, List.mem_cons_self _ _, hjob, hid.symm, e⟩
            · rw [if_neg hid] at e
              exact Or.inl e
          · exact Or.inr ⟨job', List.mem_cons_of_mem _ m1, m2, m3, m4⟩
        refine ⟨job :: picked, ?_, ?_, ?_, hhead, ?_, ?_, ?_, ?_⟩
        rotate_right
        · intro pre job0 post hsplit hnot hlast
          cases pre with
          | nil =>
            simp only [List.nil_append, List.cons.injEq] at hsplit
            obtain ⟨e1, e2⟩ := hsplit
            subst e1 e2
            rcases p4 job.Job.ID with e | ⟨job', m1, m2, m3, _⟩
            · rw [GoMap.load_store_self] at e
              exact e
            · exact absurd m3 (hlast job' m1 m2)
          | cons x pre =>
            simp only [List.cons_append, List.cons.injEq] at hsplit
            exact p8 pre job0 post hsplit.2 hnot hlast
        · rw [hbuf, List.cons_append]
          exact congrArg _ p1
        · simp only [List.length_cons]; omega
        · intro id; rw [p3 id]; exact hsame id
        · intro job0 hmem hnot
          rcases List.mem_cons.mp hmem with e | hmem
          · subst e
            rcases hhead job0.Job.ID with e | r
            · rcases p4 job0.Job.ID with e' | ⟨job', m1, m2, m3, m4⟩
              · rw [GoMap.load_store_self] at e'
                exact ⟨job0, List.mem_cons_self _ _, hjob, rfl, e'⟩
              · exact ⟨job', List.mem_cons_of_mem _ m1, m2, m3, m4⟩
            · exact r
          · obtain ⟨job', m1, m2, m3, m4⟩ := p5 job0 hmem hnot
            exact ⟨job', List.mem_cons_of_mem _ m1, m2, m3, m4⟩
        · rw [List.filter_cons_of_neg (by rw [hjob]; exact Bool.false_ne_true)]
          exact p6
        · rw [List.filter_cons_of_neg (by rw [hjob]; exact Bool.false_ne_true)]
          exact p7
      · -- located: the job is completed at once
        rw [hloc] at h
        simp only at h
        have hjob : job.located c.scheduler = true := by
          simp only [PendingJob.located, ← hsame, hloc]
        rcases hp : processFinishedJob { c with scheduler := s } { ID := job.Job.ID } wID with
          ⟨_ | _ | _, c2⟩
        · rw [hp] at h
          simp only at h
          have hinv1 := CoordInv_scheduler c s hinv
          obtain ⟨e1, _, e3, e4⟩ := processFinishedJob_effect _ c2 _ wID hinv1 hp
          have hsame2 : ∀ id, LocateArtifact c2.scheduler id = LocateArtifact c.scheduler id := by
            intro id
            rw [e1, ← hsame id]
            exact OnJobComplete_same s wID _ job.Job.ID hloc id
          have hq2 : c2.scheduler.jobsQue = s.jobsQue := by
            rw [e1]; exact (OnJobComplete_frame s wID _ _).2.2.2
          obtain ⟨picked, p1, p2, p3, p4, p5, p6, p7, p8⟩ :=
            ih (i + 1) c2 jobs (processFinishedJob_inv _ c2 _ wID hinv1 hp) h
          have hle := located_congr c.scheduler c2.scheduler hsame2
          simp only [hle] at p4 p5 p6 p7 p8
          refine ⟨job :: picked, ?_, ?_, ?_, ?_, ?_, ?_, ?_, ?_⟩
          rotate_right
          · intro pre job0 post hsplit hnot hlast
            cases pre with
            | nil =>
              simp only [List.nil_append, List.cons.injEq] at hsplit
              obtain ⟨e1, e2⟩ := hsplit
              subst e1 e2
              rw [hjob] at hnot; cases hnot
            | cons x pre =>
              simp only [List.cons_append, List.cons.injEq] at hsplit
              exact p8 pre job0 post hsplit.2 hnot hlast
          · rw [hbuf, List.cons_append, ← hq2]
            exact congrArg _ p1
          · simp only [List.length_cons]; omega
          · intro id; rw [p3 id]; exact hsame2 id
          · intro id
            rcases p4 id with e | ⟨job', m1, m2, m3, m4⟩
            · exact Or.inl e
            · exact Or.inr ⟨job', List.mem_cons_of_mem _ m1, m2, m3, m4⟩
          · intro job0 hmem hnot
            rcases List.mem_cons.mp hmem with e | hmem
            · subst e
              rw [hjob] at hnot; cases hnot
            · obtain ⟨job', m1, m2, m3, m4⟩ := p5 job0 hmem hnot
              exact ⟨job', List.mem_cons_of_mem _ m1, m2, m3, m4⟩
          · have p6' : c'.doneTotal = c2.doneTotal
                + (picked.filter (fun job => job.located c.scheduler)).length := p6
            have e3' : c2.doneTotal = c.doneTotal + 1 := e3
            rw [List.filter_cons_of_pos hjob, List.length_cons, p6', e3']
            exact (show ∀ a b : Nat, a + 1 + b = a + (b + 1) by omega) _ _
          · have p7' : c'.finished.Perm (c2.finished ++
                (picked.filter (fun job => job.located c.scheduler)).map
                  (fun job => ({ ID := job.Job.ID } : JobResult))) := p7
            rw [List.filter_cons_of_pos hjob, List.map_cons]
            refine p7'.trans ?_
            have e4' : c2.finished.Perm (c.finished ++ [({ ID := job.Job.ID } : JobResult)]) := e4
            refine (List.Perm.append_right _ e4').trans ?_
            rw [List.append_assoc]
            rfl
        · rw [hp] at h; simp at h
        · rw [hp] at h; simp at h
    · rw [hpk] at h; simp at h
    · rw [hpk] at h; simp at h

/-- C8, where it fails: two builds have a job with the id `a`, whose input
`x.txt` is the file `f1` in one build and `f2` in the other; both are signalled
and a worker with two free slots sends a heartbeat. Both jobs are picked, none
is located, and `jobs_to_run` holds one entry, the spec of the second job: the
first picked job does not appear in `jobs_to_run`, and the queue is empty. -/
theorem Heartbeat_short_circuit_counterexample :
    Coordinator.run id (NewCoordinator ⟨[], []⟩) Example.sameIdRun = some Example.sameIdState ∧
    Example.sameIdState.scheduler.jobsQue.buf.map (fun job => job.Job)
      = [{ SourceFiles := [(⟨"f1"⟩, "x.txt")], Artifacts := [], Job := Example.jobA },
         { SourceFiles := [(⟨"f2"⟩, "x.txt")], Artifacts := [], Job := Example.jobA }] ∧
    (∀ job ∈ Example.sameIdState.scheduler.jobsQue.buf,
      job.located Example.sameIdState.scheduler = false) ∧
    (Heartbeat Example.sameIdState Example.twoSlots (fun _ => false) (fun _ => 0)).1
      = .ok { JobsToRun :=
          [(⟨"a"⟩, { SourceFiles := [(⟨"f2"⟩, "x.txt")], Artifacts := [], Job := Example.jobA })] } ∧
    (Heartbeat Example.sameIdState Example.twoSlots (fun _ => false)
      (fun _ => 0)).2.scheduler.jobsQue.buf = [] := by
  decide

/-- C8: artifact short-circuit. For a heartbeat served in a state the
coordinator has reached (with `TopSort` giving the jobs back in some order),
let `c1` be the state after the reported results are processed and `picked` the
jobs the second loop takes from the head of the queue. Every picked job whose
artifact is located is absent from `jobs_to_run` and `LocateArtifact` gives
the same answer for it after the heartbeat; it has gone through
`processFinishedJob` with `JobResult{ID: job.id}` (exit code 0): the counters
`jobsDoneCnt` have grown by one for each such job, and the `JobFinished`
updates sent are those sent before plus one with that result for each such
job. Every picked job whose artifact is not located has a spec under its id in
`jobs_to_run`, the spec of a picked job with that id that is not located;
`jobs_to_run` holds nothing but specs of such jobs; and a picked job whose
artifact is not located appears in `jobs_to_run` under its own id unless a job
picked after it in the same heartbeat, not located either, has the same id. The
heartbeat picks at most `FreeSlots` jobs, so with one free slot there is no
such later job. -/
theorem Heartbeat_short_circuit (TopSort : List Job → List Job)
    (hperm : ∀ js, (TopSort js).Perm js) (files : Cache) (ops : List CoordOp)
    (c0 c' : Coordinator) (req : HeartbeatRequest) (ctx : Nat → Bool) (choice : Nat → Nat)
    (resp : HeartbeatResponse)
    (hrun : Coordinator.run TopSort (NewCoordinator files) ops = some c0)
    (h : Heartbeat c0 req ctx choice = (.ok resp, c')) :
    ∃ (c1 : Coordinator) (picked : List PendingJob),
      Heartbeat.finished req.WorkerID req.FinishedJob c0 = (.ok (), c1) ∧
      c1.scheduler.jobsQue.buf = picked ++ c'.scheduler.jobsQue.buf ∧
      (∀ job ∈ picked, job.located c1.scheduler = true →
        GoMap.load resp.JobsToRun job.Job.ID = none ∧
        LocateArtifact c'.scheduler job.Job.ID = LocateArtifact c1.scheduler job.Job.ID) ∧
      (∀ job ∈ picked, job.located c1.scheduler = false →
        ∃ job' ∈ picked, job'.located c1.scheduler = false ∧ job'.Job.ID = job.Job.ID ∧
          GoMap.load resp.JobsToRun job.Job.ID = some job'.Job) ∧
      (∀ id spec, GoMap.load resp.JobsToRun id = some spec →
        ∃ job ∈ picked, job.located c1.scheduler = false ∧ job.Job = spec ∧ spec.ID = id) ∧
      c'.doneTotal
        = c1.doneTotal + (picked.filter (fun job => job.located c1.scheduler)).length ∧
      c'.finished.Perm (c1.finished ++
        (picked.filter (fun job => job.located c1.scheduler)).map
          (fun job => ({ ID := job.Job.ID, ExitCode := 0 } : JobResult))) ∧
      (∀ pre job post, picked = pre ++ job :: post → job.located c1.scheduler = false →
        (∀ j ∈ post, j.located c1.scheduler = false → j.Job.ID ≠ job.Job.ID) →
        GoMap.load resp.JobsToRun job.Job.ID = some job.Job) ∧
      picked.length ≤ req.FreeSlots.toNat := by
  have hinv0 := run_inv TopSort hperm ops _ c0 (NewCoordinator_inv files) hrun
  unfold Heartbeat at h
  rcases hf : Heartbeat.finished req.WorkerID req.FinishedJob c0 with ⟨_ | _ | _, c1⟩
  · rw [hf] at h
    simp only at h
    have hinv1 := Heartbeat_finished_inv _ _ c0 c1 hinv0 hf
    obtain ⟨picked, p1, p2, p3, p4, p5, p6, p7, p8⟩ :=
      Heartbeat_pick_spec _ _ _ _ _ c1 c' [] resp hinv1 h
    refine ⟨c1, picked, rfl, p1, fun job hmem hloc => ⟨?_, p3 _⟩, p5,
      fun id spec hl => ?_, p6, p7, p8, p2⟩
    · rcases p4 job.Job.ID with e | ⟨job', _, m2, m3, _⟩
      · exact e
      · simp only [PendingJob.located, m3] at m2
        simp only [PendingJob.located] at hloc
        rw [hloc] at m2; cases m2
    · rcases p4 id with e | ⟨job', m1, m2, m3, m4⟩
      · rw [hl] at e; cases e
      · rw [hl] at m4
        have e : spec = job'.Job := Option.some.inj m4
        exact ⟨job', m1, m2, e.symm, by rw [e]; exact m3⟩
  · rw [hf] at h; simp at h
  · rw [hf] at h; simp at h

/-- C8 at a job whose artifact worker `w1` holds: the heartbeat of worker `w2`
picks the job and gets no job to run, the location stays `w1`, and the build
of the job has its `JobFinished` and `BuildFinished`. -/
theorem Heartbeat_short_circuit_witness :
    (Heartbeat Example.locatedState Example.idleHeartbeat (fun _ => false) (fun _ => 0)).1
      = .ok { JobsToRun := [] } ∧
    LocateArtifact (Heartbeat Example.locatedState Example.idleHeartbeat (fun _ => false)
      (fun _ => 0)).2.scheduler ⟨"a"⟩ = ("w1", true) ∧
    (Heartbeat Example.locatedState Example.idleHeartbeat (fun _ => false)
      (fun _ => 0)).2.heap.map (fun d => d.updates)
      = [[{ JobFinished := some { ID := ⟨"a"⟩ } }, { BuildFinished := some {} }]] ∧
    ∃ (c1 : Coordinator) (picked : List PendingJob),
      c1.scheduler.jobsQue.buf = picked ++ (Heartbeat Example.locatedState Example.idleHeartbeat
        (fun _ => false) (fun _ => 0)).2.scheduler.jobsQue.buf ∧
      (Heartbeat Example.locatedState Example.idleHeartbeat (fun _ => false)
        (fun _ => 0)).2.doneTotal
        = c1.doneTotal + (picked.filter (fun job => job.located c1.scheduler)).length :=
  ⟨by decide, by decide, by decide,
    (Heartbeat_short_circuit id (fun _ => List.Perm.refl _) ⟨[], []⟩ Example.locatedRun
      Example.locatedState
      (Heartbeat Example.locatedState Example.idleHeartbeat (fun _ => false) (fun _ => 0)).2
      Example.idleHeartbeat (fun _ => false) (fun _ => 0) { JobsToRun := [] }
      (by decide) (Prod.ext (by decide) rfl)).elim
      fun c1 h1 => h1.elim fun picked hp => ⟨c1, picked, hp.2.1, hp.2.2.2.2.2.1⟩⟩

/-! ## Claims on `StartBuild` -/

theorem Cache_Get_none_iff (c : Cache) (id : ID) : c.Get id = none ↔ id ∉ c.committed := by
  unfold Cache.Get
  by_cases h : id ∈ c.committed
  · simp [h]
  · simp [h]

theorem Cache_Get_unlock (c c1 : Cache) (id : ID) (path : String) (h : c.Get id = some (path, c1)) :
    (c1.unlock id).committed = c.committed ∧
    ∀ fid, (c1.unlock id).inUseCount fid = c.inUseCount fid := by
  unfold Cache.Get at h
  by_cases hc : id ∈ c.committed
  · rw [if_pos hc] at h
    simp only [Option.some.injEq, Prod.mk.injEq] at h
    obtain ⟨_, rfl⟩ := h
    refine ⟨rfl, fun fid => ?_⟩
    simp only [Cache.unlock, Cache.inUseCount]
    by_cases hf : fid = id
    · subst hf
      simp only [GoMap.load_store_self, Option.getD_some, Nat.add_sub_cancel]
    · rw [GoMap.load_store_ne _ _ _ _ hf, GoMap.load_store_ne _ _ _ _ hf]
  · rw [if_neg hc] at h
    cases h

/-- What the probing loop computes: the ids not committed are appended to
`needFiles` in iteration order, and the cache keeps its entries and counts. -/
theorem probe_spec (l : List (ID × String)) (m : GoMap String ID) (need : List ID)
    (files : Cache) :
    (StartBuild.probe l m need files).2.1
      = need ++ (GoMap.keys l).filter (fun fid => decide (fid ∉ files.committed)) ∧
    (StartBuild.probe l m need files).2.2.committed = files.committed ∧
    ∀ fid, (StartBuild.probe l m need files).2.2.inUseCount fid = files.inUseCount fid := by
  induction l generalizing m need files with
  | nil => simp [StartBuild.probe, GoMap.keys]
  | cons e l ih =>
    obtain ⟨fileID, fileName⟩ := e
    simp only [StartBuild.probe]
    cases hg : files.Get fileID with
    | none =>
      have hn := (Cache_Get_none_iff files fileID).mp hg
      obtain ⟨h1, h2, h3⟩ := ih (GoMap.store m fileName fileID) (need ++ [fileID]) files
      refine ⟨?_, h2, h3⟩
      simp [h1, GoMap.keys, List.filter_cons, hn]
    | some r =>
      obtain ⟨path, files1⟩ := r
      have hin : fileID ∈ files.committed := by
        by_contra hn
        rw [(Cache_Get_none_iff files fileID).mpr hn] at hg
        cases hg
      obtain ⟨hc, hu⟩ := Cache_Get_unlock files files1 fileID path hg
      obtain ⟨h1, h2, h3⟩ := ih (GoMap.store m fileName fileID) need (files1.unlock fileID)
      refine ⟨?_, h2.trans hc, fun fid => (h3 fid).trans (hu fid)⟩
      simp [h1, hc, GoMap.keys, List.filter_cons, hin]

theorem StartBuild_files (TopSort : List Job → List Job) (c : Coordinator) (id : ID)
    (req : BuildRequest) (w : Option MyStatusWriter) :
    (StartBuild TopSort c id req w).2.files
      = (StartBuild.probe req.Graph.SourceFiles [] [] c.files).2.2 := by
  unfold StartBuild
  simp only
  rcases StartBuild.register c.heap.length req.Graph.Jobs c.buildByJob with ⟨_ | _ | _, m⟩
  · cases w with
    | none => rfl
    | some sw =>
      simp only
      rcases sw.Started _ with ⟨_ | _, sw1⟩ <;> rfl
  · rfl
  · rfl

/-- The registering loop returns when the channel of every job id has room for
the pointers the loop sends on it. -/
theorem register_returns (p : Nat) (js : List Job) (m : GoMap ID (Chan Nat))
    (hroom : ∀ jid, ((GoMap.load m jid).getD (Chan.make 10)).closed = false ∧
      ((GoMap.load m jid).getD (Chan.make 10)).buf.length + (js.map (fun j => j.ID)).count jid
        ≤ ((GoMap.load m jid).getD (Chan.make 10)).cap) :
    ∃ m', StartBuild.register p js m = (.ok (), m') := by
  induction js generalizing m with
  | nil => exact ⟨m, rfl⟩
  | cons j rest ih =>
    obtain ⟨hopen, hlen⟩ := hroom j.ID
    simp only [List.map_cons, List.count_cons_self] at hlen
    have hsend : ((GoMap.load m j.ID).getD (Chan.make 10)).send p
        = .ok { (GoMap.load m j.ID).getD (Chan.make 10) with
            buf := ((GoMap.load m j.ID).getD (Chan.make 10)).buf ++ [p] } := by
      unfold Chan.send
      rw [if_neg (by rw [hopen]; exact Bool.false_ne_true), if_pos (by omega)]
    simp only [StartBuild.register, hsend]
    apply ih
    intro jid
    by_cases hj : jid = j.ID
    · subst hj
      simp only [GoMap.load_store_self, Option.getD_some, List.length_append,
        List.length_singleton]
      exact ⟨hopen, by omega⟩
    · rw [GoMap.load_store_ne _ _ _ _ hj]
      obtain ⟨h1, h2⟩ := hroom jid
      refine ⟨h1, ?_⟩
      simp only [List.map_cons] at h2
      rw [List.count_cons_of_ne (fun e => hj e)] at h2
      exact h2

/-- C11: missing files. Whatever the outcome of `StartBuild`, the file cache
keeps its entries and every in-use count. When the request's `SourceFiles` is a
map (no id twice) and the writer is fresh, a `StartBuild` that returns returns
nil and has written one `BuildStarted` line, whose `MissingFiles` has no id
twice and holds exactly the ids of `SourceFiles` on which `Get` fails; and it
does return when the channel of every job id has room for the pointers sent on
it. -/
theorem StartBuild_missing_files (TopSort : List Job → List Job) (c : Coordinator) (id : ID)
    (req : BuildRequest) (sw : MyStatusWriter)
    (hmap : (GoMap.keys req.Graph.SourceFiles).Nodup)
    (hfresh : sw.startedWriting = false) :
    ((StartBuild TopSort c id req (some sw)).2.files.committed = c.files.committed ∧
      ∀ fid, (StartBuild TopSort c id req (some sw)).2.files.inUseCount fid
        = c.files.inUseCount fid) ∧
    (∀ (e : GoError) (c' : Coordinator), StartBuild TopSort c id req (some sw) = (.ok e, c') →
      ∃ (missing : List ID) (data : buildData) (sw' : MyStatusWriter),
        e = none ∧ c'.heap[c.heap.length]? = some data ∧ data.stWriter = some sw' ∧
        sw'.w = sw.w ++ [Frame.started { ID := id, MissingFiles := missing }] ∧
        missing.Nodup ∧
        ∀ fid, fid ∈ missing ↔
          fid ∈ GoMap.keys req.Graph.SourceFiles ∧ c.files.Get fid = none) ∧
    ((∀ jid, ((GoMap.load c.buildByJob jid).getD (Chan.make 10)).closed = false ∧
        ((GoMap.load c.buildByJob jid).getD (Chan.make 10)).buf.length
          + (req.Graph.Jobs.map (fun j => j.ID)).count jid
          ≤ ((GoMap.load c.buildByJob jid).getD (Chan.make 10)).cap) →
      ∃ c', StartBuild TopSort c id req (some sw) = (.ok none, c')) := by
  obtain ⟨h1, h2, h3⟩ := probe_spec req.Graph.SourceFiles [] [] c.files
  refine ⟨by rw [StartBuild_files]; exact ⟨h2, h3⟩, fun e c' h => ?_, fun hroom => ?_⟩
  swap
  · obtain ⟨m', hm⟩ := register_returns c.heap.length req.Graph.Jobs c.buildByJob hroom
    unfold StartBuild
    simp only [hm, MyStatusWriter.Started, hfresh, Bool.not_false, if_true]
    exact ⟨_, rfl⟩
  revert h
  unfold StartBuild
  simp only
  rcases StartBuild.register c.heap.length req.Graph.Jobs c.buildByJob with ⟨_ | _ | _, m⟩
  · simp only [MyStatusWriter.Started, hfresh, Bool.not_false, if_true, Prod.mk.injEq,
      Exec.ok.injEq]
    rintro ⟨rfl, rfl⟩
    refine ⟨(StartBuild.probe req.Graph.SourceFiles [] [] c.files).2.1,
      buildData.mk (TopSort req.Graph.Jobs) (some (MyStatusWriter.mk sw.upds
        (sw.w ++ [Frame.started (BuildStarted.mk id
          (StartBuild.probe req.Graph.SourceFiles [] [] c.files).2.1)])
        true sw.buildFinished sw.buildStarted sw.closed)) 0
        (StartBuild.probe req.Graph.SourceFiles [] [] c.files).1 id,
      _, rfl, ?_, rfl, rfl, ?_, fun fid => ?_⟩
    · simp
    · rw [h1]
      exact hmap.filter _
    · rw [h1, Cache_Get_none_iff]
      simp
  · intro h
    simp at h
  · intro h
    simp at h

/-- C11 on a request with the files `f1`, in the cache and pinned twice, and
`f2`, not in the cache. -/
theorem StartBuild_missing_files_witness :
    (GoMap.keys Example.requestTwoFiles.Graph.SourceFiles).Nodup ∧
    MyStatusWriter.new.startedWriting = false ∧
    (StartBuild id (NewCoordinator Example.cacheF1) ⟨"B1"⟩ Example.requestTwoFiles
      (some MyStatusWriter.new)).2.files.inUseCount ⟨"f1"⟩ = 2 ∧
    ∃ (missing : List ID) (data : buildData) (sw' : MyStatusWriter),
      (none : GoError) = none ∧
      (StartBuild id (NewCoordinator Example.cacheF1) ⟨"B1"⟩ Example.requestTwoFiles
        (some MyStatusWriter.new)).2.heap[(NewCoordinator Example.cacheF1).heap.length]?
          = some data ∧
      data.stWriter = some sw' ∧
      sw'.w = MyStatusWriter.new.w ++ [Frame.started { ID := ⟨"B1"⟩, MissingFiles := missing }] ∧
      missing.Nodup ∧
      ∀ fid, fid ∈ missing ↔
        fid ∈ GoMap.keys Example.requestTwoFiles.Graph.SourceFiles ∧
          Example.cacheF1.Get fid = none :=
  ⟨by decide, rfl,
    ((StartBuild_missing_files id (NewCoordinator Example.cacheF1) ⟨"B1"⟩
      Example.requestTwoFiles MyStatusWriter.new (by decide) rfl).1.2 ⟨"f1"⟩).trans (by decide),
    (StartBuild_missing_files id (NewCoordinator Example.cacheF1) ⟨"B1"⟩
      Example.requestTwoFiles MyStatusWriter.new (by decide) rfl).2.1 none
      (StartBuild id (NewCoordinator Example.cacheF1) ⟨"B1"⟩ Example.requestTwoFiles
        (some MyStatusWriter.new)).2 (Prod.ext (by decide) rfl)⟩

/-! ## The status writer -/

theorem Updated_closed (w : MyStatusWriter) (u : StatusUpdate) (h : w.closed = true) :
    w.Updated u = (.ok (some "update on closed writer"), w) := by
  unfold MyStatusWriter.Updated
  rw [if_pos h]

theorem Updated_full (w : MyStatusWriter) (u : StatusUpdate) (h : w.closed = false)
    (hch : w.upds.closed = false) (hfull : ¬ w.upds.buf.length < w.upds.cap) :
    w.Updated u = (.blocked, w) := by
  unfold MyStatusWriter.Updated Chan.send
  rw [if_neg (by rw [h]; exact Bool.false_ne_true),
    if_neg (by rw [hch]; exact Bool.false_ne_true), if_neg hfull]

/-- An `Updated` on a writer that is not closed and whose channel has room:
the update goes to the tail of the channel, `buildFinished` is set by a
terminal update, and the channel is closed when both flags are set. -/
theorem Updated_room (w : MyStatusWriter) (u : StatusUpdate) (h : w.closed = false)
    (hch : w.upds.closed = false) (hroom : w.upds.buf.length < w.upds.cap) :
    (w.Updated u).1 = .ok none ∧
    (w.Updated u).2.upds.buf = w.upds.buf ++ [u] ∧
    (w.Updated u).2.upds.taken = w.upds.taken ∧
    (w.Updated u).2.upds.cap = w.upds.cap ∧
    (w.Updated u).2.w = w.w ∧
    (w.Updated u).2.startedWriting = w.startedWriting ∧
    (w.Updated u).2.buildStarted = w.buildStarted ∧
    (w.Updated u).2.buildFinished = (w.buildFinished || u.isTerminal) ∧
    (w.Updated u).2.closed = (w.buildStarted && (w.buildFinished || u.isTerminal)) ∧
    (w.Updated u).2.upds.closed = (w.buildStarted && (w.buildFinished || u.isTerminal)) := by
  obtain ⟨⟨buf, cap, cl, taken⟩, fr, sW, bF, bS, c⟩ := w
  simp only at h hch hroom
  subst h hch
  unfold MyStatusWriter.Updated Chan.send Chan.close StatusUpdate.isTerminal
  simp only [Bool.false_eq_true, if_false, if_pos hroom]
  cases bS <;> cases bF <;> cases hb : u.BuildFailed.isSome <;> cases hf : u.BuildFinished.isSome <;>
    simp [hb, hf]

/-- One step on a writer whose flags agree: the flags agree afterwards, the
step does not panic, a step that waits changes nothing, `startedWriting` and
`closed` stay set, and the channel is closed only in a step that sets
`closed`. -/
theorem WriterOp_exec_flags (w : MyStatusWriter) (op : WriterOp) (h : w.flagsAgree) :
    (op.exec w).2.flagsAgree ∧ (∀ msg, (op.exec w).1 ≠ .crash msg) ∧
    ((op.exec w).1 = .blocked → (op.exec w).2 = w) ∧
    (op.exec w).2.upds.cap = w.upds.cap ∧
    (w.startedWriting = true → (op.exec w).2.startedWriting = true) ∧
    (w.closed = true → (op.exec w).2.closed = true) ∧
    ((op.exec w).2.upds.closed ≠ w.upds.closed →
      w.closed = false ∧ (op.exec w).2.closed = true) := by
  obtain ⟨h1, h2⟩ := h
  cases op with
  | started rsp =>
    simp only [WriterOp.exec, MyStatusWriter.Started, MyStatusWriter.flagsAgree]
    cases hs : w.startedWriting <;> simp [h1, h2, hs]
  | updated u =>
    simp only [WriterOp.exec]
    cases hc : w.closed with
    | true =>
      rw [Updated_closed w u hc]
      exact ⟨⟨h1, h2⟩, by simp [Exec.void], fun _ => rfl, rfl, id, fun _ => hc,
        fun hne => absurd rfl hne⟩
    | false =>
      have hch : w.upds.closed = false := by rw [h2, hc]
      by_cases hroom : w.upds.buf.length < w.upds.cap
      · obtain ⟨e1, _, _, e4, _, e6, e7, e8, e9, e10⟩ := Updated_room w u hc hch hroom
        refine ⟨⟨by rw [e9, e7, e8], by rw [e10, e9]⟩, ?_, ?_, e4, ?_, ?_, ?_⟩
        · intro msg; rw [e1]; simp [Exec.void]
        · rw [e1]; simp [Exec.void]
        · intro hs; rw [e6]; exact hs
        · intro hcl; cases hcl
        · intro _; refine ⟨rfl, ?_⟩
          rw [e10, hch] at *
          rw [e9]
          cases hb : (w.buildStarted && (w.buildFinished || u.isTerminal))
          · simp [hb] at *
          · rfl
      · rw [Updated_full w u hc hch hroom]
        exact ⟨⟨h1, h2⟩, by simp [Exec.void], fun _ => rfl, rfl, id,
          (fun e => Bool.noConfusion e), fun hne => absurd rfl hne⟩
  | markStarted =>
    obtain ⟨⟨buf, cap, cl, taken⟩, fr, sW, bF, bS, c⟩ := w
    simp only at h1 h2
    subst h2
    simp only [WriterOp.exec, BuildHandler.markStarted, Chan.close, MyStatusWriter.flagsAgree]
    cases bS <;> cases bF <;> cases cl <;>
      first
      | exact absurd h1 (by decide)
      | simp [Exec.void]
  | recvUpdate writeOk =>
    obtain ⟨⟨buf, cap, cl, taken⟩, fr, sW, bF, bS, c⟩ := w
    simp only at h1 h2
    subst h2
    simp only [WriterOp.exec, BuildHandler.recvUpdate, Chan.recv, MyStatusWriter.flagsAgree]
    cases buf with
    | nil =>
      cases bS <;> cases bF <;> cases cl <;>
        first
        | exact absurd h1 (by decide)
        | simp [Exec.void]
    | cons a rest =>
      cases bS <;> cases bF <;> cases cl <;>
        first
        | exact absurd h1 (by decide)
        | simp [Exec.void]

theorem new_flagsAgree : MyStatusWriter.new.flagsAgree := ⟨rfl, rfl⟩

theorem run_flagsAgree (w : MyStatusWriter) (ops : List WriterOp) (h : w.flagsAgree) :
    (w.run ops).flagsAgree ∧ (w.run ops).upds.cap = w.upds.cap ∧
    (w.startedWriting = true → (w.run ops).startedWriting = true) ∧
    (w.closed = true → (w.run ops).closed = true) := by
  induction ops generalizing w with
  | nil => exact ⟨h, rfl, id, id⟩
  | cons op ops ih =>
    obtain ⟨s1, _, _, s4, s5, s6, _⟩ := WriterOp_exec_flags w op h
    obtain ⟨i1, i2, i3, i4⟩ := ih (op.exec w).2 s1
    exact ⟨i1, i2.trans s4, fun e => i3 (s5 e), fun e => i4 (s6 e)⟩

theorem run_append (w : MyStatusWriter) (ops ops' : List WriterOp) :
    w.run (ops ++ ops') = (w.run ops).run ops' := by
  induction ops generalizing w with
  | nil => rfl
  | cons op ops ih => exact ih _

/-- `Updated` writes nothing to the response and leaves `startedWriting`
alone. -/
theorem Updated_frame (w : MyStatusWriter) (u : StatusUpdate) :
    (w.Updated u).2.w = w.w ∧ (w.Updated u).2.startedWriting = w.startedWriting := by
  obtain ⟨⟨buf, cap, cl, taken⟩, fr, sW, bF, bS, c⟩ := w
  unfold MyStatusWriter.Updated Chan.send Chan.close
  by_cases hroom : buf.length < cap <;>
    cases c <;> cases cl <;> cases bS <;> cases bF <;>
    cases hb : u.BuildFailed.isSome <;> cases hf : u.BuildFinished.isSome <;>
    simp [hroom, hb, hf]

/-- No step on a writer resets `startedWriting`. -/
theorem WriterOp_exec_startedWriting (w : MyStatusWriter) (op : WriterOp)
    (h : w.startedWriting = true) : (op.exec w).2.startedWriting = true := by
  cases op with
  | started rsp => simp [WriterOp.exec, MyStatusWriter.Started, h]
  | updated u => exact (Updated_frame w u).2.trans h
  | markStarted =>
    obtain ⟨⟨buf, cap, cl, taken⟩, fr, sW, bF, bS, c⟩ := w
    simp only at h
    subst h
    simp only [WriterOp.exec, BuildHandler.markStarted, Chan.close]
    cases bF <;> cases c <;> cases cl <;> simp
  | recvUpdate writeOk =>
    obtain ⟨⟨buf, cap, cl, taken⟩, fr, sW, bF, bS, c⟩ := w
    simp only at h
    subst h
    simp only [WriterOp.exec, BuildHandler.recvUpdate, Chan.recv]
    cases buf with
    | nil => cases cl <;> simp
    | cons a rest => simp

theorem run_startedWriting (w : MyStatusWriter) (ops : List WriterOp)
    (h : w.startedWriting = true) : (w.run ops).startedWriting = true := by
  induction ops generalizing w with
  | nil => exact h
  | cons op ops ih => exact ih _ (WriterOp_exec_startedWriting w op h)

/-- C12: `Started` succeeds exactly once. On a writer on which nothing was
started, `Started` returns nil and appends one `BuildStarted` line to the
response; after that, whatever steps are taken on the writer, every `Started`
returns an error and leaves the writer, the response included, as it was. -/
theorem Started_exactly_once (w : MyStatusWriter) (rsp : BuildStarted)
    (hfresh : w.startedWriting = false) :
    (w.Started rsp).1 = none ∧
    (w.Started rsp).2.w = w.w ++ [Frame.started rsp] ∧
    ∀ (ops : List WriterOp) (rsp' : BuildStarted),
      ((w.Started rsp).2.run ops).Started rsp'
        = (some "started after failed", (w.Started rsp).2.run ops) := by
  have h1 : w.Started rsp
      = (none, { w with startedWriting := true, w := w.w ++ [Frame.started rsp] }) := by
    simp [MyStatusWriter.Started, hfresh]
  refine ⟨by rw [h1], by rw [h1], fun ops rsp' => ?_⟩
  have h2 : ((w.Started rsp).2.run ops).startedWriting = true :=
    run_startedWriting _ ops (by rw [h1])
  generalize (w.Started rsp).2.run ops = w2 at h2
  simp [MyStatusWriter.Started, h2]

/-- C12 on the writer the handler makes: the first `Started` writes the line,
and after the steps of `Example.writerRun`, which hold a second `Started`, one
more `Started` fails. -/
theorem Started_exactly_once_witness :
    MyStatusWriter.new.startedWriting = false ∧
    (MyStatusWriter.new.Started { ID := ⟨"B1"⟩, MissingFiles := [⟨"f2"⟩] }).2.w
      = [Frame.started { ID := ⟨"B1"⟩, MissingFiles := [⟨"f2"⟩] }] ∧
    (((MyStatusWriter.new.Started { ID := ⟨"B1"⟩, MissingFiles := [⟨"f2"⟩] }).2.run
        Example.writerRun).Started { ID := ⟨"B1"⟩, MissingFiles := [] }).1
      = some "started after failed" :=
  ⟨rfl,
    (Started_exactly_once MyStatusWriter.new { ID := ⟨"B1"⟩, MissingFiles := [⟨"f2"⟩] } rfl).2.1,
    congrArg Prod.fst
      ((Started_exactly_once MyStatusWriter.new { ID := ⟨"B1"⟩, MissingFiles := [⟨"f2"⟩] }
        rfl).2.2 Example.writerRun { ID := ⟨"B1"⟩, MissingFiles := [] })⟩

theorem accepted_cons (w : MyStatusWriter) (op : WriterOp) (ops : List WriterOp) :
    w.accepted (op :: ops) = w.accepted [op] ++ (op.exec w).2.accepted ops := by
  cases op <;> simp [MyStatusWriter.accepted, WriterOp.exec]

/-- One step on a writer whose flags agree: the values sent on the channel so
far grow by the update the step accepted, if it accepted one, and the updates
written to the response stay a subsequence of the values received from the
channel. -/
theorem WriterOp_exec_sent (w : MyStatusWriter) (op : WriterOp) (h : w.flagsAgree) :
    (op.exec w).2.upds.sent = w.upds.sent ++ w.accepted [op] ∧
    ((w.w.filterMap Frame.updateOf).Sublist w.upds.taken →
      ((op.exec w).2.w.filterMap Frame.updateOf).Sublist (op.exec w).2.upds.taken) := by
  obtain ⟨h1, h2⟩ := h
  cases op with
  | started rsp =>
    simp only [WriterOp.exec, MyStatusWriter.Started, MyStatusWriter.accepted]
    cases hs : w.startedWriting <;> simp [Frame.updateOf]
  | updated u =>
    simp only [WriterOp.exec, MyStatusWriter.accepted, List.append_nil]
    cases hc : w.closed with
    | true =>
      rw [Updated_closed w u hc]
      simp
    | false =>
      have hch : w.upds.closed = false := by rw [h2, hc]
      by_cases hroom : w.upds.buf.length < w.upds.cap
      · obtain ⟨e1, e2, e3, _, e5, _⟩ := Updated_room w u hc hch hroom
        rw [e1, e5, e3]
        simp [Chan.sent, e2, e3]
      · rw [Updated_full w u hc hch hroom]
        simp
  | markStarted =>
    obtain ⟨⟨buf, cap, cl, taken⟩, fr, sW, bF, bS, c⟩ := w
    simp only [WriterOp.exec, BuildHandler.markStarted, Chan.close, MyStatusWriter.accepted]
    cases bF <;> cases c <;> cases cl <;> simp [Chan.sent]
  | recvUpdate writeOk =>
    obtain ⟨⟨buf, cap, cl, taken⟩, fr, sW, bF, bS, c⟩ := w
    simp only [WriterOp.exec, BuildHandler.recvUpdate, Chan.recv, MyStatusWriter.accepted]
    cases buf with
    | nil => cases cl <;> simp [Chan.sent]
    | cons a rest =>
      cases writeOk
      · simp only [Chan.sent, handleUpdated, List.append_assoc, List.singleton_append,
          List.append_nil, Bool.false_eq_true, if_false, List.filterMap_append,
          List.filterMap_cons, List.filterMap_nil, Frame.updateOf, true_and]
        exact fun hs => hs.trans (List.sublist_append_left _ _)
      · simp only [Chan.sent, handleUpdated, List.append_assoc, List.singleton_append,
          List.append_nil, if_true, List.filterMap_append,
          List.filterMap_cons, List.filterMap_nil, Frame.updateOf, true_and]
        exact fun hs => hs.append (List.Sublist.refl _)

theorem run_sent (w : MyStatusWriter) (ops : List WriterOp) (h : w.flagsAgree) :
    (w.run ops).upds.sent = w.upds.sent ++ w.accepted ops ∧
    ((w.w.filterMap Frame.updateOf).Sublist w.upds.taken →
      ((w.run ops).w.filterMap Frame.updateOf).Sublist (w.run ops).upds.taken) := by
  induction ops generalizing w with
  | nil => exact ⟨by simp [MyStatusWriter.run, MyStatusWriter.accepted], id⟩
  | cons op ops ih =>
    obtain ⟨s1, s2⟩ := WriterOp_exec_sent w op h
    obtain ⟨i1, i2⟩ := ih (op.exec w).2 (WriterOp_exec_flags w op h).1
    refine ⟨?_, fun hs => i2 (s2 hs)⟩
    rw [accepted_cons, MyStatusWriter.run, i1, s1, List.append_assoc]

/-- The channel of a writer never holds more values than its capacity. -/
theorem WriterOp_exec_len (w : MyStatusWriter) (op : WriterOp) (h : w.flagsAgree)
    (hlen : w.upds.buf.length ≤ w.upds.cap) :
    (op.exec w).2.upds.buf.length ≤ (op.exec w).2.upds.cap := by
  obtain ⟨h1, h2⟩ := h
  cases op with
  | started rsp =>
    simp only [WriterOp.exec, MyStatusWriter.Started]
    cases hs : w.startedWriting <;> simpa using hlen
  | updated u =>
    simp only [WriterOp.exec]
    cases hc : w.closed with
    | true =>
      rw [Updated_closed w u hc]
      exact hlen
    | false =>
      have hch : w.upds.closed = false := by rw [h2, hc]
      by_cases hroom : w.upds.buf.length < w.upds.cap
      · obtain ⟨_, e2, _, e4, _⟩ := Updated_room w u hc hch hroom
        rw [e2, e4, List.length_append, List.length_singleton]
        omega
      · rw [Updated_full w u hc hch hroom]
        exact hlen
  | markStarted =>
    obtain ⟨⟨buf, cap, cl, taken⟩, fr, sW, bF, bS, c⟩ := w
    simp only at hlen
    simp only [WriterOp.exec, BuildHandler.markStarted, Chan.close]
    cases bF <;> cases c <;> cases cl <;> simpa using hlen
  | recvUpdate writeOk =>
    obtain ⟨⟨buf, cap, cl, taken⟩, fr, sW, bF, bS, c⟩ := w
    simp only at hlen
    simp only [WriterOp.exec, BuildHandler.recvUpdate, Chan.recv]
    cases buf with
    | nil => cases cl <;> simp
    | cons a rest =>
      simp only [List.length_cons] at hlen ⊢
      omega

theorem run_len (w : MyStatusWriter) (ops : List WriterOp) (h : w.flagsAgree)
    (hlen : w.upds.buf.length ≤ w.upds.cap) :
    (w.run ops).upds.buf.length ≤ (w.run ops).upds.cap := by
  induction ops generalizing w with
  | nil => exact hlen
  | cons op ops ih =>
    exact ih _ (WriterOp_exec_flags w op h).1 (WriterOp_exec_len w op h hlen)

/-- A receive of the handler from a full channel of a writer that is not
closed: the writer stays open, the values sent are the same, and the channel
has room again. -/
theorem recvUpdate_full (w : MyStatusWriter) (writeOk : Bool) (hc : w.closed = false)
    (hch : w.upds.closed = false) (hlen : w.upds.buf.length ≤ w.upds.cap)
    (hfull : ¬ w.upds.buf.length < w.upds.cap) (hcap : 0 < w.upds.cap) :
    ((WriterOp.recvUpdate writeOk).exec w).2.closed = false ∧
    ((WriterOp.recvUpdate writeOk).exec w).2.upds.closed = false ∧
    ((WriterOp.recvUpdate writeOk).exec w).2.upds.sent = w.upds.sent ∧
    ((WriterOp.recvUpdate writeOk).exec w).2.upds.buf.length
      < ((WriterOp.recvUpdate writeOk).exec w).2.upds.cap := by
  obtain ⟨⟨buf, cap, cl, taken⟩, fr, sW, bF, bS, c⟩ := w
  simp only at hc hch hlen hfull hcap
  subst hc hch
  simp only [WriterOp.exec, BuildHandler.recvUpdate, Chan.recv]
  cases buf with
  | nil => simp at hfull; omega
  | cons a rest =>
    simp only [List.length_cons] at hlen hfull ⊢
    exact ⟨trivial, trivial, by simp [Chan.sent], by omega⟩

/-- C13: `Updated` on a closed and on an open writer. In every state of a
writer made by the handler: on a closed writer `Updated` returns an error and
changes nothing; on a writer that is not closed it never returns an error: with
room in the channel it returns nil with the update appended at the tail of the
channel, and on a full channel it waits, changing nothing, and returns nil with
the update appended once the handler has received a value. The values sent on
the channel are the accepted updates in call order, and the updates the
handler has written to the response are a subsequence of those it received. -/
theorem Updated_closed_or_appended (ops : List WriterOp) (u : StatusUpdate) :
    ((MyStatusWriter.new.run ops).closed = true →
      (MyStatusWriter.new.run ops).Updated u
        = (.ok (some "update on closed writer"), MyStatusWriter.new.run ops)) ∧
    ((MyStatusWriter.new.run ops).closed = false →
      (MyStatusWriter.new.run ops).upds.buf.length < 100 →
      ((MyStatusWriter.new.run ops).Updated u).1 = .ok none ∧
      ((MyStatusWriter.new.run ops).Updated u).2.upds.buf
        = (MyStatusWriter.new.run ops).upds.buf ++ [u] ∧
      ((MyStatusWriter.new.run ops).Updated u).2.upds.taken
        = (MyStatusWriter.new.run ops).upds.taken) ∧
    ((MyStatusWriter.new.run ops).closed = false →
      ¬ (MyStatusWriter.new.run ops).upds.buf.length < 100 →
      (MyStatusWriter.new.run ops).Updated u = (.blocked, MyStatusWriter.new.run ops) ∧
      ∀ writeOk : Bool,
        ((((WriterOp.recvUpdate writeOk).exec (MyStatusWriter.new.run ops)).2).Updated u).1
          = .ok none ∧
        ((((WriterOp.recvUpdate writeOk).exec (MyStatusWriter.new.run ops)).2).Updated u).2.upds.sent
          = (MyStatusWriter.new.run ops).upds.sent ++ [u]) ∧
    (MyStatusWriter.new.run ops).upds.sent = MyStatusWriter.new.accepted ops ∧
    ((MyStatusWriter.new.run ops).w.filterMap Frame.updateOf).Sublist
      (MyStatusWriter.new.run ops).upds.taken := by
  obtain ⟨⟨_, hcc⟩, hcap, _, _⟩ := run_flagsAgree MyStatusWriter.new ops new_flagsAgree
  have hcap' : (MyStatusWriter.new.run ops).upds.cap = 100 := hcap
  have hlen := run_len MyStatusWriter.new ops new_flagsAgree (Nat.zero_le _)
  obtain ⟨hsent, hfr⟩ := run_sent MyStatusWriter.new ops new_flagsAgree
  generalize MyStatusWriter.new.run ops = w at *
  refine ⟨Updated_closed w u, fun hc hroom => ?_, fun hc hfull => ?_, ?_, ?_⟩
  · have hch : w.upds.closed = false := by rw [hcc, hc]
    obtain ⟨e1, e2, e3, _⟩ := Updated_room w u hc hch (by rw [hcap']; exact hroom)
    exact ⟨e1, e2, e3⟩
  · have hch : w.upds.closed = false := by rw [hcc, hc]
    refine ⟨Updated_full w u hc hch (by rw [hcap']; exact hfull), fun writeOk => ?_⟩
    obtain ⟨r1, r2, r3, r4⟩ := recvUpdate_full w writeOk hc hch hlen
      (by rw [hcap']; exact hfull) (by rw [hcap']; decide)
    obtain ⟨e1, e2, e3, _⟩ := Updated_room _ u r1 r2 r4
    refine ⟨e1, ?_⟩
    rw [← r3]
    simp only [Chan.sent, e2, e3, List.append_assoc]
  · simpa [MyStatusWriter.new, Chan.sent, Chan.make] using hsent
  · exact hfr (by simp [MyStatusWriter.new])

/-- C13 after the steps of `Example.writerRun`: the writer is closed, a further
`Updated` fails and changes nothing, and the values sent on the channel are the
two updates accepted before the close. -/
theorem Updated_closed_or_appended_witness :
    (MyStatusWriter.new.run Example.writerRun).closed = true ∧
    (MyStatusWriter.new.run Example.writerRun).Updated { JobFinished := some { ID := ⟨"c"⟩ } }
      = (.ok (some "update on closed writer"), MyStatusWriter.new.run Example.writerRun) ∧
    (MyStatusWriter.new.run Example.writerRun).upds.sent
      = [{ JobFinished := some { ID := ⟨"a"⟩ } }, { BuildFinished := some {} }] :=
  ⟨by decide,
    (Updated_closed_or_appended Example.writerRun { JobFinished := some { ID := ⟨"c"⟩ } }).1
      (by decide),
    (Updated_closed_or_appended Example.writerRun
      { JobFinished := some { ID := ⟨"c"⟩ } }).2.2.2.1.trans (by decide)⟩

/-- C14: the close invariant of the writer. In every state a writer made by the
handler reaches by calls of `Started` and `Updated`, the mark-started step and
receives of the handler: `closed` is set exactly when `buildStarted` and
`buildFinished` both are, and the channel is closed exactly when `closed` is
set; a further step never panics (no close of a closed channel), changes
whether the channel is closed only by closing it as it sets `closed`, and
leaves `closed` set once it is; so the channel is closed at most once. -/
theorem writer_close_invariant (ops : List WriterOp) (op : WriterOp) :
    ((MyStatusWriter.new.run ops).closed = true ↔
      (MyStatusWriter.new.run ops).buildStarted = true ∧
        (MyStatusWriter.new.run ops).buildFinished = true) ∧
    (MyStatusWriter.new.run ops).upds.closed = (MyStatusWriter.new.run ops).closed ∧
    (∀ msg, (op.exec (MyStatusWriter.new.run ops)).1 ≠ .crash msg) ∧
    ((op.exec (MyStatusWriter.new.run ops)).2.upds.closed
        ≠ (MyStatusWriter.new.run ops).upds.closed →
      (MyStatusWriter.new.run ops).closed = false ∧
      (op.exec (MyStatusWriter.new.run ops)).2.closed = true ∧
      (op.exec (MyStatusWriter.new.run ops)).2.upds.closed = true) ∧
    ((MyStatusWriter.new.run ops).closed = true →
      (op.exec (MyStatusWriter.new.run ops)).2.closed = true) := by
  obtain ⟨hfl, _⟩ := run_flagsAgree MyStatusWriter.new ops new_flagsAgree
  obtain ⟨⟨_, s1⟩, s2, _, _, _, s6, s7⟩ := WriterOp_exec_flags _ op hfl
  obtain ⟨h1, h2⟩ := hfl
  refine ⟨?_, h2, s2, fun hne => ?_, s6⟩
  · rw [h1, Bool.and_eq_true]
  · obtain ⟨a, b⟩ := s7 hne
    exact ⟨a, b, s1.trans b⟩

/-- C14 after the steps of `Example.writerRun`: both flags are set and the
writer and its channel are closed; one more mark-started step does not
panic. -/
theorem writer_close_invariant_witness :
    (MyStatusWriter.new.run Example.writerRun).buildStarted = true ∧
    (MyStatusWriter.new.run Example.writerRun).buildFinished = true ∧
    (MyStatusWriter.new.run Example.writerRun).closed = true ∧
    (MyStatusWriter.new.run Example.writerRun).upds.closed = true ∧
    ∀ msg, (WriterOp.markStarted.exec (MyStatusWriter.new.run Example.writerRun)).1 ≠ .crash msg :=
  ⟨by decide, by decide,
    (writer_close_invariant Example.writerRun .markStarted).1.mpr ⟨by decide, by decide⟩,
    (writer_close_invariant Example.writerRun .markStarted).2.1.trans (by decide),
    (writer_close_invariant Example.writerRun .markStarted).2.2.1⟩

/-! ## The `/build` handler on an error of `StartBuild` -/

/-- A call of the service on a writer the handler has not marked started: the
writer stays open, no `http.Error` is written, `startedWriting` is set by a
`Started` and by nothing else, and the response is not touched while it is
unset. -/
theorem WriterCall_exec_spec (w w1 : MyStatusWriter) (call : WriterCall) (e : GoError)
    (h : call.exec w = (.ok e, w1))
    (hc : w.closed = false) (hbs : w.buildStarted = false) (hch : w.upds.closed = false)
    (hcap : w.upds.cap = 100) (hfr : ∀ f ∈ w.w, f.isHttpError = false) :
    w1.closed = false ∧ w1.buildStarted = false ∧ w1.upds.closed = false ∧
    w1.upds.cap = 100 ∧ (∀ f ∈ w1.w, f.isHttpError = false) ∧
    (w1.startedWriting = true ↔ w.startedWriting = true ∨ ∃ rsp, call = .started rsp) ∧
    (w1.startedWriting = false → w1.w = w.w) := by
  cases call with
  | started rsp =>
    simp only [WriterCall.exec, MyStatusWriter.Started, Prod.mk.injEq, Exec.ok.injEq] at h
    obtain ⟨_, rfl⟩ := h
    cases hs : w.startedWriting
    · simp only [Bool.not_false, if_true]
      refine ⟨hc, hbs, hch, hcap, fun f hf => ?_, by simp, by simp⟩
      rcases List.mem_append.mp hf with hf | hf
      · exact hfr f hf
      · rw [List.mem_singleton.mp hf]; rfl
    · simp only [Bool.not_true, Bool.false_eq_true, if_false]
      exact ⟨hc, hbs, hch, hcap, hfr, by simp [hs], fun _ => trivial⟩
  | updated u =>
    simp only [WriterCall.exec] at h
    by_cases hroom : w.upds.buf.length < w.upds.cap
    · obtain ⟨_, _, _, e4, e5, e6, e7, _, e9, e10⟩ := Updated_room w u hc hch hroom
      rw [h] at e4 e5 e6 e7 e9 e10
      simp only at e4 e5 e6 e7 e9 e10
      rw [hbs] at e9 e10
      refine ⟨by simpa using e9, by rw [e7, hbs], by simpa using e10, by rw [e4, hcap],
        by rw [e5]; exact hfr, by rw [e6]; simp, fun _ => e5⟩
    · rw [Updated_full w u hc hch hroom] at h
      cases h

theorem Service_calls_spec (calls : List WriterCall) (w w1 : MyStatusWriter)
    (h : Service.calls calls w = (.ok (), w1))
    (hc : w.closed = false) (hbs : w.buildStarted = false) (hch : w.upds.closed = false)
    (hcap : w.upds.cap = 100) (hfr : ∀ f ∈ w.w, f.isHttpError = false) :
    w1.closed = false ∧ w1.buildStarted = false ∧ w1.upds.closed = false ∧
    w1.upds.cap = 100 ∧ (∀ f ∈ w1.w, f.isHttpError = false) ∧
    (w1.startedWriting = true ↔ w.startedWriting = true ∨ ∃ rsp, .started rsp ∈ calls) ∧
    (w1.startedWriting = false → w1.w = w.w) := by
  induction calls generalizing w with
  | nil =>
    simp only [Service.calls, Prod.mk.injEq, true_and] at h
    subst h
    exact ⟨hc, hbs, hch, hcap, hfr, by simp, fun _ => rfl⟩
  | cons call rest ih =>
    simp only [Service.calls] at h
    rcases hx : call.exec w with ⟨e | _ | _, w2⟩
    · rw [hx] at h
      simp only at h
      obtain ⟨a1, a2, a3, a4, a5, a6, a7⟩ := WriterCall_exec_spec w w2 call e hx hc hbs hch hcap hfr
      obtain ⟨b1, b2, b3, b4, b5, b6, b7⟩ := ih w2 h a1 a2 a3 a4 a5
      refine ⟨b1, b2, b3, b4, b5, ?_, fun hs => ?_⟩
      · rw [b6, a6]
        constructor
        · rintro ((h1 | ⟨rsp, h1⟩) | ⟨rsp, h1⟩)
          · exact Or.inl h1
          · exact Or.inr ⟨rsp, by rw [h1]; exact List.mem_cons_self _ _⟩
          · exact Or.inr ⟨rsp, List.mem_cons_of_mem _ h1⟩
        · rintro (h1 | ⟨rsp, h1⟩)
          · exact Or.inl (Or.inl h1)
          · rcases List.mem_cons.mp h1 with h1 | h1
            · exact Or.inl (Or.inr ⟨rsp, h1.symm⟩)
            · exact Or.inr ⟨rsp, h1⟩
      · have h2 : w2.startedWriting = false := by
          cases hw2 : w2.startedWriting
          · rfl
          · rw [b6.mpr (Or.inl hw2)] at hs
            cases hs
        rw [b7 hs, a7 h2]
    · rw [hx] at h; simp at h
    · rw [hx] at h; simp at h

/-- The mark-started step on a writer that holds a terminal update and is not
closed: the writer and its channel are closed. -/
theorem markStarted_closes (sw : MyStatusWriter) (hbf : sw.buildFinished = true)
    (hc : sw.closed = false) (hch : sw.upds.closed = false) :
    BuildHandler.markStarted sw
      = (.ok (), { sw with buildStarted := true, closed := true,
                           upds := { sw.upds with closed := true } }) := by
  obtain ⟨⟨buf, cap, cl, taken⟩, fr, sW, bF, bS, c⟩ := sw
  simp only at hbf hc hch
  subst hbf hc hch
  simp [BuildHandler.markStarted, Chan.close]

/-! ## Reading back what `%q` has written -/

theorem hexVal_lowerhex (n : Nat) (h : n < 16) :
    json.hexVal (strconv.lowerhex n) = some n := by
  interval_cases n <;> decide

theorem getu4_lowerhex (n : Nat) (h : n < 0x10000) :
    json.getu4 (strconv.lowerhex (n / 4096 % 16)) (strconv.lowerhex (n / 256 % 16))
      (strconv.lowerhex (n / 16 % 16)) (strconv.lowerhex (n % 16)) = some n := by
  simp only [json.getu4, hexVal_lowerhex _ (Nat.mod_lt _ (by decide : 16 > 0))]
  congr 1
  omega

theorem Char_toNat_valid (c : Char) :
    c.toNat < 0xD800 ∨ (0xDFFF < c.toNat ∧ c.toNat < 0x110000) := c.valid

theorem next_plain (c : Char) (rest : List Char)
    (h1 : c.toNat ≠ 34) (h2 : c.toNat ≠ 92) (h3 : 32 ≤ c.toNat) :
    json.next (c :: rest) = some (some c, rest) := by
  rw [json.next, if_neg h1, if_neg h2, if_neg (by omega)]

theorem next_backslash (l : List Char) :
    json.next (Char.ofNat 92 :: l)
      = match json.escape l with
        | some (r, rest1) => some (some r, rest1)
        | none => none := by
  rw [json.next, if_neg (by decide), if_pos (by decide)]

/-- What `json.next` reads from the escape `strconv.Quote` has written for a
character: the character, when it is one that reads back, and nothing valid
otherwise. -/
theorem next_escaped (wide : Nat → Bool) (c : Char) (rest : List Char) :
    json.next (strconv.appendEscapedRune wide c ++ rest)
      = if strconv.readsBack wide c then some (some c, rest) else none := by
  have hv := Char_toNat_valid c
  have hc : Char.ofNat c.toNat = c := Char.ofNat_toNat c
  unfold strconv.appendEscapedRune
  by_cases h1 : c.toNat = 34 ∨ c.toNat = 92
  · rw [if_pos h1]
    have hs : strconv.readsBack wide c = true := by
      rcases h1 with h | h <;> simp [strconv.readsBack, h]
    rw [hs, if_pos rfl]
    simp only [List.cons_append, List.nil_append]
    rw [next_backslash, json.escape, if_pos (by omega)]
  rw [if_neg h1]
  by_cases h2 : strconv.IsPrint wide c.toNat = true
  · rw [if_pos h2]
    have h32 : 32 ≤ c.toNat ∧ c.toNat ≠ 127 ∧ (c.toNat < 0x10000 ∨ wide c.toNat = true) := by
      unfold strconv.IsPrint at h2
      by_cases hle : c.toNat ≤ 0xFF
      · rw [if_pos hle] at h2
        by_cases hr : 0x20 ≤ c.toNat ∧ c.toNat < 0x7F
        · exact ⟨hr.1, by omega, Or.inl (by omega)⟩
        · rw [if_neg hr] at h2
          by_cases ha : 0xA1 ≤ c.toNat
          · exact ⟨by omega, by omega, Or.inl (by omega)⟩
          · rw [if_neg ha] at h2
            cases h2
      · rw [if_neg hle] at h2
        exact ⟨by omega, by omega, Or.inr h2⟩
    have hs : strconv.readsBack wide c = true := by
      rcases h32 with ⟨a1, a2, a3 | a3⟩ <;> simp [strconv.readsBack, a1, a2, a3]
    rw [hs, if_pos rfl]
    simp only [List.cons_append, List.nil_append]
    exact next_plain c rest (fun h => h1 (Or.inl h)) (fun h => h1 (Or.inr h)) h32.1
  rw [if_neg h2]
  have hnp : (c.toNat < 32 ∨ c.toNat = 127 ∨ (0x80 ≤ c.toNat ∧ c.toNat < 0xA1) ∨ c.toNat = 0xAD)
      ∨ (0xFF < c.toNat ∧ wide c.toNat = false) := by
    unfold strconv.IsPrint at h2
    by_cases hle : c.toNat ≤ 0xFF
    · rw [if_pos hle] at h2
      by_cases hr : 0x20 ≤ c.toNat ∧ c.toNat < 0x7F
      · rw [if_pos hr] at h2
        exact absurd rfl h2
      · rw [if_neg hr] at h2
        by_cases ha : 0xA1 ≤ c.toNat
        · rw [if_pos ha] at h2
          simp only [bne_iff_ne, ne_eq, Decidable.not_not] at h2
          exact Or.inl (Or.inr (Or.inr (Or.inr h2)))
        · left
          omega
    · rw [if_neg hle] at h2
      right
      exact ⟨by omega, by simpa using h2⟩
  have hlit : ∀ k : Nat, c.toNat = k → c = Char.ofNat k := fun k hk => by rw [← hc, hk]
  by_cases h3 : c.toNat = 7
  · obtain rfl := hlit 7 h3
    rfl
  by_cases h4 : c.toNat = 8
  · obtain rfl := hlit 8 h4
    rfl
  by_cases h5 : c.toNat = 12
  · obtain rfl := hlit 12 h5
    rfl
  by_cases h6 : c.toNat = 10
  · obtain rfl := hlit 10 h6
    rfl
  by_cases h7 : c.toNat = 13
  · obtain rfl := hlit 13 h7
    rfl
  by_cases h8 : c.toNat = 9
  · obtain rfl := hlit 9 h8
    rfl
  by_cases h9 : c.toNat = 11
  · obtain rfl := hlit 11 h9
    rfl
  rw [if_neg h3, if_neg h4, if_neg h5, if_neg h6, if_neg h7, if_neg h8, if_neg h9]
  by_cases h10 : c.toNat < 32 ∨ c.toNat = 127
  · rw [if_pos h10]
    have hs : strconv.readsBack wide c = false := by
      unfold strconv.readsBack
      rcases h10 with h | h
      · have h32 : ¬ 32 ≤ c.toNat := by omega
        simp [h32, h4, h5, h6, h7, h8]
      · simp [h]
    rw [hs, if_neg Bool.false_ne_true]
    simp only [List.cons_append, List.nil_append]
    rw [next_backslash, json.escape]
    simp
  rw [if_neg h10]
  by_cases h11 : c.toNat < 0x10000
  · rw [if_pos h11]
    have h32 : 32 ≤ c.toNat := by omega
    have hs : strconv.readsBack wide c = true := by
      unfold strconv.readsBack
      have h127 : c.toNat ≠ 127 := by omega
      simp [h32, h127, h11]
    rw [hs, if_pos rfl]
    simp only [List.cons_append, List.nil_append]
    rw [next_backslash, json.escape]
    simp only [Char.reduceToNat, Nat.reduceEqDiff, or_self, if_false, Char.reduceEq, if_true]
    rw [json.unicode, getu4_lowerhex _ h11]
    simp only
    rw [if_neg (by omega), hc]
  · rw [if_neg h11]
    have hw : wide c.toNat = false := by
      rcases hnp with h | h
      · omega
      · exact h.2
    have hs : strconv.readsBack wide c = false := by
      unfold strconv.readsBack
      simp [h11, hw]
    rw [hs, if_neg Bool.false_ne_true]
    simp only [List.cons_append, List.nil_append]
    rw [next_backslash, json.escape]
    simp

theorem appendEscapedRune_length (wide : Nat → Bool) (c : Char) :
    1 ≤ (strconv.appendEscapedRune wide c).length := by
  rcases h : strconv.appendEscapedRune wide c with _ | ⟨a, l⟩
  · have hn := next_escaped wide c [Char.ofNat 34]
    rw [h, List.nil_append, json.next, if_pos (by decide)] at hn
    by_cases hs : strconv.readsBack wide c = true
    · rw [if_pos hs] at hn
      cases hn
    · rw [if_neg hs] at hn
      cases hn
  · simp

theorem appendQuoted_length (wide : Nat → Bool) (s : List Char) :
    s.length + 1 ≤ (strconv.appendQuoted wide s).length := by
  induction s with
  | nil => simp [strconv.appendQuoted]
  | cons c s ih =>
    have := appendEscapedRune_length wide c
    simp only [strconv.appendQuoted, List.length_append, List.length_cons]
    omega

/-- Reading back what `strconv.Quote` has written after the opening quote, with
any text after the closing quote and fuel for the runes of the string and one
step more: the string, when all its characters read back, and no string
otherwise. -/
theorem unquote_appendQuoted (wide : Nat → Bool) (s tail : List Char) (k : Nat) :
    json.unquote (s.length + 1 + k) (strconv.appendQuoted wide s ++ tail)
      = if s.all (strconv.readsBack wide) = true then some s else none := by
  induction s with
  | nil =>
    have e : ([] : List Char).length + 1 + k = k + 1 := by simp; omega
    rw [e, json.unquote]
    simp [strconv.appendQuoted, json.next]
  | cons c s ih =>
    have e : (c :: s).length + 1 + k = (s.length + 1 + k) + 1 := by
      simp only [List.length_cons]; omega
    rw [e, json.unquote]
    simp only [strconv.appendQuoted, List.append_assoc, next_escaped]
    by_cases hc : strconv.readsBack wide c = true
    · simp only [hc, if_true, ih, List.all_cons, Bool.true_and]
      by_cases hs : s.all (strconv.readsBack wide) = true
      · simp [hs]
      · simp [hs]
    · simp [hc]

/-- Decoding what `strconv.Quote` has written for `msg`, followed by any text:
`msg`, when all its characters read back, and an error otherwise. -/
theorem DecodeString_Quote (wide : Nat → Bool) (msg tail : String) :
    json.DecodeString (strconv.Quote wide msg ++ tail)
      = if msg.data.all (strconv.readsBack wide) = true then some msg else none := by
  have hdata : (strconv.Quote wide msg ++ tail).data
      = Char.ofNat 34 :: (strconv.appendQuoted wide msg.data ++ tail.data) := by
    simp [strconv.Quote]
  unfold json.DecodeString
  rw [hdata, json.skipSpace, if_neg (by decide)]
  simp only
  rw [if_pos (by decide)]
  have hlen := appendQuoted_length wide msg.data
  obtain ⟨k, hk⟩ : ∃ k, (strconv.appendQuoted wide msg.data ++ tail.data).length + 1
      = msg.data.length + 1 + k :=
    ⟨(strconv.appendQuoted wide msg.data ++ tail.data).length - msg.data.length, by
      simp only [List.length_append]; omega⟩
  rw [hk, unquote_appendQuoted]
  by_cases hs : msg.data.all (strconv.readsBack wide) = true
  · simp [hs]
  · simp [hs]

/-- C15: an error of `StartBuild` in the `/build` handler. Let the service make
any calls on the writer and return the error `msg`. If it never called
`Started`, the handler returns with a response that is one `http.Error` of
status 500 whose body is `msg` as `%q` writes it, and the channel of updates is
as the service left it; that body, with whatever follows it, decodes as the
JSON string `msg` when `msg` has no control character other than
`\b \f \n \r \t`, no U+007F and no character above U+FFFF that is not
printable, and does not decode as JSON otherwise. If the service called
`Started`, the handler writes no `http.Error`, appends exactly the update
`BuildFailed{msg}` to the channel, closes the writer and its channel and goes
on to its loop; when the channel is full, the handler waits in `Updated` with
nothing written and nothing appended. -/
theorem build_handler_StartBuild_error (wide : Nat → Bool) (calls : List WriterCall)
    (msg : String) (sw : MyStatusWriter)
    (hsvc : Service.StartBuild calls (some msg) MyStatusWriter.new = (.ok (some msg), sw)) :
    ((∀ rsp, WriterCall.started rsp ∉ calls) →
      ∃ sw', BuildHandler.start wide (Service.StartBuild calls (some msg)) = (.ok true, sw') ∧
        sw'.w = [Frame.httpError 500 (strconv.Quote wide msg ++ "\n")] ∧ sw'.upds = sw.upds ∧
        sw'.closed = false) ∧
    (∀ tail : String, json.DecodeString (strconv.Quote wide msg ++ tail)
      = if msg.data.all (strconv.readsBack wide) = true then some msg else none) ∧
    ((∃ rsp, WriterCall.started rsp ∈ calls) → sw.upds.buf.length < 100 →
      ∃ sw', BuildHandler.start wide (Service.StartBuild calls (some msg)) = (.ok false, sw') ∧
        sw'.upds.buf = sw.upds.buf ++ [{ BuildFailed := some { Error := msg } }] ∧
        sw'.upds.taken = sw.upds.taken ∧
        sw'.w = sw.w ∧ (∀ f ∈ sw'.w, f.isHttpError = false) ∧
        sw'.closed = true ∧ sw'.upds.closed = true) ∧
    ((∃ rsp, WriterCall.started rsp ∈ calls) → ¬ sw.upds.buf.length < 100 →
      BuildHandler.start wide (Service.StartBuild calls (some msg)) = (.blocked, sw)) := by
  have hcalls : Service.calls calls MyStatusWriter.new = (.ok (), sw) := by
    revert hsvc
    unfold Service.StartBuild
    rcases Service.calls calls MyStatusWriter.new with ⟨_ | _ | _, w1⟩ <;> simp
  obtain ⟨a1, a2, a3, a4, a5, a6, a7⟩ := Service_calls_spec calls _ sw hcalls rfl rfl rfl rfl
    (by simp [MyStatusWriter.new])
  have a6' : sw.startedWriting = true ↔ ∃ rsp, WriterCall.started rsp ∈ calls := by
    rw [a6]; simp [MyStatusWriter.new]
  refine ⟨fun hno => ?_, DecodeString_Quote wide msg, fun hyes hroom => ?_,
    fun hyes hfull => ?_⟩
  · have hs : sw.startedWriting = false := by
      cases h : sw.startedWriting
      · rfl
      · obtain ⟨rsp, hr⟩ := a6'.mp h
        exact absurd hr (hno rsp)
    have hw : sw.w = [] := a7 hs
    simp only [BuildHandler.start, hsvc, hs, Bool.not_false, if_true]
    exact ⟨_, rfl, by simp [hw], rfl, a1⟩
  · have hs : sw.startedWriting = true := a6'.mpr hyes
    obtain ⟨e1, e2, e3, e4, e5, e6, e7, e8, e9, e10⟩ :=
      Updated_room sw { BuildFailed := some { Error := msg } } a1 a3 (by rw [a4]; exact hroom)
    have hu : sw.Updated { BuildFailed := some { Error := msg } }
        = (.ok none, (sw.Updated { BuildFailed := some { Error := msg } }).2) :=
      Prod.ext e1 rfl
    have hm := markStarted_closes (sw.Updated { BuildFailed := some { Error := msg } }).2
      (by rw [e8]; simp [StatusUpdate.isTerminal]) (by rw [e9, a2]; rfl) (by rw [e10, a2]; rfl)
    simp only [BuildHandler.start, hsvc, hs, Bool.not_true, Bool.false_eq_true, if_false]
    rw [hu]
    simp only [BuildHandler.enterLoop, hm]
    exact ⟨_, rfl, e2, e3, e5, by simpa [e5] using a5, rfl, rfl⟩
  · have hs : sw.startedWriting = true := a6'.mpr hyes
    simp only [BuildHandler.start, hsvc, hs, Bool.not_true, Bool.false_eq_true, if_false]
    rw [Updated_full sw _ a1 a3 (by rw [a4]; exact hfull)]

/-- C15 on three services. One fails at once with `boom`: the body decodes as
the JSON string `boom`. One fails at once with an error whose text holds the
control character U+001B: the handler answers with status 500 and the body
that `%q` writes, in which the character is the escape `\x1b`; that is not an
escape of JSON, and the body does not decode. One opens the writer and sends a
job result before it fails with `boom`. -/
theorem build_handler_StartBuild_error_witness :
    (∃ sw', BuildHandler.start (fun _ => false) (Service.StartBuild [] (some "boom"))
        = (.ok true, sw') ∧
      sw'.w = [Frame.httpError 500 "\"boom\"\n"] ∧
      sw'.upds = MyStatusWriter.new.upds ∧ sw'.closed = false) ∧
    json.DecodeString (strconv.Quote (fun _ => false) "boom" ++ "\n") = some "boom" ∧
    (∃ sw', BuildHandler.start (fun _ => false) (Service.StartBuild [] (some "bad \x1b"))
        = (.ok true, sw') ∧
      sw'.w = [Frame.httpError 500 "\"bad \\x1b\"\n"]) ∧
    json.DecodeString (strconv.Quote (fun _ => false) "bad \x1b" ++ "\n") = none ∧
    ∃ sw', BuildHandler.start (fun _ => false)
        (Service.StartBuild Example.failingCalls (some "boom")) = (.ok false, sw') ∧
      sw'.upds.buf = [{ JobFinished := some { ID := ⟨"a"⟩ } },
        { BuildFailed := some { Error := "boom" } }] ∧
      sw'.closed = true :=
  ⟨((build_handler_StartBuild_error (fun _ => false) [] "boom" MyStatusWriter.new
      rfl).1 (fun rsp h => by cases h)).elim
      fun sw' h => ⟨sw', h.1, h.2.1.trans (by decide), h.2.2⟩,
    ((build_handler_StartBuild_error (fun _ => false) [] "boom" MyStatusWriter.new
      rfl).2.1 "\n").trans (by decide),
    ((build_handler_StartBuild_error (fun _ => false) [] "bad \x1b" MyStatusWriter.new
      rfl).1 (fun rsp h => by cases h)).elim
      fun sw' h => ⟨sw', h.1, h.2.1.trans (by decide)⟩,
    ((build_handler_StartBuild_error (fun _ => false) [] "bad \x1b" MyStatusWriter.new
      rfl).2.1 "\n").trans (by decide),
    ((build_handler_StartBuild_error (fun _ => false) Example.failingCalls "boom"
      (Service.StartBuild Example.failingCalls (some "boom") MyStatusWriter.new).2
      (Prod.ext (by decide) rfl)).2.2.1 ⟨_, List.mem_cons_self _ _⟩ (by decide)).elim
      fun sw' h => ⟨sw', h.1, h.2.1.trans (by decide), h.2.2.2.2.2.1⟩⟩

/-! ## Claims on the downloads -/

/-- C19: the calls that end the write slot in `Client.Download`. Once the
response was read with status 200 and `localCache.Write(id)` succeeded: when
the content is written, `Download` returns nil and `writeCloser.Close` is the
only call; when writing the content fails, `Download` returns the error and
`abort` is called and then, by the deferred call, `writeCloser.Close` as
well. -/
theorem Download_sink_calls (world : World) (localCache : Cache) (id : ID) (buf : String)
    (writeCloser : FileSink)
    (hreply : world.fileReply id = .response 200 (.ok buf))
    (hwrite : localCache.Write id = some writeCloser) :
    (world.fileWriteErr id = none →
      (Client.Download world localCache id).1 = none ∧
      (Client.Download world localCache id).2.2 = [.close]) ∧
    (∀ e, world.fileWriteErr id = some e →
      (Client.Download world localCache id).1
        = some ("error during writing file " ++ id.String ++ " content to local cache: " ++ e) ∧
      (Client.Download world localCache id).2.2 = [.abort, .close]) := by
  constructor
  · intro hw
    simp [Client.Download, hreply, hwrite, hw]
  · intro e hw
    simp [Client.Download, hreply, hwrite, hw]

/-- C19 on a download into an empty cache in a world where writing the
content fails: both `abort` and `Close` are called. -/
theorem Download_sink_calls_witness :
    (Client.Download Example.worldWriteFails { committed := [], inUse := [] } ⟨"f1"⟩).1
      = some ("error during writing file " ++ (⟨"f1"⟩ : ID).String
          ++ " content to local cache: " ++ "no space left on device") ∧
    (Client.Download Example.worldWriteFails { committed := [], inUse := [] } ⟨"f1"⟩).2.2
      = [.abort, .close] :=
  (Download_sink_calls Example.worldWriteFails { committed := [], inUse := [] } ⟨"f1"⟩ "data"
    { cache := { committed := [], inUse := [] }, id := ⟨"f1"⟩, live := true } rfl rfl).2
    "no space left on device" rfl

/-! ## The worker -/

theorem ArtifactCache_Get_spec (c a : ArtifactCache) (id : ID) (path : String)
    (h : c.Get id = some (path, a)) :
    id ∈ c.committed ∧ a.committed = c.committed ∧ a.writing = c.writing ∧
    ∀ x, a.inUseCount x = c.inUseCount x + (if x = id then 1 else 0) := by
  unfold ArtifactCache.Get at h
  by_cases hc : id ∈ c.committed
  · rw [if_pos hc] at h
    simp only [Option.some.injEq, Prod.mk.injEq] at h
    obtain ⟨_, rfl⟩ := h
    refine ⟨hc, rfl, rfl, fun x => ?_⟩
    by_cases hx : x = id
    · subst hx
      simp [ArtifactCache.inUseCount, GoMap.load_store_self]
    · simp only [ArtifactCache.inUseCount, GoMap.load_store_ne _ _ _ _ hx, if_neg hx, Nat.add_zero]
  · rw [if_neg hc] at h
    cases h

theorem ArtifactCache_Create_spec (c a : ArtifactCache) (id : ID) (path : String)
    (h : c.Create id = some (path, a)) :
    id ∉ c.committed ∧ a.committed = c.committed ∧ a.inUse = c.inUse ∧
    a.writing = id :: c.writing := by
  unfold ArtifactCache.Create at h
  by_cases hc : id ∈ c.committed ∨ id ∈ c.writing
  · rw [if_pos hc] at h
    cases h
  · rw [if_neg hc] at h
    simp only [Option.some.injEq, Prod.mk.injEq] at h
    obtain ⟨_, rfl⟩ := h
    exact ⟨fun h1 => hc (Or.inl h1), rfl, rfl, rfl⟩

theorem ArtifactCache_commit_spec (c : ArtifactCache) (id : ID) (err : GoError) :
    (c.commit id err).2.inUse = c.inUse ∧ c.committed ⊆ (c.commit id err).2.committed ∧
    ((c.commit id err).1 = none → id ∈ (c.commit id err).2.committed) := by
  cases err with
  | none => simp [ArtifactCache.commit]
  | some e => simp [ArtifactCache.commit]

theorem ArtifactCache_abort_spec (c : ArtifactCache) (id : ID) (err : GoError) :
    (c.abort id err).2.inUse = c.inUse ∧ (c.abort id err).2.committed = c.committed := by
  cases err with
  | none => simp [ArtifactCache.abort]
  | some e => simp [ArtifactCache.abort]

/-- `artifact.Download` pins nothing and removes no committed entry. -/
theorem artifact_Download_spec (world : World) (endpoint : String) (c : ArtifactCache)
    (id : ID) :
    (artifact.Download world endpoint c id).2.inUse = c.inUse ∧
    c.committed ⊆ (artifact.Download world endpoint c id).2.committed := by
  unfold artifact.Download
  cases world.artifactReply endpoint id with
  | requestFailed e => exact ⟨rfl, fun _ h => h⟩
  | doFailed e => exact ⟨rfl, fun _ h => h⟩
  | response status body receiveErr =>
    simp only
    by_cases hs : status ≠ 200
    · rw [if_pos hs]
      cases body <;> exact ⟨rfl, fun _ h => h⟩
    · rw [if_neg hs]
      cases hcr : c.Create id with
      | none => exact ⟨rfl, fun _ h => h⟩
      | some r =>
        obtain ⟨path, c1⟩ := r
        obtain ⟨_, k1, k2, _⟩ := ArtifactCache_Create_spec c c1 id path hcr
        cases receiveErr with
        | some e =>
          simp only
          obtain ⟨m1, m2⟩ := ArtifactCache_abort_spec c1 id (world.artifactAbortErr id)
          rcases hab : c1.abort id (world.artifactAbortErr id) with ⟨_ | ae, c2⟩ <;>
            rw [hab] at m1 m2 <;> simp only at m1 m2 ⊢ <;>
            exact ⟨m1.trans k2, by rw [m2, k1]; exact fun _ h => h⟩
        | none =>
          simp only
          obtain ⟨m1, m2, _⟩ := ArtifactCache_commit_spec c1 id (world.artifactCommitErr id)
          rcases hab : c1.commit id (world.artifactCommitErr id) with ⟨_ | ae, c2⟩ <;>
            rw [hab] at m1 m2 <;> simp only at m1 m2 ⊢ <;>
            exact ⟨m1.trans k2, by rw [← k1]; exact m2⟩

theorem inUseCount_congr (a b : ArtifactCache) (h : a.inUse = b.inUse) (x : ID) :
    a.inUseCount x = b.inUseCount x := by
  simp only [ArtifactCache.inUseCount, h]

/-- The loop that collects the artifacts of a job touches the artifact cache,
`addedArtifacts` and the deferred calls only; when it goes on, every id of
`spec.Artifacts` was appended to `addedArtifacts`, is committed and was pinned
once, and its release is deferred. -/
theorem collectArtifacts_spec (world : World) (l : List (ID × WorkerID))
    (depsMap : GoMap ID String) (st : RunState) :
    (Worker.collectArtifacts world l depsMap st).2.files = st.files ∧
    (Worker.collectArtifacts world l depsMap st).2.finishedJobs = st.finishedJobs ∧
    (Worker.collectArtifacts world l depsMap st).2.slotCalls = st.slotCalls ∧
    (Worker.collectArtifacts world l depsMap st).2.sent = st.sent ∧
    (Worker.collectArtifacts world l depsMap st).2.workerID = st.workerID ∧
    (Worker.collectArtifacts world l depsMap st).2.runningJobs = st.runningJobs ∧
    st.artifacts.committed ⊆ (Worker.collectArtifacts world l depsMap st).2.artifacts.committed ∧
    (∀ dm, (Worker.collectArtifacts world l depsMap st).1 = .next dm →
      (Worker.collectArtifacts world l depsMap st).2.addedArtifacts
        = st.addedArtifacts ++ GoMap.keys l ∧
      (Worker.collectArtifacts world l depsMap st).2.deferred
        = ((GoMap.keys l).map Deferred.unlockArtifact).reverse ++ st.deferred ∧
      (∀ x, (Worker.collectArtifacts world l depsMap st).2.artifacts.inUseCount x
        = st.artifacts.inUseCount x + (GoMap.keys l).count x) ∧
      ∀ x ∈ GoMap.keys l, x ∈ (Worker.collectArtifacts world l depsMap st).2.artifacts.committed) := by
  induction l generalizing depsMap st with
  | nil =>
    simp only [Worker.collectArtifacts, GoMap.keys, List.map_nil, List.append_nil,
      List.reverse_nil, List.nil_append, List.count_nil, Nat.add_zero, List.not_mem_nil,
      true_and]
    exact ⟨fun _ h => h, fun _ _ => ⟨fun _ => trivial, fun _ h => h.elim⟩⟩
  | cons e l ih =>
    obtain ⟨artID, workID⟩ := e
    -- what the pinning of `artID` in a cache `c0` with the same counts as the worker's does
    have key : ∀ (c0 a : ArtifactCache) (path : String), c0.Get artID = some (path, a) →
        c0.inUse = st.artifacts.inUse → st.artifacts.committed ⊆ c0.committed →
        (Worker.collectArtifacts world l (Worker.pinned artID path a depsMap st).1
          (Worker.pinned artID path a depsMap st).2).2.files = st.files ∧
        (Worker.collectArtifacts world l (Worker.pinned artID path a depsMap st).1
          (Worker.pinned artID path a depsMap st).2).2.finishedJobs = st.finishedJobs ∧
        (Worker.collectArtifacts world l (Worker.pinned artID path a depsMap st).1
          (Worker.pinned artID path a depsMap st).2).2.slotCalls = st.slotCalls ∧
        (Worker.collectArtifacts world l (Worker.pinned artID path a depsMap st).1
          (Worker.pinned artID path a depsMap st).2).2.sent = st.sent ∧
        (Worker.collectArtifacts world l (Worker.pinned artID path a depsMap st).1
          (Worker.pinned artID path a depsMap st).2).2.workerID = st.workerID ∧
        (Worker.collectArtifacts world l (Worker.pinned artID path a depsMap st).1
          (Worker.pinned artID path a depsMap st).2).2.runningJobs = st.runningJobs ∧
        st.artifacts.committed ⊆ (Worker.collectArtifacts world l
          (Worker.pinned artID path a depsMap st).1
          (Worker.pinned artID path a depsMap st).2).2.artifacts.committed ∧
        (∀ dm, (Worker.collectArtifacts world l (Worker.pinned artID path a depsMap st).1
            (Worker.pinned artID path a depsMap st).2).1 = .next dm →
          (Worker.collectArtifacts world l (Worker.pinned artID path a depsMap st).1
            (Worker.pinned artID path a depsMap st).2).2.addedArtifacts
            = st.addedArtifacts ++ GoMap.keys ((artID, workID) :: l) ∧
          (Worker.collectArtifacts world l (Worker.pinned artID path a depsMap st).1
            (Worker.pinned artID path a depsMap st).2).2.deferred
            = ((GoMap.keys ((artID, workID) :: l)).map Deferred.unlockArtifact).reverse
              ++ st.deferred ∧
          (∀ x, (Worker.collectArtifacts world l (Worker.pinned artID path a depsMap st).1
            (Worker.pinned artID path a depsMap st).2).2.artifacts.inUseCount x
            = st.artifacts.inUseCount x + (GoMap.keys ((artID, workID) :: l)).count x) ∧
          ∀ x ∈ GoMap.keys ((artID, workID) :: l),
            x ∈ (Worker.collectArtifacts world l (Worker.pinned artID path a depsMap st).1
              (Worker.pinned artID path a depsMap st).2).2.artifacts.committed) := by
      intro c0 a path hg hin hsub
      obtain ⟨g1, g2, _, g4⟩ := ArtifactCache_Get_spec c0 a artID path hg
      obtain ⟨i1, i2, i3, i4, i5, i6, i7, i8⟩ :=
        ih (Worker.pinned artID path a depsMap st).1 (Worker.pinned artID path a depsMap st).2
      have hp : (Worker.pinned artID path a depsMap st).2.artifacts = a := rfl
      rw [hp] at i7 i8
      refine ⟨i1, i2, i3, i4, i5, i6, fun x hx => i7 (by rw [g2]; exact hsub hx), fun dm hdm => ?_⟩
      obtain ⟨j1, j2, j3, j4⟩ := i8 dm hdm
      refine ⟨?_, ?_, fun x => ?_, fun x hx => ?_⟩
      · rw [j1]
        simp [Worker.pinned, GoMap.keys]
      · rw [j2]
        simp [Worker.pinned, GoMap.keys]
      · rw [j3, g4, inUseCount_congr c0 st.artifacts hin]
        simp only [GoMap.keys, List.map_cons, List.count_cons]
        by_cases hx : x = artID
        · subst hx; simp; omega
        · have : ¬ artID = x := fun e => hx e.symm
          simp [hx, this]
      · simp only [GoMap.keys, List.map_cons, List.mem_cons] at hx
        rcases hx with hx | hx
        · subst hx
          exact i7 (by rw [g2]; exact g1)
        · exact j4 x hx
    simp only [Worker.collectArtifacts]
    cases hg : st.artifacts.Get artID with
    | some r =>
      obtain ⟨path, a⟩ := r
      exact key st.artifacts a path hg rfl (fun _ h => h)
    | none =>
      obtain ⟨d1, d2⟩ := artifact_Download_spec world workID st.artifacts artID
      rcases hd : artifact.Download world workID st.artifacts artID with ⟨_ | err, a⟩
      · rw [hd] at d1 d2
        simp only at d1 d2 ⊢
        cases hg2 : a.Get artID with
        | none =>
          simp only
          exact ⟨trivial, trivial, trivial, trivial, trivial, trivial, d2, fun dm h => by cases h⟩
        | some r =>
          obtain ⟨path, a1⟩ := r
          exact key a a1 path hg2 d1 d2
      · rw [hd] at d1 d2
        simp only at d1 d2 ⊢
        exact ⟨trivial, trivial, trivial, trivial, trivial, trivial, d2, fun dm h => by cases h⟩

/-- The loop that downloads the source files changes the file cache only. -/
theorem downloadFiles_spec (world : World) (l : List (ID × String)) (st : RunState) :
    (Worker.downloadFiles world l st).2
      = { st with files := (Worker.downloadFiles world l st).2.files } := by
  induction l generalizing st with
  | nil => rfl
  | cons e l ih =>
    obtain ⟨fileID, fileName⟩ := e
    simp only [Worker.downloadFiles]
    rcases Client.Download world st.files fileID with ⟨_ | err, files, calls⟩
    · simp only
      rw [ih]
    · rfl

theorem addUnlock_artifacts (id : ID) (ds : List Deferred) :
    (Deferred.addUnlock id ds).filterMap Deferred.artifactOf
      = ds.filterMap Deferred.artifactOf := by
  induction ds with
  | nil => rfl
  | cons d ds ih =>
    cases d with
    | unlockArtifact a => simp [Deferred.addUnlock, Deferred.artifactOf, ih]
    | unlockFiles ids => simp [Deferred.addUnlock, Deferred.artifactOf]
    | remove path => simp [Deferred.addUnlock, Deferred.artifactOf, ih]

/-- `runAbort` makes one call of `abort` and pins and commits nothing. -/
theorem runAbort_spec (world : World) (specID : ID) (st : RunState) :
    (Worker.runAbort world specID st).slotCalls = st.slotCalls ++ [.abort specID] ∧
    (Worker.runAbort world specID st).artifacts.inUse = st.artifacts.inUse ∧
    (Worker.runAbort world specID st).artifacts.committed = st.artifacts.committed ∧
    (Worker.runAbort world specID st).finishedJobs = st.finishedJobs ∧
    (Worker.runAbort world specID st).addedArtifacts = st.addedArtifacts ∧
    (Worker.runAbort world specID st).deferred = st.deferred ∧
    (Worker.runAbort world specID st).sent = st.sent := by
  obtain ⟨a1, a2⟩ := ArtifactCache_abort_spec st.artifacts specID world.abortErr
  exact ⟨rfl, a1, a2, rfl, rfl, rfl, rfl⟩

/-- The loop that links the source files never panics; it leaves the results,
the added artifacts, the pins and the deferred releases of the artifacts as
they were; when it goes on it has made no call on the slot and left the
artifact cache alone, and when it returns an error it has made exactly one
call, of `abort`. -/
theorem linkSources_spec (world : World) (specID : ID) (sourceDir : String)
    (l : List (ID × String)) (st : RunState) :
    (Worker.linkSources world specID sourceDir l st).2.finishedJobs = st.finishedJobs ∧
    (Worker.linkSources world specID sourceDir l st).2.addedArtifacts = st.addedArtifacts ∧
    (Worker.linkSources world specID sourceDir l st).2.sent = st.sent ∧
    (Worker.linkSources world specID sourceDir l st).2.artifacts.inUse = st.artifacts.inUse ∧
    (Worker.linkSources world specID sourceDir l st).2.artifacts.committed
      = st.artifacts.committed ∧
    (Worker.linkSources world specID sourceDir l st).2.deferred.filterMap Deferred.artifactOf
      = st.deferred.filterMap Deferred.artifactOf ∧
    ((Worker.linkSources world specID sourceDir l st).1 = .next () →
      (Worker.linkSources world specID sourceDir l st).2.slotCalls = st.slotCalls ∧
      (Worker.linkSources world specID sourceDir l st).2.artifacts = st.artifacts) ∧
    (∀ e, (Worker.linkSources world specID sourceDir l st).1 = .ret e →
      (Worker.linkSources world specID sourceDir l st).2.slotCalls
        = st.slotCalls ++ [.abort specID]) ∧
    (∀ msg, (Worker.linkSources world specID sourceDir l st).1 ≠ .panic msg) := by
  induction l generalizing st with
  | nil =>
    simp only [Worker.linkSources, true_and]
    exact ⟨fun _ => trivial, (fun e h => by cases h), (fun msg h => by cases h)⟩
  | cons e l ih =>
    obtain ⟨sfID, sfName⟩ := e
    simp only [Worker.linkSources]
    cases hg : st.files.Get sfID with
    | none =>
      obtain ⟨r1, r2, r3, r4, r5, r6, r7⟩ := runAbort_spec world specID st
      exact ⟨r4, r5, r7, r2, r3, (by rw [r6]), (fun h => by cases h), fun e _ => r1,
        (fun msg h => by cases h)⟩
    | some r =>
      obtain ⟨path, files⟩ := r
      simp only
      by_cases hdir : world.dir (world.join sourceDir sfName) ≠ ""
      · simp only [if_pos hdir]
        cases hm : world.mkdirAll (world.dir (world.join sourceDir sfName)) with
        | some err =>
          obtain ⟨r1, r2, r3, r4, r5, r6, r7⟩ :=
            runAbort_spec world specID { st with files := files }
          exact ⟨r4, r5, r7, r2, r3, (by rw [r6]), (fun h => by cases h), fun e _ => r1,
            (fun msg h => by cases h)⟩
        | none =>
          simp only
          cases hs : world.symlink path (world.join sourceDir sfName) with
          | some err =>
            obtain ⟨r1, r2, r3, r4, r5, r6, r7⟩ := runAbort_spec world specID
              { st with files := files,
                        deferred := .remove (world.dir (world.join sourceDir sfName)) :: st.deferred }
            refine ⟨r4, r5, r7, r2, r3, ?_, (fun h => by cases h), fun e _ => r1,
              (fun msg h => by cases h)⟩
            simp only
            rw [r6]
            simp [Deferred.artifactOf]
          | none =>
            simp only
            obtain ⟨i1, i2, i3, i4, i5, i6, i7, i8, i9⟩ := ih
              { st with files := files,
                        deferred := Deferred.addUnlock sfID
                          (.remove (world.dir (world.join sourceDir sfName)) :: st.deferred) }
            refine ⟨i1, i2, i3, i4, i5, ?_, i7, i8, i9⟩
            rw [i6]
            simp only
            rw [addUnlock_artifacts]
            simp [Deferred.artifactOf]
      · simp only [if_neg hdir]
        cases hs : world.symlink path (world.join sourceDir sfName) with
        | some err =>
          obtain ⟨r1, r2, r3, r4, r5, r6, r7⟩ :=
            runAbort_spec world specID { st with files := files }
          exact ⟨r4, r5, r7, r2, r3, (by rw [r6]), (fun h => by cases h), fun e _ => r1,
            (fun msg h => by cases h)⟩
        | none =>
          simp only
          obtain ⟨i1, i2, i3, i4, i5, i6, i7, i8, i9⟩ := ih
            { st with files := files, deferred := Deferred.addUnlock sfID st.deferred }
          refine ⟨i1, i2, i3, i4, i5, ?_, i7, i8, i9⟩
          rw [i6]
          simp only
          rw [addUnlock_artifacts]

/-- The loop over the commands changes the state only by the `abort` it calls
when a command does not render: when it goes on or panics, and when it returns
from a command that rendered and failed to run, the state is as it was. -/
theorem runCmds_spec (world : World) (specID : ID) (ctx : JobContext) (i : Nat)
    (cmds : List Cmd) (out err : List UInt8) (st : RunState) :
    (∀ v, (Worker.runCmds world specID ctx i cmds out err st).1 = .next v →
      (Worker.runCmds world specID ctx i cmds out err st).2 = st) ∧
    (∀ msg, (Worker.runCmds world specID ctx i cmds out err st).1 = .panic msg →
      (Worker.runCmds world specID ctx i cmds out err st).2 = st) ∧
    ((Worker.runCmds world specID ctx i cmds out err st).2 = st ∨
      (Worker.runCmds world specID ctx i cmds out err st).2 = Worker.runAbort world specID st) ∧
    ((∀ tmpl ∈ cmds, ∃ r, world.render tmpl ctx = .ok r) →
      (Worker.runCmds world specID ctx i cmds out err st).2 = st) := by
  induction cmds generalizing i out err with
  | nil => simp [Worker.runCmds]
  | cons tmpl rest ih =>
    simp only [Worker.runCmds]
    cases hr : world.render tmpl ctx with
    | error e =>
      refine ⟨(fun v h => by cases h), (fun msg h => by cases h), Or.inr rfl, fun hall => ?_⟩
      obtain ⟨r, hr'⟩ := hall tmpl (List.mem_cons_self _ _)
      rw [hr] at hr'
      cases hr'
    | ok rendered =>
      simp only
      by_cases hidx : tmpl.Exec ≠ [] ∧ rendered.Exec = []
      · rw [if_pos hidx]
        exact ⟨(fun v h => by cases h), fun _ _ => rfl, Or.inl rfl, fun _ => rfl⟩
      · rw [if_neg hidx]
        cases Worker.command world tmpl rendered with
        | none => exact ⟨(fun v h => by cases h), fun _ _ => rfl, Or.inl rfl, fun _ => rfl⟩
        | some cmd =>
          simp only
          rcases world.run i cmd with ⟨_ | e, o, e2⟩
          · simp only
            obtain ⟨i1, i2, i3, i4⟩ := ih (i + 1) (out ++ o) (err ++ e2)
            exact ⟨i1, i2, i3, fun hall => i4 (fun t ht => hall t (List.mem_cons_of_mem _ ht))⟩
          · exact ⟨(fun v h => by cases h), (fun msg h => by cases h), Or.inl rfl, fun _ => rfl⟩

/-- A job after which the loop goes on: its result was appended to
`finishedJobs`, with exit code 0; `addedArtifacts` grew by the ids of
`spec.Artifacts`, among which the id of the job is not; the one call on the
slot was `commit`; every artifact of `spec.Artifacts` was pinned once and is
still pinned, its release being deferred until `Run` returns. -/
theorem runJob_next (world : World) (spec : JobSpec) (st st' : RunState)
    (h : Worker.runJob world spec st = (.next (), st')) :
    (∃ out err, st'.finishedJobs = st.finishedJobs
      ++ [({ ID := spec.ID, Stdout := out, Stderr := err, ExitCode := 0 } : JobResult)]) ∧
    st'.addedArtifacts = st.addedArtifacts ++ GoMap.keys spec.Artifacts ∧
    spec.ID ∉ GoMap.keys spec.Artifacts ∧
    st'.slotCalls = st.slotCalls ++ [.commit spec.ID] ∧
    spec.ID ∈ st'.artifacts.committed ∧
    (∀ x, st'.artifacts.inUseCount x
      = st.artifacts.inUseCount x + (GoMap.keys spec.Artifacts).count x) ∧
    st'.deferred.filterMap Deferred.artifactOf
      = (GoMap.keys spec.Artifacts).reverse ++ st.deferred.filterMap Deferred.artifactOf ∧
    st'.sent = st.sent := by
  unfold Worker.runJob at h
  obtain ⟨c1, c2, c3, c4, c5, c6, c7, c8⟩ := collectArtifacts_spec world spec.Artifacts [] st
  rcases hca : Worker.collectArtifacts world spec.Artifacts [] st with ⟨depsMap | e | m, st1⟩
  rotate_left
  · rw [hca] at h; simp at h
  · rw [hca] at h; simp at h
  rw [hca] at h c1 c2 c3 c4 c5 c6 c7 c8
  simp only at h c1 c2 c3 c4 c5 c6 c7 c8
  obtain ⟨k1, k2, k3, k4⟩ := c8 depsMap rfl
  have hdf := downloadFiles_spec world spec.SourceFiles st1
  rcases hdl : Worker.downloadFiles world spec.SourceFiles st1 with ⟨⟨⟩ | e | m, st2⟩
  rotate_left
  · rw [hdl] at h; simp at h
  · rw [hdl] at h; simp at h
  rw [hdl] at h hdf
  simp only at h hdf
  cases hcr : st2.artifacts.Create spec.ID with
  | none => rw [hcr] at h; simp at h
  | some r =>
    obtain ⟨path, a⟩ := r
    rw [hcr] at h
    simp only at h
    obtain ⟨n1, n2, n3, n4⟩ := ArtifactCache_Create_spec st2.artifacts a spec.ID path hcr
    have hart : st2.artifacts = st1.artifacts := by rw [hdf]
    cases hmk : world.mkdirTemp with
    | error e => rw [hmk] at h; simp at h
    | ok sourceDir =>
      rw [hmk] at h
      simp only at h
      obtain ⟨l1, l2, l3, l4, l5, l6, l7, l8, l9⟩ := linkSources_spec world spec.ID sourceDir
        spec.SourceFiles (RunState.mk st2.workerID st2.files a st2.runningJobs st2.finishedJobs
          st2.addedArtifacts (.remove sourceDir :: .unlockFiles [] :: st2.deferred) st2.sent
          st2.slotCalls)
      rcases hls : Worker.linkSources world spec.ID sourceDir spec.SourceFiles
        (RunState.mk st2.workerID st2.files a st2.runningJobs st2.finishedJobs
          st2.addedArtifacts (.remove sourceDir :: .unlockFiles [] :: st2.deferred) st2.sent
          st2.slotCalls) with ⟨⟨⟩ | e | m, st5⟩
      rotate_left
      · rw [hls] at h; simp at h
      · rw [hls] at h; simp at h
      rw [hls] at h l1 l2 l3 l4 l5 l6 l7 l8 l9
      simp only at h l1 l2 l3 l4 l5 l6 l7 l8 l9
      obtain ⟨l7a, l7b⟩ := l7 trivial
      obtain ⟨r1, _, _, _⟩ := runCmds_spec world spec.ID
        { SourceDir := sourceDir, OutputDir := path, Deps := depsMap } 0 spec.Job.Cmds [] [] st5
      rcases hrc : Worker.runCmds world spec.ID
        { SourceDir := sourceDir, OutputDir := path, Deps := depsMap } 0 spec.Job.Cmds [] [] st5
        with ⟨⟨bytesOut, bytesErr⟩ | e | m, st6⟩
      rotate_left
      · rw [hrc] at h; simp at h
      · rw [hrc] at h; simp at h
      rw [hrc] at h r1
      simp only at h r1
      have hst6 : st6 = st5 := r1 _ rfl
      subst hst6
      obtain ⟨m1, m2, m3⟩ := ArtifactCache_commit_spec st6.artifacts spec.ID world.commitErr
      rcases hcm : st6.artifacts.commit spec.ID world.commitErr with ⟨_ | e, a1⟩
      rotate_left
      · rw [hcm] at h; simp at h
      rw [hcm] at h m1 m2 m3
      simp only [Prod.mk.injEq, true_and] at h m1 m2 m3
      subst h
      simp only
      have hdef2 : st2.deferred = st1.deferred := by rw [hdf]
      refine ⟨⟨bytesOut, bytesErr, ?_⟩, ?_, ?_, ?_, m3 trivial, fun x => ?_, ?_, ?_⟩
      · rw [l1, hdf, c2]
      · rw [l2, hdf, k1]
      · intro hin
        apply n1
        rw [hart]
        exact k4 _ hin
      · rw [l7a, hdf, c3]
      · rw [inUseCount_congr a1 st1.artifacts (by rw [m1, l7b, n3, hart]), k3]
      · rw [l6]
        simp only [List.filterMap_cons, Deferred.artifactOf, hdef2, k2, List.filterMap_append]
        simp only [List.filterMap_map, List.filterMap_reverse, List.append_cancel_right_eq]
        have hs : (Deferred.artifactOf ∘ Deferred.unlockArtifact) = some := funext fun _ => rfl
        rw [hs, List.filterMap_some]
      · rw [l3, hdf, c4]

theorem ArtifactCache_unlock_count (c : ArtifactCache) (id x : ID) :
    (c.unlock id).inUseCount x = c.inUseCount x - (if x = id then 1 else 0) := by
  by_cases hx : x = id
  · subst hx
    simp [ArtifactCache.unlock, ArtifactCache.inUseCount, GoMap.load_store_self]
  · simp only [ArtifactCache.unlock, ArtifactCache.inUseCount, GoMap.load_store_ne _ _ _ _ hx,
      if_neg hx, Nat.sub_zero]

/-- The deferred calls, when they run, release each pinned artifact once for
each deferred release. -/
theorem runDeferred_inUse (st : RunState) (x : ID) :
    st.runDeferred.artifacts.inUseCount x
      = st.artifacts.inUseCount x - (st.deferred.filterMap Deferred.artifactOf).count x := by
  unfold RunState.runDeferred
  have hgen : ∀ (ds : List Deferred) (s : RunState),
      (ds.foldl
        (fun s d =>
          match d with
          | .unlockArtifact id => { s with artifacts := s.artifacts.unlock id }
          | .unlockFiles ids => { s with files := ids.reverse.foldl Cache.unlock s.files }
          | .remove _ => s) s).artifacts.inUseCount x
        = s.artifacts.inUseCount x - (ds.filterMap Deferred.artifactOf).count x := by
    intro ds
    induction ds with
    | nil => intro s; simp
    | cons d ds ih =>
      intro s
      rw [List.foldl_cons, ih]
      cases d with
      | unlockArtifact id =>
        simp only [ArtifactCache_unlock_count, List.filterMap_cons, Deferred.artifactOf,
          List.count_cons]
        by_cases hx : x = id
        · subst hx; simp; omega
        · have : ¬ id = x := fun e => hx e.symm
          simp [hx, this]
      | unlockFiles ids => simp [Deferred.artifactOf]
      | remove path => simp [Deferred.artifactOf]
  exact hgen st.deferred _

/-- C16: what the worker reports after a job. Take an iteration whose
heartbeat response holds one job and after which the loop goes on (every
command of the job succeeded and so did the commit). Then the one call on the
slot of the job was `commit` and the artifact is committed; the request of the
next heartbeat carries in `FinishedJob` exactly the result of the job, with
exit code 0, and in `AddedArtifacts` exactly the ids of `spec.Artifacts`, the
dependencies of the job: the id of the job itself is not among them. -/
theorem next_heartbeat_after_job (turn : Turn) (key : ID) (spec : JobSpec) (st st' : RunState)
    (hreply : turn.reply = .ok { JobsToRun := [(key, spec)] })
    (h : Worker.iteration turn st = (.next (), st')) :
    st'.slotCalls = st.slotCalls ++ [.commit spec.ID] ∧
    spec.ID ∈ st'.artifacts.committed ∧
    (∃ out err, (Worker.hbReq st').FinishedJob
      = [({ ID := spec.ID, Stdout := out, Stderr := err, ExitCode := 0 } : JobResult)]) ∧
    (Worker.hbReq st').AddedArtifacts = GoMap.keys spec.Artifacts ∧
    spec.ID ∉ (Worker.hbReq st').AddedArtifacts := by
  simp only [Worker.iteration, hreply, Worker.runJobs] at h
  rcases hj : Worker.runJob (turn.world 0) spec
    (RunState.mk st.workerID st.files st.artifacts st.runningJobs [] [] st.deferred
      (st.sent ++ [Worker.hbReq st]) st.slotCalls) with ⟨⟨⟩ | e | m, st1⟩
  rotate_left
  · rw [hj] at h; simp at h
  · rw [hj] at h; simp at h
  rw [hj] at h
  simp only [Prod.mk.injEq, true_and] at h
  subst h
  obtain ⟨⟨out, err, j1⟩, j2, j3, j4, j5, _⟩ := runJob_next _ _ _ _ hj
  simp only [List.nil_append] at j1 j2
  refine ⟨j4, j5, ⟨out, err, j1⟩, j2, ?_⟩
  simp only [Worker.hbReq, j2]
  exact j3

/-- C16 on the job `Example.specEcho`, run by a worker with empty caches: the
next heartbeat reports the job finished and adds no artifact. -/
theorem next_heartbeat_after_job_witness :
    (Worker.iteration Example.turnEcho Example.freshRun).1 = .next () ∧
    (Worker.hbReq (Worker.iteration Example.turnEcho Example.freshRun).2).FinishedJob
      = [{ ID := ⟨"j1"⟩ }] ∧
    (Worker.hbReq (Worker.iteration Example.turnEcho Example.freshRun).2).AddedArtifacts = [] ∧
    Example.specEcho.ID ∉
      (Worker.hbReq (Worker.iteration Example.turnEcho Example.freshRun).2).AddedArtifacts :=
  ⟨by decide, by decide, by decide,
    (next_heartbeat_after_job Example.turnEcho ⟨"j1"⟩ Example.specEcho Example.freshRun
      (Worker.iteration Example.turnEcho Example.freshRun).2 rfl
      (Prod.ext (by decide) rfl)).2.2.2.2⟩

/-- C17: the calls on the artifact slot of a job. A job after which the loop
goes on has made one call, `commit`. The loop that links the source files,
when it returns an error, has made one call, `abort`; so has the loop over the
commands when a command does not render. But when a command that rendered
fails to run, the loop over the commands returns the error with the state as
it was: neither `commit` nor `abort` is called. So it is for the job
`Example.specEcho` in a world where the command exits with status 2: `Run`
returns the error, no call was made, and the slot is left writing. -/
theorem runJob_slot_calls (world : World) (spec : JobSpec) (st : RunState) :
    (∀ st', Worker.runJob world spec st = (.next (), st') →
      st'.slotCalls = st.slotCalls ++ [.commit spec.ID]) ∧
    (∀ sourceDir l s e, (Worker.linkSources world spec.ID sourceDir l s).1 = .ret e →
      (Worker.linkSources world spec.ID sourceDir l s).2.slotCalls
        = s.slotCalls ++ [.abort spec.ID]) ∧
    (∀ ctx i tmpl rest out err s e, world.render tmpl ctx = .error e →
      (Worker.runCmds world spec.ID ctx i (tmpl :: rest) out err s).2.slotCalls
        = s.slotCalls ++ [.abort spec.ID]) ∧
    (∀ ctx i cmds out err s, (∀ tmpl ∈ cmds, ∃ r, world.render tmpl ctx = .ok r) →
      (Worker.runCmds world spec.ID ctx i cmds out err s).2 = s) ∧
    ((Worker.runJob Example.worldCmdFails Example.specEcho Example.freshRun).1
        = .ret "error during cmd 'sh -c echo hi' running: exit status 2" ∧
      (Worker.runJob Example.worldCmdFails Example.specEcho Example.freshRun).2.slotCalls = [] ∧
      (Worker.runJob Example.worldCmdFails Example.specEcho Example.freshRun).2.artifacts.writing
        = [⟨"j1"⟩]) := by
  refine ⟨fun st' h => (runJob_next world spec st st' h).2.2.2.1,
    fun sourceDir l s e h => (linkSources_spec world spec.ID sourceDir l s).2.2.2.2.2.2.2.1 e h,
    fun ctx i tmpl rest out err s e hr => ?_,
    fun ctx i cmds out err s hall => (runCmds_spec world spec.ID ctx i cmds out err s).2.2.2 hall,
    by decide, by decide, by decide⟩
  simp only [Worker.runCmds, hr]
  rfl

/-- C18: the pins of the dependencies. After a job after which the loop goes
on, the in-use count of every artifact is its count before the job plus one
for each entry of `spec.Artifacts` with its id: the releases are deferred calls
of `Run`, still waiting, and they run when `Run` returns, which brings the
counts back to what the return would have given before the job. -/
theorem runJob_pins_kept (world : World) (spec : JobSpec) (st st' : RunState)
    (h : Worker.runJob world spec st = (.next (), st')) :
    (∀ x, st'.artifacts.inUseCount x
      = st.artifacts.inUseCount x + (GoMap.keys spec.Artifacts).count x) ∧
    st'.deferred.filterMap Deferred.artifactOf
      = (GoMap.keys spec.Artifacts).reverse ++ st.deferred.filterMap Deferred.artifactOf ∧
    ∀ x, st'.runDeferred.artifacts.inUseCount x = st.runDeferred.artifacts.inUseCount x := by
  obtain ⟨_, _, _, _, _, j6, j7, _⟩ := runJob_next world spec st st' h
  refine ⟨j6, j7, fun x => ?_⟩
  rw [runDeferred_inUse, runDeferred_inUse, j6, j7, List.count_append, List.count_reverse]
  omega

/-- C18 on the job `Example.specWithDep`, whose dependency `a` is in the cache
of the worker and not in use: after the job the count of `a` is 1. -/
theorem runJob_pins_kept_witness :
    (Worker.runJob Example.world Example.specWithDep Example.runWithA).1 = .next () ∧
    Example.runWithA.artifacts.inUseCount ⟨"a"⟩ = 0 ∧
    (Worker.runJob Example.world Example.specWithDep Example.runWithA).2.artifacts.inUseCount
      ⟨"a"⟩ = 1 :=
  ⟨by decide, by decide,
    ((runJob_pins_kept Example.world Example.specWithDep Example.runWithA
      (Worker.runJob Example.world Example.specWithDep Example.runWithA).2
      (Prod.ext (by decide) rfl)).1 ⟨"a"⟩).trans (by decide)⟩

/-! ## Claims on the client -/

/-- A round of the loop of `Client.Build` is one `Next` on the reader. -/
theorem loop_Next (s : MyStatusReader) (calls : List ListenerCall) :
    Client.Build.loop s.err s.updates calls
      = match s.Next with
        | (_, some .eof, _) => (none, calls)
        | (_, some (.other msg), _) => (some msg, calls)
        | (upd, none, s1) =>
          if upd.BuildFinished.isSome then (none, calls)
          else
            match upd.BuildFailed with
            | some failed => (some failed.Error, calls)
            | none => Client.Build.loop s1.err s1.updates
                (calls ++ Client.Build.notify upd.JobFinished) := by
  obtain ⟨updates, err⟩ := s
  cases updates with
  | nil => cases err <;> rfl
  | cons upd rest => rfl

/-- What the loop of `Client.Build` returns: on a stream without a terminal
update, nil when the stream ends with `io.EOF` and the error of the reader
otherwise; on a stream whose first terminal update is `u`, nil when `u` holds
`BuildFinished` and otherwise the message of its `BuildFailed`. -/
theorem loop_spec (err : ReadError) (updates : List StatusUpdate) (calls : List ListenerCall) :
    ((∀ v ∈ updates, v.isTerminal = false) →
      (Client.Build.loop err updates calls).1
        = match err with
          | .eof => none
          | .other msg => some msg) ∧
    (∀ pre u post, updates = pre ++ u :: post → (∀ v ∈ pre, v.isTerminal = false) →
      (u.BuildFinished.isSome = true → (Client.Build.loop err updates calls).1 = none) ∧
      (∀ failed, u.BuildFinished = none → u.BuildFailed = some failed →
        (Client.Build.loop err updates calls).1 = some failed.Error)) := by
  induction updates generalizing calls with
  | nil =>
    refine ⟨fun _ => ?_, fun pre u post h => ?_⟩
    · cases err <;> rfl
    · cases pre <;> cases h
  | cons upd rest ih =>
    refine ⟨fun hno => ?_, fun pre u post h hpre => ?_⟩
    · have h1 := hno upd (List.mem_cons_self _ _)
      simp only [StatusUpdate.isTerminal, Bool.or_eq_false_iff] at h1
      obtain ⟨hbf, hfin⟩ := h1
      have hbf' : upd.BuildFailed = none := by
        cases hb : upd.BuildFailed with
        | none => rfl
        | some f => rw [hb] at hbf; cases hbf
      simp only [Client.Build.loop, hfin, Bool.false_eq_true, if_false, hbf']
      exact (ih _).1 (fun v hv => hno v (List.mem_cons_of_mem _ hv))
    · cases pre with
      | nil =>
        simp only [List.nil_append, List.cons.injEq] at h
        obtain ⟨rfl, rfl⟩ := h
        refine ⟨fun hfin => ?_, fun failed hfin hbf => ?_⟩
        · simp [Client.Build.loop, hfin]
        · simp [Client.Build.loop, hfin, hbf]
      | cons p pre =>
        simp only [List.cons_append, List.cons.injEq] at h
        obtain ⟨rfl, rfl⟩ := h
        have h1 := hpre upd (List.mem_cons_self _ _)
        simp only [StatusUpdate.isTerminal, Bool.or_eq_false_iff] at h1
        obtain ⟨hbf, hfin⟩ := h1
        have hbf' : upd.BuildFailed = none := by
          cases hb : upd.BuildFailed with
          | none => rfl
          | some f => rw [hb] at hbf; cases hbf
        simp only [Client.Build.loop, hfin, Bool.false_eq_true, if_false, hbf']
        exact (ih _).2 pre u post rfl (fun v hv => hpre v (List.mem_cons_of_mem _ hv))

/-- A list of updates either has no terminal update or splits at its first
one. -/
theorem first_terminal (updates : List StatusUpdate) :
    (∀ v ∈ updates, v.isTerminal = false) ∨
    ∃ pre u post, updates = pre ++ u :: post ∧ (∀ v ∈ pre, v.isTerminal = false) ∧
      u.isTerminal = true := by
  induction updates with
  | nil => exact Or.inl (fun v hv => by cases hv)
  | cons upd rest ih =>
    cases ht : upd.isTerminal with
    | true => exact Or.inr ⟨[], upd, rest, rfl, (fun v hv => by cases hv), ht⟩
    | false =>
      rcases ih with hno | ⟨pre, u, post, h1, h2, h3⟩
      · refine Or.inl (fun v hv => ?_)
        rcases List.mem_cons.mp hv with rfl | hv
        · exact ht
        · exact hno v hv
      · refine Or.inr ⟨upd :: pre, u, post, by rw [h1]; rfl, fun v hv => ?_, h3⟩
        rcases List.mem_cons.mp hv with rfl | hv
        · exact ht
        · exact h2 v hv

/-- C20 (as stated, refuted): the build starts, the signal is accepted, and the
stream of updates ends with `io.EOF` after one `JobFinished`, before any
`BuildFinished` or `BuildFailed`; `Build` returns nil. -/
theorem Build_eof_counterexample :
    (∀ v ∈ [({ JobFinished := some { ID := ⟨"a"⟩ } } : StatusUpdate)], v.isTerminal = false) ∧
    (Client.Build (Example.session [{ JobFinished := some { ID := ⟨"a"⟩ } }] .eof)
      (fun a b => a ++ "/" ++ b) "src" Example.request.Graph).1 = none := by
  decide

/-- C20 (amended): the result of `Client.Build`. It returns nil only if the
build was started and either a `BuildFinished` was read as the first terminal
update or the stream ended with `io.EOF` before any terminal update. Once the
build is started, the files uploaded and the signal accepted: on a stream
without a terminal update `Build` returns nil when the stream ends with
`io.EOF` and the error of the reader when it fails otherwise; on a stream whose
first terminal update holds `BuildFinished` it returns nil, and when that
update holds `BuildFailed` only, it returns an error with the message of the
update. -/
theorem Build_result (session : Session) (join : String → String → String)
    (sourceDir : String) (graph : Graph) :
    ((Client.Build session join sourceDir graph).1 = none →
      ∃ build reader, session.startBuild = .ok (build, reader) ∧
        ((∃ pre u post, reader.updates = pre ++ u :: post ∧
            (∀ v ∈ pre, v.isTerminal = false) ∧ u.BuildFinished.isSome = true) ∨
          ((∀ v ∈ reader.updates, v.isTerminal = false) ∧ reader.err = .eof))) ∧
    (∀ build reader, session.startBuild = .ok (build, reader) →
      Client.Build.uploads session join sourceDir graph build.MissingFiles = none →
      session.signal = none →
      ((∀ v ∈ reader.updates, v.isTerminal = false) →
        (Client.Build session join sourceDir graph).1
          = match reader.err with
            | .eof => none
            | .other msg => some msg) ∧
      (∀ pre u post, reader.updates = pre ++ u :: post → (∀ v ∈ pre, v.isTerminal = false) →
        (u.BuildFinished.isSome = true → (Client.Build session join sourceDir graph).1 = none) ∧
        (∀ failed, u.BuildFinished = none → u.BuildFailed = some failed →
          (Client.Build session join sourceDir graph).1 = some failed.Error))) := by
  constructor
  · intro hnil
    unfold Client.Build at hnil
    cases hs : session.startBuild with
    | error e => rw [hs] at hnil; simp at hnil
    | ok r =>
      obtain ⟨build, reader⟩ := r
      rw [hs] at hnil
      simp only at hnil
      cases hu : Client.Build.uploads session join sourceDir graph build.MissingFiles with
      | some e => rw [hu] at hnil; simp at hnil
      | none =>
        rw [hu] at hnil
        simp only at hnil
        cases hg : session.signal with
        | some e => rw [hg] at hnil; simp at hnil
        | none =>
          rw [hg] at hnil
          simp only at hnil
          refine ⟨build, reader, rfl, ?_⟩
          obtain ⟨l1, l2⟩ := loop_spec reader.err reader.updates []
          rcases first_terminal reader.updates with hno | ⟨pre, u, post, h1, h2, h3⟩
          · refine Or.inr ⟨hno, ?_⟩
            have := l1 hno
            rw [hnil] at this
            cases he : reader.err with
            | eof => rfl
            | other msg => rw [he] at this; cases this
          · obtain ⟨m1, m2⟩ := l2 pre u post h1 h2
            cases hfin : u.BuildFinished with
            | some f => exact Or.inl ⟨pre, u, post, h1, h2, by rw [hfin]; rfl⟩
            | none =>
              cases hbf : u.BuildFailed with
              | some failed =>
                have := m2 failed hfin hbf
                rw [hnil] at this
                cases this
              | none =>
                simp [StatusUpdate.isTerminal, hfin, hbf] at h3
  · intro build reader hs hu hg
    have hb : Client.Build session join sourceDir graph
        = Client.Build.loop reader.err reader.updates [] := by
      unfold Client.Build
      simp only [hs, hu, hg]
    rw [hb]
    exact loop_spec reader.err reader.updates []

/-- C20 (amended) on a stream with a `JobFinished` and then a `BuildFailed`:
`Build` returns the message of the `BuildFailed`. -/
theorem Build_result_witness :
    (Client.Build
      (Example.session [{ JobFinished := some { ID := ⟨"a"⟩ } },
        { BuildFailed := some { Error := "boom" } }] (.other "reset"))
      (fun a b => a ++ "/" ++ b) "src" Example.request.Graph).1 = some "boom" :=
  ((((Build_result
      (Example.session [{ JobFinished := some { ID := ⟨"a"⟩ } },
        { BuildFailed := some { Error := "boom" } }] (.other "reset"))
      (fun a b => a ++ "/" ++ b) "src" Example.request.Graph).2
    { ID := ⟨"B1"⟩, MissingFiles := [] }
    { updates := [{ JobFinished := some { ID := ⟨"a"⟩ } },
        { BuildFailed := some { Error := "boom" } }], err := .other "reset" }
    rfl rfl rfl).2 [{ JobFinished := some { ID := ⟨"a"⟩ } }]
      { BuildFailed := some { Error := "boom" } } [] rfl (by decide)).2)
      { Error := "boom" } rfl rfl

/-! ## Claim on the read lock of `ScheduleJob` -/

/-- C21: the read lock of `ScheduleJob`. On a scheduler on whose lock no writer
holds or waits: when the scheduler is not stopped `ScheduleJob` leaves the lock
as it was, on every outcome; when it is stopped `ScheduleJob` returns nil and
the read lock it took is still held, one more reader for every call, so that
`Stop` then does not get the write lock: it is left pending behind the readers,
and a `ScheduleJob` called after it waits as well. -/
theorem ScheduleJob_lock_balance (c : Scheduler) (hw : c.stoppedMu.writer = false) :
    (c.stopped = false → ∀ job, (ScheduleJob c job).2.stoppedMu = c.stoppedMu) ∧
    (c.stopped = true → ∀ job,
      (ScheduleJob c job).1 = .ok none ∧
      (ScheduleJob c job).2.stoppedMu.readers = c.stoppedMu.readers + 1 ∧
      Stop (ScheduleJob c job).2
        = (.blocked, { (ScheduleJob c job).2 with
            stoppedMu := { readers := c.stoppedMu.readers + 1, writer := true } }) ∧
      ∀ job', (ScheduleJob (Stop (ScheduleJob c job).2).2 job').1 = .blocked) ∧
    (c.stopped = true → ∀ jobs : List JobSpec,
      (scheduleAll c jobs).2.stoppedMu.readers = c.stoppedMu.readers + jobs.length ∧
      (jobs ≠ [] → Stop (scheduleAll c jobs).2
        = (.blocked, { (scheduleAll c jobs).2 with
            stoppedMu := { readers := c.stoppedMu.readers + jobs.length, writer := true } }))) := by
  refine ⟨fun hs job => ScheduleJob_unlocks c job hw hs, fun hs job => ?_, fun hs jobs => ?_⟩
  · have e1 := ScheduleJob_leaks c job hw hs
    refine ⟨by rw [e1], by rw [e1], ?_,
      fun job' => (ScheduleJob_then_Stop c job job' hw hs).2.2⟩
    rw [Stop_waits _ (by rw [e1]; exact hw) (by rw [e1]; exact Nat.succ_pos _), e1]
  · obtain ⟨h1, h2, _⟩ := scheduleAll_leaks c jobs hw hs
    refine ⟨h1, fun hne => ?_⟩
    rw [Stop_waits _ h2 (by rw [h1]; have := List.length_pos.mpr hne; omega), ← h1]

/-- C21 on a new scheduler after `Stop`: one `ScheduleJob` returns nil and
leaves one reader on the lock, which had none, and a second `Stop` waits. -/
theorem ScheduleJob_lock_balance_witness :
    (Stop (NewScheduler defaultConfig)).2.stoppedMu = { readers := 0, writer := false } ∧
    (Stop (NewScheduler defaultConfig)).2.stopped = true ∧
    (ScheduleJob (Stop (NewScheduler defaultConfig)).2 Example.specEcho).1 = .ok none ∧
    (ScheduleJob (Stop (NewScheduler defaultConfig)).2 Example.specEcho).2.stoppedMu.readers
      = (Stop (NewScheduler defaultConfig)).2.stoppedMu.readers + 1 ∧
    (Stop (ScheduleJob (Stop (NewScheduler defaultConfig)).2 Example.specEcho).2).1 = .blocked :=
  ⟨by decide, by decide,
    ((ScheduleJob_lock_balance (Stop (NewScheduler defaultConfig)).2 (by decide)).2.1 (by decide)
      Example.specEcho).1,
    ((ScheduleJob_lock_balance (Stop (NewScheduler defaultConfig)).2 (by decide)).2.1 (by decide)
      Example.specEcho).2.1,
    congrArg Prod.fst
      ((ScheduleJob_lock_balance (Stop (NewScheduler defaultConfig)).2 (by decide)).2.1
        (by decide) Example.specEcho).2.2.1⟩

end Distbuild
